import Mathlib

/-!
# keepalivego

A verification development for two engines of the repository:

* `lvs.go`: `LVS.ReloadConfig`, which reconciles the configured virtual services with the
  kernel's IPVS table through a `libipvs.IPVSHandle`;
* `vrrp/engine_client.go`: `VIPsUpdateEngine.HAState`, which adds or removes the virtual IP
  addresses of a node when its VRRP role changes and supervises the gratuitous-ARP senders.

The collaborators (`libipvs`, `netutil`, `net.ParseIP`) are not part of the repository.  They
are parameters of the embedded functions: every call goes through a handle whose operations
take and return an explicit state, and every call is recorded, with its response, in the list
of events that the embedded function returns.
-/

namespace Keepalivego

/-! ## Addresses (`net.IP`) -/

/-- A Go `net.IP`: a byte slice, 4 bytes long for the short IPv4 form, 16 bytes long for an
IPv6 address or an IPv4 address in its IPv6 form, and empty for `nil` (what `net.ParseIP`
returns for a string that is not an address). -/
structure IP where
  bytes : List Nat
deriving DecidableEq, Repr

/-- The 12 bytes that precede an IPv4 address in its 16-byte form (`v4InV6Prefix` of
package `net`). -/
def v4InV6Pfx : List Nat := [0, 0, 0, 0, 0, 0, 0, 0, 0, 0, 0xff, 0xff]

/-- `net.IP.Equal`: byte equality for slices of one length; a 4-byte address equals the
16-byte address made of `v4InV6Pfx` followed by the same 4 bytes. -/
def IP.Equal (ip x : IP) : Bool :=
  if ip.bytes.length = x.bytes.length then
    decide (ip.bytes = x.bytes)
  else if ip.bytes.length = 4 ∧ x.bytes.length = 16 then
    decide (x.bytes.take 12 = v4InV6Pfx) && decide (ip.bytes = x.bytes.drop 12)
  else if ip.bytes.length = 16 ∧ x.bytes.length = 4 then
    decide (ip.bytes.take 12 = v4InV6Pfx) && decide (ip.bytes.drop 12 = x.bytes)
  else
    false

/-- `net.IP.To4`: the 4-byte form of an IPv4 address, `nil` (no bytes) for anything else. -/
def IP.To4 (ip : IP) : IP :=
  if ip.bytes.length = 4 then ip
  else if ip.bytes.length = 16 ∧ (ip.bytes.take 10).all (fun b => b == 0)
      ∧ ip.bytes.getD 10 0 = 0xff ∧ ip.bytes.getD 11 0 = 0xff then
    ⟨ip.bytes.drop 12⟩
  else ⟨[]⟩

/-- `syscall.AF_INET` on Linux. -/
def AF_INET : Nat := 2

/-- `syscall.AF_INET6` on Linux. -/
def AF_INET6 : Nat := 10

/-- `syscall.IPPROTO_TCP`. -/
def IPPROTO_TCP : Nat := 6

/-- `libipvs.IP_VS_CONN_F_MASQ` (masquerading, NAT), value of `linux/ip_vs.h`. -/
def IP_VS_CONN_F_MASQ : Nat := 0

/-- `libipvs.IP_VS_CONN_F_DROUTE` (direct routing), value of `linux/ip_vs.h`. -/
def IP_VS_CONN_F_DROUTE : Nat := 3

/-- `ipAddressFamily` (lvs.go, lines 205-211). -/
def ipAddressFamily (ip : IP) : Nat :=
  if (ip.To4).bytes ≠ [] then AF_INET else AF_INET6

/-! ## Configuration (lvs.go, lines 16-42) -/

/-- `ConfigServer`. -/
structure ConfigServer where
  Port : Nat
  Address : String
  Weight : Nat
deriving DecidableEq, Repr

/-- `ConfigLVS`; the Go field `Type` is `Type_` here. -/
structure ConfigLVS where
  Name : String
  Port : Nat
  Address : String
  Schedule : String
  Type_ : String
  Servers : List ConfigServer
deriving DecidableEq, Repr

/-- `ConfigVRRP`. -/
structure ConfigVRRP where
  VRID : Int
  Priority : Int
  Address : String
deriving DecidableEq, Repr

/-- `Config`. -/
structure Config where
  LogFile : String
  EnableDebugLog : Bool
  VRRP : List ConfigVRRP
  LVS : List ConfigLVS
deriving DecidableEq, Repr

/-- The zero value of `ConfigLVS`, what `var serviceConf ConfigLVS` (line 65) declares. -/
def ConfigLVS.zero : ConfigLVS := ⟨"", 0, "", "", "", []⟩

/-! ## The IPVS collaborator (`libipvs`) -/

/-- The fields of `libipvs.Service` that `ReloadConfig` sets or reads; it leaves every other
field of the records it builds at its zero value. -/
structure Service where
  Address : IP
  AddressFamily : Nat
  Protocol : Nat
  Port : Nat
  SchedName : String
deriving DecidableEq, Repr

/-- The fields of `libipvs.Destination` that `ReloadConfig` sets or reads. -/
structure Destination where
  Address : IP
  AddressFamily : Nat
  Port : Nat
  FwdMethod : Nat
  Weight : Nat
deriving DecidableEq, Repr

/-- A call of a method of `libipvs.IPVSHandle`, with its arguments. -/
inductive Call where
  | ListServices
  | ListDestinations (s : Service)
  | NewService (s : Service)
  | UpdateService (s : Service)
  | DelService (s : Service)
  | NewDestination (s : Service) (d : Destination)
  | UpdateDestination (s : Service) (d : Destination)
  | DelDestination (s : Service) (d : Destination)
deriving DecidableEq, Repr

/-- What a call returned: an error, success without a value, or a listing. -/
inductive Resp where
  | err (e : String)
  | done
  | services (l : List Service)
  | dests (l : List Destination)
deriving DecidableEq, Repr

/-- The listing of a response (empty when the response carries none). -/
def Resp.getServices : Resp → List Service
  | .services l => l
  | _ => []

/-- The listing of a response (empty when the response carries none). -/
def Resp.getDests : Resp → List Destination
  | .dests l => l
  | _ => []

/-- A response other than an error. -/
def Resp.ok : Resp → Bool
  | .err _ => false
  | _ => true

/-- One collaborator call as it happened: the call and its response. -/
structure Event where
  call : Call
  resp : Resp
deriving DecidableEq, Repr

/-- The call of the event returned without an error. -/
def Event.ok (e : Event) : Bool := e.resp.ok

/-- The methods of `libipvs.IPVSHandle` that `ReloadConfig` uses, over an explicit state `σ`
of the collaborator.  A listing method returns its list or an error; the other methods return
Go's `error`, `none` for `nil`. -/
structure IPVSHandle (σ : Type) where
  ListServices : σ → Except String (List Service) × σ
  ListDestinations : Service → σ → Except String (List Destination) × σ
  NewService : Service → σ → Option String × σ
  UpdateService : Service → σ → Option String × σ
  DelService : Service → σ → Option String × σ
  NewDestination : Service → Destination → σ → Option String × σ
  UpdateDestination : Service → Destination → σ → Option String × σ
  DelDestination : Service → Destination → σ → Option String × σ

/-- The response of a listing method as a `Resp`. -/
def respOfList {α : Type} (wrap : α → Resp) : Except String α → Resp
  | .ok l => wrap l
  | .error e => .err e

/-- The response of a method that returns only an `error`. -/
def respOfErr : Option String → Resp
  | none => .done
  | some e => .err e

/-- Dispatch of a call to the method of the handle: its response and the next state. -/
def IPVSHandle.exec {σ : Type} (h : IPVSHandle σ) (c : Call) (st : σ) : Resp × σ :=
  match c with
  | .ListServices => (respOfList Resp.services (h.ListServices st).1, (h.ListServices st).2)
  | .ListDestinations s =>
    (respOfList Resp.dests (h.ListDestinations s st).1, (h.ListDestinations s st).2)
  | .NewService s => (respOfErr (h.NewService s st).1, (h.NewService s st).2)
  | .UpdateService s => (respOfErr (h.UpdateService s st).1, (h.UpdateService s st).2)
  | .DelService s => (respOfErr (h.DelService s st).1, (h.DelService s st).2)
  | .NewDestination s d => (respOfErr (h.NewDestination s d st).1, (h.NewDestination s d st).2)
  | .UpdateDestination s d =>
    (respOfErr (h.UpdateDestination s d st).1, (h.UpdateDestination s d st).2)
  | .DelDestination s d => (respOfErr (h.DelDestination s d st).1, (h.DelDestination s d st).2)

/-! ## `LVS.ReloadConfig` (lvs.go, lines 55-203) -/

/-- What a run returns: Go's `error` (`none` for `nil`), the state of the collaborator at the
return, and the calls made, in order. -/
structure Outcome (σ : Type) where
  err : Option String
  st : σ
  events : List Event

/-- The outcome with one more event in front. -/
def Outcome.after {σ : Type} (r : Outcome σ) (ev : Event) : Outcome σ :=
  ⟨r.err, r.st, ev :: r.events⟩

/-- Sequencing with early return: when `r` ended with an error that is the result, otherwise
the run goes on with `k` from the state `r` reached. -/
def Outcome.andThen {σ : Type} (r : Outcome σ) (k : σ → Outcome σ) : Outcome σ :=
  match r.err with
  | some _ => r
  | none => ⟨(k r.st).err, (k r.st).st, r.events ++ (k r.st).events⟩

/-- One collaborator call followed by Go's `if err != nil { return wrapped error }`: on an
error the run ends there with the wrapped error (`msg` is the text of the `fmt.Errorf` format
before `%v`), otherwise it goes on with `k`, which receives the response. -/
def perform {σ : Type} (h : IPVSHandle σ) (c : Call) (msg : String)
    (k : Resp → σ → Outcome σ) (st : σ) : Outcome σ :=
  match h.exec c st with
  | (.err e, st1) => ⟨some (msg ++ e), st1, [⟨c, .err e⟩]⟩
  | (r, st1) => (k r st1).after ⟨c, r⟩

/-- The service record of lines 119-126, built from one configured service. -/
def serviceOf (parseIP : String → IP) (serviceConf : ConfigLVS) : Service :=
  { Address := parseIP serviceConf.Address
    AddressFamily := ipAddressFamily (parseIP serviceConf.Address)
    Protocol := IPPROTO_TCP
    Port := serviceConf.Port
    SchedName := serviceConf.Schedule }

/-- The `switch serviceConf.Type` of lines 162-170. -/
def fwdMethodOf (type : String) : Nat :=
  match type with
  | "dr" => IP_VS_CONN_F_DROUTE
  | "nat" => IP_VS_CONN_F_MASQ
  | _ => IP_VS_CONN_F_MASQ

/-- The destination record of lines 171-178, built from one configured server. -/
def destinationOf (parseIP : String → IP) (serviceConf : ConfigLVS) (server : ConfigServer) :
    Destination :=
  { Address := parseIP server.Address
    AddressFamily := ipAddressFamily (parseIP server.Address)
    Port := server.Port
    FwdMethod := fwdMethodOf serviceConf.Type_
    Weight := server.Weight }

/-- The loop of lines 80-96 over the destinations listed for `ipvsService`: a destination whose
address equals the address of none of `servers` is deleted. -/
def delDestinations {σ : Type} (h : IPVSHandle σ) (parseIP : String → IP) (ipvsService : Service)
    (servers : List ConfigServer) : List Destination → σ → Outcome σ
  | [], st => ⟨none, st, []⟩
  | ipvsDest :: rest, st =>
    if servers.any (fun server => ipvsDest.Address.Equal (parseIP server.Address)) then
      delDestinations h parseIP ipvsService servers rest st
    else
      perform h (.DelDestination ipvsService ipvsDest) "faild delete ipvs destination, err="
        (fun _ st1 => delDestinations h parseIP ipvsService servers rest st1) st

/-- Some configured service has the address of the listed service (lines 66-72). -/
def inConfig (parseIP : String → IP) (config : Config) (ipvsService : Service) : Bool :=
  config.LVS.any (fun serviceConf => ipvsService.Address.Equal (parseIP serviceConf.Address))

/-- The first loop (lines 64-106) over the listed services.  The `serviceConf` that line 82
reads is the variable declared on line 65, which is never assigned: the loop variable of
line 67 has the same name and its own scope, so line 82 ranges over the servers of the zero
value. -/
def pruneServices {σ : Type} (h : IPVSHandle σ) (parseIP : String → IP) (config : Config) :
    List Service → σ → Outcome σ
  | [], st => ⟨none, st, []⟩
  | ipvsService :: rest, st =>
    if inConfig parseIP config ipvsService then
      perform h (.ListDestinations ipvsService) "failed to list ipvs destinations, err="
        (fun r st1 =>
          (delDestinations h parseIP ipvsService ConfigLVS.zero.Servers r.getDests st1).andThen
            (fun st2 => pruneServices h parseIP config rest st2)) st
    else
      perform h (.DelService ipvsService) "faild delete ipvs service, err="
        (fun _ st1 => pruneServices h parseIP config rest st1) st

/-- The destination call of lines 179-199 for one configured server: `UpdateDestination` when
the listing `ipvsDests` has a destination with its address, `NewDestination` otherwise, on the
handle `ipvsService` and with the record built from the configuration. -/
def destinationCall (parseIP : String → IP) (ipvsService : Service)
    (ipvsDests : List Destination) (serviceConf : ConfigLVS) (server : ConfigServer) : Call :=
  if ipvsDests.any (fun ipvsDest => ipvsDest.Address.Equal (parseIP server.Address)) then
    .UpdateDestination ipvsService (destinationOf parseIP serviceConf server)
  else
    .NewDestination ipvsService (destinationOf parseIP serviceConf server)

/-- The loop of lines 153-200 over the servers of one configured service; `ipvsDests` is the
listing fetched on line 146. Both branches of line 179 wrap an error in the same text. -/
def syncDestinations {σ : Type} (h : IPVSHandle σ) (parseIP : String → IP) (ipvsService : Service)
    (ipvsDests : List Destination) (serviceConf : ConfigLVS) :
    List ConfigServer → σ → Outcome σ
  | [], st => ⟨none, st, []⟩
  | server :: rest, st =>
    perform h (destinationCall parseIP ipvsService ipvsDests serviceConf server)
      "faild create ipvs destination, err="
      (fun _ st1 => syncDestinations h parseIP ipvsService ipvsDests serviceConf rest st1) st

/-- The service that lines 113-118 find in the listing for a configured service: the first
one whose address equals the parsed configured address. -/
def findService (parseIP : String → IP) (ipvsServices : List Service) (serviceConf : ConfigLVS) :
    Option Service :=
  ipvsServices.find? (fun ipvsService => ipvsService.Address.Equal (parseIP serviceConf.Address))

/-- The service call of lines 127-144 for one configured service: `NewService` when the
listing has no service with its address, `UpdateService` otherwise. -/
def serviceCall (parseIP : String → IP) (ipvsServices : List Service) (serviceConf : ConfigLVS) :
    Call :=
  match findService parseIP ipvsServices serviceConf with
  | none => .NewService (serviceOf parseIP serviceConf)
  | some _ => .UpdateService (serviceOf parseIP serviceConf)

/-- The text of the error of lines 130 and 139. -/
def serviceMsg (parseIP : String → IP) (ipvsServices : List Service) (serviceConf : ConfigLVS) :
    String :=
  match findService parseIP ipvsServices serviceConf with
  | none => "faild create ipvs service, err="
  | some _ => "faild update ipvs service, err="

/-- The value of the pointer `ipvsService` when line 146 is reached: the listed service found
on lines 113-118, or the new record after line 135. -/
def handleOf (parseIP : String → IP) (ipvsServices : List Service) (serviceConf : ConfigLVS) :
    Service :=
  match findService parseIP ipvsServices serviceConf with
  | none => serviceOf parseIP serviceConf
  | some ipvsService => ipvsService

/-- The second loop (lines 109-201) over the configured services; `ipvsServices` is the
listing of line 56. -/
def syncServices {σ : Type} (h : IPVSHandle σ) (parseIP : String → IP)
    (ipvsServices : List Service) : List ConfigLVS → σ → Outcome σ
  | [], st => ⟨none, st, []⟩
  | serviceConf :: rest, st =>
    perform h (serviceCall parseIP ipvsServices serviceConf)
      (serviceMsg parseIP ipvsServices serviceConf)
      (fun _ st1 =>
        perform h (.ListDestinations (handleOf parseIP ipvsServices serviceConf))
          "failed to list ipvs destinations, err="
          (fun r st2 =>
            (syncDestinations h parseIP (handleOf parseIP ipvsServices serviceConf) r.getDests
              serviceConf serviceConf.Servers st2).andThen
              (fun st3 => syncServices h parseIP ipvsServices rest st3)) st1) st

/-- `LVS.ReloadConfig` (lines 55-203), run on the handle `h` from the collaborator state
`st`. -/
def ReloadConfig {σ : Type} (h : IPVSHandle σ) (parseIP : String → IP) (config : Config)
    (st : σ) : Outcome σ :=
  perform h .ListServices "failed to list ipvs services, err="
    (fun r st1 =>
      (pruneServices h parseIP config r.getServices st1).andThen
        (fun st2 => syncServices h parseIP r.getServices config.LVS st2)) st

/-! ## Replaying calls, and a handle wrapper that makes one chosen call fail -/

/-- The state of the collaborator after the calls of `calls`, made in order from `st`. -/
def IPVSHandle.replay {σ : Type} (h : IPVSHandle σ) (calls : List Call) (st : σ) : σ :=
  calls.foldl (fun s c => (h.exec c s).2) st

/-- The handle `h` with a countdown next to its state: while the countdown is positive a call
is passed to `h` and the countdown decreases; at zero the call returns the error `"injected"`
and reaches nothing of `h`.  Started with countdown `n` it makes the call number `n` (counting
from 0) fail. -/
def IPVSHandle.failAt {σ : Type} (h : IPVSHandle σ) : IPVSHandle (σ × Nat) where
  ListServices := fun x =>
    match x.2 with
    | 0 => (.error "injected", x)
    | n + 1 => ((h.ListServices x.1).1, ((h.ListServices x.1).2, n))
  ListDestinations := fun s x =>
    match x.2 with
    | 0 => (.error "injected", x)
    | n + 1 => ((h.ListDestinations s x.1).1, ((h.ListDestinations s x.1).2, n))
  NewService := fun s x =>
    match x.2 with
    | 0 => (some "injected", x)
    | n + 1 => ((h.NewService s x.1).1, ((h.NewService s x.1).2, n))
  UpdateService := fun s x =>
    match x.2 with
    | 0 => (some "injected", x)
    | n + 1 => ((h.UpdateService s x.1).1, ((h.UpdateService s x.1).2, n))
  DelService := fun s x =>
    match x.2 with
    | 0 => (some "injected", x)
    | n + 1 => ((h.DelService s x.1).1, ((h.DelService s x.1).2, n))
  NewDestination := fun s d x =>
    match x.2 with
    | 0 => (some "injected", x)
    | n + 1 => ((h.NewDestination s d x.1).1, ((h.NewDestination s d x.1).2, n))
  UpdateDestination := fun s d x =>
    match x.2 with
    | 0 => (some "injected", x)
    | n + 1 => ((h.UpdateDestination s d x.1).1, ((h.UpdateDestination s d x.1).2, n))
  DelDestination := fun s d x =>
    match x.2 with
    | 0 => (some "injected", x)
    | n + 1 => ((h.DelDestination s d x.1).1, ((h.DelDestination s d x.1).2, n))

/-! ## A model of the kernel's IPVS table -/

/-- One virtual service of the table with its destinations. -/
structure Entry where
  svc : Service
  dests : List Destination
deriving DecidableEq, Repr

/-- The kernel table: its virtual services, in listing order. -/
abbrev Table := List Entry

/-- Two service records name the same virtual service of the kernel: equal address, port and
protocol. -/
def sameService (a b : Service) : Bool :=
  a.Address.Equal b.Address && decide (a.Port = b.Port) && decide (a.Protocol = b.Protocol)

/-- Two destination records name the same real server of a service: equal address and port. -/
def sameDestination (a b : Destination) : Bool :=
  a.Address.Equal b.Address && decide (a.Port = b.Port)

/-- No two services of the table have the same key and no two destinations of one service
have the same key. -/
def Table.WF (t : Table) : Prop :=
  t.Pairwise (fun a b => sameService a.svc b.svc = false) ∧
    ∀ e ∈ t, e.dests.Pairwise (fun a b => sameDestination a b = false)

/-- The service of the table that a record names, when there is one. -/
def Table.lookup (t : Table) (s : Service) : Option Entry :=
  t.find? (fun e => sameService e.svc s)

/-- The table with `f` applied to the services that `s` names. -/
def Table.modify (t : Table) (s : Service) (f : Entry → Entry) : Table :=
  t.map (fun e => if sameService e.svc s then f e else e)

namespace Kernel

/-- Modelled from the spec: `ListServices() → [Service]` of the Kernel LB Table Client (§6),
which is not part of the repository; it returns the current services. -/
def ListServices (t : Table) : Except String (List Service) × Table :=
  (.ok (t.map Entry.svc), t)

/-- Modelled from the spec: `ListDestinations(Service) → [Destination]` (§6); it returns the
current destinations of the service the record names and fails when there is none. -/
def ListDestinations (s : Service) (t : Table) : Except String (List Destination) × Table :=
  match t.lookup s with
  | some e => (.ok e.dests, t)
  | none => (.error "no such service", t)

/-- Modelled from the spec: `NewService(spec)` (§6); it adds a service without destinations
and fails when the table has a service with the same key. -/
def NewService (s : Service) (t : Table) : Option String × Table :=
  match t.lookup s with
  | some _ => (some "service exists", t)
  | none => (none, t ++ [⟨s, []⟩])

/-- Modelled from the spec: `UpdateService(spec)` (§6); it overwrites the record of the
service with the same key and fails when there is none. -/
def UpdateService (s : Service) (t : Table) : Option String × Table :=
  match t.lookup s with
  | some _ => (none, t.modify s (fun e => ⟨s, e.dests⟩))
  | none => (some "no such service", t)

/-- Modelled from the spec: `DelService(Service)` (§6); it removes the service with its
destinations and fails when there is none. -/
def DelService (s : Service) (t : Table) : Option String × Table :=
  match t.lookup s with
  | some _ => (none, t.filter (fun e => !sameService e.svc s))
  | none => (some "no such service", t)

/-- Modelled from the spec: `NewDestination(Service, spec)` (§6); it adds a destination to
the service and fails when the service is missing or has a destination with the same key. -/
def NewDestination (s : Service) (d : Destination) (t : Table) : Option String × Table :=
  match t.lookup s with
  | none => (some "no such service", t)
  | some e =>
    if e.dests.any (fun x => sameDestination x d) then (some "destination exists", t)
    else (none, t.modify s (fun e => ⟨e.svc, e.dests ++ [d]⟩))

/-- Modelled from the spec: `UpdateDestination(Service, spec)` (§6); it overwrites the
destination with the same key and fails when the service or the destination is missing. -/
def UpdateDestination (s : Service) (d : Destination) (t : Table) : Option String × Table :=
  match t.lookup s with
  | none => (some "no such service", t)
  | some e =>
    if e.dests.any (fun x => sameDestination x d) then
      (none, t.modify s
        (fun e => ⟨e.svc, e.dests.map (fun x => if sameDestination x d then d else x)⟩))
    else (some "no such destination", t)

/-- Modelled from the spec: `DelDestination(Service, Destination)` (§6); it removes the
destination with the same key and fails when the service or the destination is missing. -/
def DelDestination (s : Service) (d : Destination) (t : Table) : Option String × Table :=
  match t.lookup s with
  | none => (some "no such service", t)
  | some e =>
    if e.dests.any (fun x => sameDestination x d) then
      (none, t.modify s (fun e => ⟨e.svc, e.dests.filter (fun x => !sameDestination x d)⟩))
    else (some "no such destination", t)

/-- Modelled from the spec: the Kernel LB Table Client (§6) as a handle whose state is the
table: `New`, `Update` and `Del` calls take effect and `List` calls return the current
contents. -/
def handle : IPVSHandle Table where
  ListServices := ListServices
  ListDestinations := ListDestinations
  NewService := NewService
  UpdateService := UpdateService
  DelService := DelService
  NewDestination := NewDestination
  UpdateDestination := UpdateDestination
  DelDestination := DelDestination

end Kernel

/-- The table entry that a configured service stands for: its service record and one
destination record per configured server, in configuration order. -/
def entryOf (parseIP : String → IP) (serviceConf : ConfigLVS) : Entry :=
  ⟨serviceOf parseIP serviceConf, serviceConf.Servers.map (destinationOf parseIP serviceConf)⟩

/-- A listed service matches a configured one: equal address, same port, protocol TCP and
the same schedule. -/
def serviceMatches (parseIP : String → IP) (s : Service) (serviceConf : ConfigLVS) : Bool :=
  s.Address.Equal (parseIP serviceConf.Address) && decide (s.Port = serviceConf.Port)
    && decide (s.Protocol = IPPROTO_TCP) && decide (s.SchedName = serviceConf.Schedule)

/-- A listed destination matches a configured server of a configured service: equal address,
same port and weight, and the forwarding flag of the service type. -/
def destinationMatches (parseIP : String → IP) (serviceConf : ConfigLVS) (d : Destination)
    (server : ConfigServer) : Bool :=
  d.Address.Equal (parseIP server.Address) && decide (d.Port = server.Port)
    && decide (d.Weight = server.Weight)
    && decide (d.FwdMethod = fwdMethodOf serviceConf.Type_)

/-- An entry of the table matches a configured service: the service matches, every
destination matches a configured server and every configured server is matched. -/
def entryMatches (parseIP : String → IP) (e : Entry) (serviceConf : ConfigLVS) : Bool :=
  serviceMatches parseIP e.svc serviceConf
    && e.dests.all (fun d => serviceConf.Servers.any (destinationMatches parseIP serviceConf d))
    && serviceConf.Servers.all
        (fun server => e.dests.any (fun d => destinationMatches parseIP serviceConf d server))

/-- The table matches the configuration exactly: every entry matches a configured service
and every configured service is matched by an entry. -/
def tableMatches (parseIP : String → IP) (t : Table) (config : Config) : Bool :=
  t.all (fun e => config.LVS.any (entryMatches parseIP e))
    && config.LVS.all (fun serviceConf => t.any (fun e => entryMatches parseIP e serviceConf))

/-- The calls that change the table. -/
def Call.isMutation : Call → Bool
  | .ListServices => false
  | .ListDestinations _ => false
  | _ => true

/-- A parser of dotted-quad IPv4 text over the characters of the string: `acc` is the value
of the digits read since the last dot, `seen` tells whether a digit was read since then, and
`out` holds the bytes completed so far. A field that goes on after a leading zero is
refused, as `net.ParseIP` refuses it. -/
def parseQuad : List Char → Nat → Bool → List Nat → Option (List Nat)
  | [], acc, seen, out => if seen ∧ acc < 256 then some (out ++ [acc]) else none
  | c :: cs, acc, seen, out =>
    if c = '.' then
      if seen ∧ acc < 256 then parseQuad cs 0 false (out ++ [acc]) else none
    else if '0' ≤ c ∧ c ≤ '9' then
      if seen ∧ acc = 0 then none else parseQuad cs (acc * 10 + (c.toNat - 48)) true out
    else none

/-- A stand-in for `net.ParseIP` on the canonical dotted-quad text of an IPv4 address (four
decimal fields without leading zeros), where `net.ParseIP` returns the 16-byte form of the
address; every other string gives `nil` here (the real function also reads IPv6 text). The
theorems take the parser as a parameter; this one supplies concrete inputs. -/
def parseIPv4 (s : String) : IP :=
  match parseQuad s.data 0 false [] with
  | some l => if l.length = 4 then ⟨v4InV6Pfx ++ l⟩ else ⟨[]⟩
  | none => ⟨[]⟩


/-! ## The VIP engine (vrrp/engine_client.go) -/

/-- Modelled from the spec: the declaration of `haState` is not among the source files. The
spec (§3, HARole) names two roles: Active, which is `HAMaster` in the code, and Standby, here
`HABackup`. The code only compares a state with `HAMaster`. -/
inductive haState where
  | HAMaster
  | HABackup
deriving DecidableEq, Repr

/-- A Go `net.IPNet`: an address and a mask. -/
structure IPNet where
  IP : IP
  Mask : List Nat
deriving DecidableEq, Repr

/-- What the engine uses of a Go `net.Interface`. -/
structure Interface where
  Index : Nat
  Name : String
deriving DecidableEq, Repr

/-- `VIPsHAConfigVIP` (lines 26-31). The field `cancel` is `none` for Go's `nil` and
`some n` for the cancel function of the context number `n` (see `Runtime`). -/
structure VIPsHAConfigVIP where
  IP : IP
  IPNet : IPNet
  cancel : Option Nat
deriving DecidableEq, Repr

/-- `VIPsHAConfig` (lines 20-24) without the embedded `HAConfig`, which the engine does not
read. -/
structure VIPsHAConfig where
  VIPInterface : Interface
  VIPs : List VIPsHAConfigVIP
deriving DecidableEq, Repr

/-- `VIPsUpdateEngine` (lines 34-36). -/
structure VIPsUpdateEngine where
  Config : VIPsHAConfig
deriving DecidableEq, Repr

/-- The functions of package `netutil` that the engine calls, over an explicit state `σ` of
the network. -/
structure NetHandle (σ : Type) where
  HasAddr : Interface → IP → σ → Except String Bool × σ
  AddAddr : Interface → IP → IPNet → String → σ → Option String × σ
  DelAddr : Interface → IP → IPNet → σ → Option String × σ
  SendGARP : Interface → IP → σ → Option String × σ

/-- The contexts and goroutines of the engine. `ctxs` holds one flag per context made by
`context.WithCancel`, in order of creation, `true` once its cancel function was called;
`loops` holds one pair per `go sendGARPLoop(ctx, intf, vip)`: the number of the context and
the address. -/
structure Runtime where
  ctxs : List Bool
  loops : List (Nat × IP)
deriving DecidableEq, Repr

/-- `context.WithCancel`: a new context, not cancelled; its number is returned. -/
def Runtime.withCancel (rt : Runtime) : Nat × Runtime :=
  (rt.ctxs.length, ⟨rt.ctxs ++ [false], rt.loops⟩)

/-- The statement `go sendGARPLoop(ctx, intf, vip)`. -/
def Runtime.go (rt : Runtime) (ctx : Nat) (vip : IP) : Runtime :=
  ⟨rt.ctxs, rt.loops ++ [(ctx, vip)]⟩

/-- A call of the cancel function of context `n`. -/
def Runtime.cancelCtx (rt : Runtime) (n : Nat) : Runtime :=
  ⟨rt.ctxs.set n true, rt.loops⟩

/-- The loops started for `vip` that were not cancelled: `sendGARPLoop` returns only when its
context is done. -/
def Runtime.running (rt : Runtime) (vip : IP) : List (Nat × IP) :=
  rt.loops.filter (fun p => decide (p.2 = vip) && !(rt.ctxs.getD p.1 true))

/-- What the engine did, in order. `HasAddr` carries the answer, `none` for an error; `AddAddr`
and `DelAddr` carry whether the call succeeded. -/
inductive VEvent where
  | HasAddr (vip : IP) (held : Option Bool)
  | AddAddr (vip : IP) (ok : Bool)
  | DelAddr (vip : IP) (ok : Bool)
  | Start (ctx : Nat) (vip : IP)
  | Cancel (ctx : Nat)
deriving DecidableEq, Repr

/-- What `updateHAStateForVIP` returns and leaves behind: Go's `error`, the entry behind the
pointer `vipCfg`, the state of the network, the contexts and goroutines, and what it did. -/
structure VOutcome (σ : Type) where
  err : Option String
  vip : VIPsHAConfigVIP
  net : σ
  rt : Runtime
  events : List VEvent

/-- Lines 77-82: start a sender when the entry holds no cancel function. -/
def startAnnouncer (vipCfg : VIPsHAConfigVIP) (rt : Runtime) :
    VIPsHAConfigVIP × Runtime × List VEvent :=
  match vipCfg.cancel with
  | none =>
    ({ vipCfg with cancel := some (rt.withCancel).1 },
      (rt.withCancel).2.go (rt.withCancel).1 vipCfg.IP,
      [VEvent.Start (rt.withCancel).1 vipCfg.IP])
  | some _ => (vipCfg, rt, [])

/-- Lines 98-100: call the cancel function when the entry holds one. The field is not
assigned. -/
def cancelAnnouncer (vipCfg : VIPsHAConfigVIP) (rt : Runtime) :
    VIPsHAConfigVIP × Runtime × List VEvent :=
  match vipCfg.cancel with
  | some n => (vipCfg, rt.cancelCtx n, [VEvent.Cancel n])
  | none => (vipCfg, rt, [])

/-- `VIPsUpdateEngine.updateHAStateForVIP` (lines 53-106). -/
def updateHAStateForVIP {σ : Type} (nh : NetHandle σ) (e : VIPsUpdateEngine) (state : haState)
    (vipCfg : VIPsHAConfigVIP) (net : σ) (rt : Runtime) : VOutcome σ :=
  match nh.HasAddr e.Config.VIPInterface vipCfg.IP net with
  | (.error err, net1) =>
    ⟨some ("failed to check interface has VIP, err=" ++ err), vipCfg, net1, rt,
      [.HasAddr vipCfg.IP none]⟩
  | (.ok hasVIP, net1) =>
    if state = haState.HAMaster then
      if hasVIP then
        ⟨none, (startAnnouncer vipCfg rt).1, net1, (startAnnouncer vipCfg rt).2.1,
          .HasAddr vipCfg.IP (some true) :: (startAnnouncer vipCfg rt).2.2⟩
      else
        match nh.AddAddr e.Config.VIPInterface vipCfg.IP vipCfg.IPNet "" net1 with
        | (some err, net2) =>
          ⟨some ("failed to add IP address, err=" ++ err), vipCfg, net2, rt,
            [.HasAddr vipCfg.IP (some false), .AddAddr vipCfg.IP false]⟩
        | (none, net2) =>
          ⟨none, (startAnnouncer vipCfg rt).1, net2, (startAnnouncer vipCfg rt).2.1,
            .HasAddr vipCfg.IP (some false) :: .AddAddr vipCfg.IP true ::
              (startAnnouncer vipCfg rt).2.2⟩
    else
      if hasVIP then
        match nh.DelAddr e.Config.VIPInterface vipCfg.IP vipCfg.IPNet net1 with
        | (some err, net2) =>
          ⟨some ("failed to delete IP address, err=" ++ err), vipCfg, net2, rt,
            [.HasAddr vipCfg.IP (some true), .DelAddr vipCfg.IP false]⟩
        | (none, net2) =>
          ⟨none, (cancelAnnouncer vipCfg rt).1, net2, (cancelAnnouncer vipCfg rt).2.1,
            .HasAddr vipCfg.IP (some true) :: .DelAddr vipCfg.IP true ::
              (cancelAnnouncer vipCfg rt).2.2⟩
      else
        ⟨none, vipCfg, net1, rt, [.HasAddr vipCfg.IP (some false)]⟩

/-- What `HAState` returns and leaves behind. -/
structure HAOutcome (σ : Type) where
  err : Option String
  vips : List VIPsHAConfigVIP
  net : σ
  rt : Runtime
  events : List VEvent

/-- The loop of `HAState` (lines 41-49) over the entries: an error of one entry is logged and
the loop goes on. -/
def updateVIPs {σ : Type} (nh : NetHandle σ) (e : VIPsUpdateEngine) (state : haState) :
    List VIPsHAConfigVIP → σ → Runtime → HAOutcome σ
  | [], net, rt => ⟨none, [], net, rt, []⟩
  | vipCfg :: rest, net, rt =>
    ⟨none,
      (updateHAStateForVIP nh e state vipCfg net rt).vip ::
        (updateVIPs nh e state rest (updateHAStateForVIP nh e state vipCfg net rt).net
          (updateHAStateForVIP nh e state vipCfg net rt).rt).vips,
      (updateVIPs nh e state rest (updateHAStateForVIP nh e state vipCfg net rt).net
          (updateHAStateForVIP nh e state vipCfg net rt).rt).net,
      (updateVIPs nh e state rest (updateHAStateForVIP nh e state vipCfg net rt).net
          (updateHAStateForVIP nh e state vipCfg net rt).rt).rt,
      (updateHAStateForVIP nh e state vipCfg net rt).events ++
        (updateVIPs nh e state rest (updateHAStateForVIP nh e state vipCfg net rt).net
          (updateHAStateForVIP nh e state vipCfg net rt).rt).events⟩

/-- `VIPsUpdateEngine.HAState` (lines 39-51). -/
def HAState {σ : Type} (nh : NetHandle σ) (e : VIPsUpdateEngine) (state : haState) (net : σ)
    (rt : Runtime) : HAOutcome σ :=
  updateVIPs nh e state e.Config.VIPs net rt

/-- The engine, the network and the runtime between two calls of `HAState`. -/
structure World (σ : Type) where
  engine : VIPsUpdateEngine
  net : σ
  rt : Runtime

/-- One call of `HAState` on a world. -/
def World.apply {σ : Type} (nh : NetHandle σ) (w : World σ) (state : haState) : World σ :=
  ⟨⟨⟨w.engine.Config.VIPInterface, (HAState nh w.engine state w.net w.rt).vips⟩⟩,
    (HAState nh w.engine state w.net w.rt).net, (HAState nh w.engine state w.net w.rt).rt⟩

/-- A sequence of calls of `HAState`, one per role, in order. -/
def World.run {σ : Type} (nh : NetHandle σ) (w : World σ) (states : List haState) : World σ :=
  states.foldl (World.apply nh) w

namespace NetModel

/-- Modelled from the spec: `HasAddress(interface, ip) → bool` of the Network Address Client
(§6), over the list of the addresses on the interface; it never fails. -/
def HasAddr (_ : Interface) (ip : IP) (addrs : List IP) : Except String Bool × List IP :=
  (.ok (addrs.any (fun a => a.Equal ip)), addrs)

/-- Modelled from the spec: `AddAddress(interface, ip, prefix, label)` (§6); it never fails. -/
def AddAddr (_ : Interface) (ip : IP) (_ : IPNet) (_ : String) (addrs : List IP) :
    Option String × List IP :=
  (none, addrs ++ [ip])

/-- Modelled from the spec: `DelAddress(interface, ip, prefix)` (§6); it never fails. -/
def DelAddr (_ : Interface) (ip : IP) (_ : IPNet) (addrs : List IP) : Option String × List IP :=
  (none, addrs.filter (fun a => !a.Equal ip))

/-- Modelled from the spec: `SendAnnouncement(interface, ip)` (§6); it never fails and leaves
the addresses alone. -/
def SendGARP (_ : Interface) (_ : IP) (addrs : List IP) : Option String × List IP :=
  (none, addrs)

/-- Modelled from the spec: the Network Address Client (§6) when only the engine changes the
addresses of the interface and every call succeeds. -/
def handle : NetHandle (List IP) where
  HasAddr := HasAddr
  AddAddr := AddAddr
  DelAddr := DelAddr
  SendGARP := SendGARP

end NetModel

/-- The role policy for one entry after `state` was applied: for `HAMaster` the address is on
the interface and a sender is running for it, for any other state the address is not on the
interface and no sender is running for it. -/
def rolePolicy (state : haState) (w : World (List IP)) (vipCfg : VIPsHAConfigVIP) : Bool :=
  if state = haState.HAMaster then
    w.net.any (fun a => a.Equal vipCfg.IP) && !(w.rt.running vipCfg.IP).isEmpty
  else
    !w.net.any (fun a => a.Equal vipCfg.IP) && (w.rt.running vipCfg.IP).isEmpty


/-- The 16-byte form of a 4-byte address; other slices are left alone. -/
def IP.canon (ip : IP) : List Nat :=
  if ip.bytes.length = 4 then v4InV6Pfx ++ ip.bytes else ip.bytes

/-! ## Properties of runs -/

/-- The fail-fast shape of a run: either it returned `nil` and every call succeeded, or it
returned an error, its last call failed and every call before that one succeeded. -/
def Outcome.FailFast {σ : Type} (r : Outcome σ) : Prop :=
  (r.err = none ∧ ∀ e ∈ r.events, e.ok = true) ∨
    (r.err ≠ none ∧ ∃ pre e, r.events = pre ++ [e] ∧ e.ok = false ∧ ∀ x ∈ pre, x.ok = true)

/-- The run from `st0` on `h` has the fail-fast shape and ends in the state that its calls,
and nothing else, produce from `st0`. -/
def Outcome.Traced {σ : Type} (h : IPVSHandle σ) (st0 : σ) (r : Outcome σ) : Prop :=
  r.FailFast ∧ r.st = h.replay (r.events.map Event.call) st0

/-- The run `bad` on `h.failAt` with countdown `n` against the run `good` on `h`, both from
`st0`: when `good` makes at most `n` calls the two runs agree; otherwise `bad` returns an error,
makes the first `n` calls of `good` with the same responses, then the call number `n` of `good`,
which fails, and nothing more, and it ends in the state of `h` after those first `n` calls. -/
def FailsAt {σ : Type} (h : IPVSHandle σ) (st0 : σ) (n : Nat) (good : Outcome σ)
    (bad : Outcome (σ × Nat)) : Prop :=
  (good.events.length ≤ n →
      bad.err = good.err ∧ bad.st = (good.st, n - good.events.length) ∧
        bad.events = good.events) ∧
    (n < good.events.length →
      bad.err ≠ none ∧
        bad.st = (h.replay ((good.events.take n).map Event.call) st0, 0) ∧
        ∃ ev, good.events[n]? = some ev ∧
          bad.events = good.events.take n ++ [⟨ev.call, .err "injected"⟩])

/-! ## The calls a run is expected to make -/

/-- The events of the first loop for one listed service when every call succeeds and
`ListDestinations` returns `ipvsDests`: a service with a configured address has its
destinations listed and those with the address of none of `servers` deleted; any other service
is deleted. -/
def pruneBlock (parseIP : String → IP) (config : Config) (servers : List ConfigServer)
    (ipvsService : Service) (ipvsDests : List Destination) : List Event :=
  if inConfig parseIP config ipvsService then
    ⟨.ListDestinations ipvsService, .dests ipvsDests⟩ ::
      (ipvsDests.filter (fun ipvsDest =>
        !servers.any (fun server => ipvsDest.Address.Equal (parseIP server.Address)))).map
        (fun ipvsDest => ⟨.DelDestination ipvsService ipvsDest, .done⟩)
  else
    [⟨.DelService ipvsService, .done⟩]

/-- The events of the first loop when every call succeeds; the second list holds what
`ListDestinations` returns for each listed service (unused for a service that is deleted). -/
def pruneTrace (parseIP : String → IP) (config : Config) (servers : List ConfigServer) :
    List Service → List (List Destination) → List Event
  | s :: ss, l :: ls =>
    pruneBlock parseIP config servers s l ++ pruneTrace parseIP config servers ss ls
  | _, _ => []

/-- The events of the second loop for one configured service when every call succeeds and
`ListDestinations` returns `ipvsDests`. -/
def syncBlock (parseIP : String → IP) (ipvsServices : List Service) (serviceConf : ConfigLVS)
    (ipvsDests : List Destination) : List Event :=
  ⟨serviceCall parseIP ipvsServices serviceConf, .done⟩ ::
    ⟨.ListDestinations (handleOf parseIP ipvsServices serviceConf), .dests ipvsDests⟩ ::
      serviceConf.Servers.map (fun server =>
        ⟨destinationCall parseIP (handleOf parseIP ipvsServices serviceConf) ipvsDests
          serviceConf server, .done⟩)

/-- The events of the second loop when every call succeeds; the second list holds what
`ListDestinations` returns for each configured service. -/
def syncTrace (parseIP : String → IP) (ipvsServices : List Service) :
    List ConfigLVS → List (List Destination) → List Event
  | c :: cs, l :: ls => syncBlock parseIP ipvsServices c l ++ syncTrace parseIP ipvsServices cs ls
  | _, _ => []

/-- The run follows the expected events: the calls it made are an initial segment of the
expected calls, its successful calls got the expected responses, and when it returned `nil` it
made exactly the expected calls. -/
def Outcome.Shape {σ : Type} (r : Outcome σ) (expected : List Event) : Prop :=
  r.events.map Event.call <+: expected.map Event.call ∧
    r.events.filter Event.ok <+: expected ∧
    (r.err = none → r.events = expected)

/-! ## Reading a list of events -/

/-- The services passed to `DelService`, in order. -/
def deletedServices (evs : List Event) : List Service :=
  evs.filterMap (fun e =>
    match e.call with
    | .DelService s => some s
    | _ => none)

/-- A `NewService` or `UpdateService` call. -/
def Call.isServiceCall : Call → Bool
  | .NewService _ => true
  | .UpdateService _ => true
  | _ => false

/-- The `NewService` and `UpdateService` calls, in order. -/
def serviceCalls (evs : List Event) : List Call :=
  (evs.map Event.call).filter Call.isServiceCall

/-- The record of a `NewDestination` or `UpdateDestination` call. -/
def Call.destRecord : Call → Option Destination
  | .NewDestination _ d => some d
  | .UpdateDestination _ d => some d
  | _ => none

/-- The records passed to `NewDestination` and `UpdateDestination`, in order. -/
def destRecords (evs : List Event) : List Destination :=
  evs.filterMap (fun e => e.call.destRecord)

/-- A call that only the second loop makes: `NewService`, `UpdateService`, `NewDestination`
or `UpdateDestination`. -/
def Call.isSync : Call → Bool
  | .NewService _ => true
  | .UpdateService _ => true
  | .NewDestination _ _ => true
  | .UpdateDestination _ _ => true
  | _ => false

/-! ## Concrete inputs -/

/-- A service as the kernel lists it: the 4-byte address `a.b.c.d`, IPv4, TCP, scheduler
`rr`. -/
def liveService (a b c d port : Nat) : Service :=
  ⟨⟨[a, b, c, d]⟩, AF_INET, IPPROTO_TCP, port, "rr"⟩

/-- A destination as the kernel lists it: the 4-byte address `a.b.c.d`, IPv4, masquerading. -/
def liveDestination (a b c d port weight : Nat) : Destination :=
  ⟨⟨[a, b, c, d]⟩, AF_INET, port, IP_VS_CONN_F_MASQ, weight⟩

/-- The configuration of the example of the spec (§8): one service 10.0.0.1:80, scheduler
`rr`, type `nat`, with the servers 10.0.0.2:80 of weight 1 and 10.0.0.3:80 of weight 2. -/
def webConfig : Config :=
  ⟨"", false, [],
    [⟨"web", 80, "10.0.0.1", "rr", "nat", [⟨80, "10.0.0.2", 1⟩, ⟨80, "10.0.0.3", 2⟩]⟩]⟩

/-- A table that matches `webConfig` exactly. -/
def webTable : Table :=
  [⟨liveService 10 0 0 1 80, [liveDestination 10 0 0 2 80 1, liveDestination 10 0 0 3 80 2]⟩]

/-- The entry of a service 10.0.0.9:80 with one destination; `webConfig` has no such
service. -/
def staleEntry : Entry :=
  ⟨liveService 10 0 0 9 80, [liveDestination 10 0 0 7 80 1]⟩

/-- The table `webTable` with the stale service listed first. -/
def staleFirstTable : Table := staleEntry :: webTable

/-- The table `webTable` with the stale service listed last. -/
def staleLastTable : Table := webTable ++ [staleEntry]

/-- A configuration with one service 10.0.0.1:80, scheduler `rr`, type `nat`, and no
server. -/
def bareConfig : Config :=
  ⟨"", false, [], [⟨"web", 80, "10.0.0.1", "rr", "nat", []⟩]⟩

/-- A table that matches `bareConfig` exactly. -/
def bareTable : Table := [⟨liveService 10 0 0 1 80, []⟩]

/-- The entry of the VIP 10.0.0.100/24 that holds no cancel function. -/
def vipEntry : VIPsHAConfigVIP :=
  ⟨⟨[10, 0, 0, 100]⟩, ⟨⟨[10, 0, 0, 0]⟩, [255, 255, 255, 0]⟩, none⟩

/-- An engine for the interface `eth0` with the one entry `vipEntry`. -/
def vipEngine : VIPsUpdateEngine := ⟨⟨⟨2, "eth0"⟩, [vipEntry]⟩⟩

/-- The initial world: no address on the interface, no context, no goroutine, and an entry
without a cancel function. -/
def initialWorld : World (List IP) := ⟨vipEngine, [], ⟨[], []⟩⟩

/-- The world after one `HAState(HAMaster)` from `initialWorld`: the VIP is on the interface,
the entry holds the cancel function of context 0 and the sender of context 0 runs. -/
def masterWorld : World (List IP) := initialWorld.apply NetModel.handle haState.HAMaster

/-! ## Convergence on the model of the kernel table -/

/-- No two services of the table have equal addresses. -/
def Table.Distinct (t : Table) : Prop :=
  t.Pairwise (fun a b => a.svc.Address.Equal b.svc.Address = false)

/-- No entry of the table is the service that `s` names. -/
def Table.Others (t : Table) (s : Service) : Prop :=
  ∀ x ∈ t, sameService x.svc s = false

/-- What the first loop leaves of an entry when every call succeeds: a service with a
configured address stays, without destinations; any other service goes. -/
def pruneEntry (parseIP : String → IP) (config : Config) (e : Entry) : Option Entry :=
  if inConfig parseIP config e.svc then some ⟨e.svc, []⟩ else none

/-- The configured services have pairwise distinct addresses. -/
def Config.DistinctServices (parseIP : String → IP) (config : Config) : Prop :=
  config.LVS.Pairwise (fun a b => (parseIP a.Address).Equal (parseIP b.Address) = false)

/-- The configured servers of each service have pairwise distinct addresses. -/
def Config.DistinctServers (parseIP : String → IP) (config : Config) : Prop :=
  ∀ c ∈ config.LVS,
    c.Servers.Pairwise (fun a b => (parseIP a.Address).Equal (parseIP b.Address) = false)

/-- The table holds exactly the configuration: it matches the configuration, it has one
entry per configured service, and an entry has one destination per configured server of a
service it matches. -/
def Converged (parseIP : String → IP) (t : Table) (config : Config) : Prop :=
  tableMatches parseIP t config = true ∧ t.length = config.LVS.length ∧
    ∀ e ∈ t, ∀ c ∈ config.LVS, entryMatches parseIP e c = true →
      e.dests.length = c.Servers.length

/-- A table with the services 10.0.0.1:80 and 10.0.0.1:443, without destinations: two
services of one address. -/
def twoPortTable : Table := [⟨liveService 10 0 0 1 80, []⟩, ⟨liveService 10 0 0 1 443, []⟩]

/-! ## The VIP engine: failing collaborators and readings of the events -/

/-- The addresses for which the calls of the Network Address Client fail. -/
structure NetFaults where
  hasAddr : IP → Bool
  addAddr : IP → Bool
  delAddr : IP → Bool

namespace NetModel

/-- Modelled from the spec: the Network Address Client (§6) with failures: a call for an
address chosen by `f` returns an error and changes nothing, any other call behaves as in
`NetModel.handle`. -/
def faulty (f : NetFaults) : NetHandle (List IP) where
  HasAddr := fun intf ip addrs =>
    if f.hasAddr ip then (.error "injected", addrs) else HasAddr intf ip addrs
  AddAddr := fun intf ip ipNet label addrs =>
    if f.addAddr ip then (some "injected", addrs) else AddAddr intf ip ipNet label addrs
  DelAddr := fun intf ip ipNet addrs =>
    if f.delAddr ip then (some "injected", addrs) else DelAddr intf ip ipNet addrs
  SendGARP := SendGARP

end NetModel

/-- The address of a `HasAddr` event. -/
def VEvent.hasAddrIP : VEvent → Option IP
  | .HasAddr vip _ => some vip
  | _ => none

/-- An `AddAddr` event. -/
def VEvent.isAddAddr : VEvent → Bool
  | .AddAddr _ _ => true
  | _ => false

/-- A `DelAddr` event. -/
def VEvent.isDelAddr : VEvent → Bool
  | .DelAddr _ _ => true
  | _ => false

/-- The start of a sender. -/
def VEvent.isStart : VEvent → Bool
  | .Start _ _ => true
  | _ => false

/-- A call of a cancel function. -/
def VEvent.isCancel : VEvent → Bool
  | .Cancel _ => true
  | _ => false

/-- The events of `HAState(HAMaster)` over entries whose addresses are not on the interface
and which hold no cancel function, when every call succeeds: for each entry the check, the
added address and the start of its sender; `n` is the number of the next context. -/
def masterTrace : Nat → List VIPsHAConfigVIP → List VEvent
  | _, [] => []
  | n, v :: vs =>
    [.HasAddr v.IP (some false), .AddAddr v.IP true, .Start n v.IP] ++ masterTrace (n + 1) vs

/-- The contexts that the entries hold a cancel function of, each with the address of its
entry. -/
def handlesOf (l : List VIPsHAConfigVIP) : List (Nat × IP) :=
  l.filterMap (fun v => v.cancel.map (fun n => (n, v.IP)))

/-- The senders started so far are those of the contexts that the entries hold a cancel
function of, one per such entry, and no two of them share a context. -/
def World.Owned {σ : Type} (w : World σ) : Prop :=
  w.rt.loops.Perm (handlesOf w.engine.Config.VIPs) ∧
    (w.rt.loops.map Prod.fst).Nodup ∧
    ∀ p ∈ w.rt.loops, p.1 < w.rt.ctxs.length

/-- An entry for the address 10.0.0.100 with the prefix length 32: another entry than
`vipEntry`, with the same address. -/
def vipEntry32 : VIPsHAConfigVIP :=
  ⟨⟨[10, 0, 0, 100]⟩, ⟨⟨[10, 0, 0, 100]⟩, [255, 255, 255, 255]⟩, none⟩

/-- The entry of the VIP 10.0.0.101/24 that holds no cancel function. -/
def vipEntry2 : VIPsHAConfigVIP :=
  ⟨⟨[10, 0, 0, 101]⟩, ⟨⟨[10, 0, 0, 0]⟩, [255, 255, 255, 0]⟩, none⟩

/-- An engine with two entries of one address, `vipEntry` and `vipEntry32`. -/
def sameAddressEngine : VIPsUpdateEngine := ⟨⟨⟨2, "eth0"⟩, [vipEntry, vipEntry32]⟩⟩

/-- An engine with the entries `vipEntry` and `vipEntry2`. -/
def twoVIPEngine : VIPsUpdateEngine := ⟨⟨⟨2, "eth0"⟩, [vipEntry, vipEntry2]⟩⟩

/-- The faults in which only `AddAddr` for 10.0.0.100 fails. -/
def addFails100 : NetFaults :=
  ⟨fun _ => false, fun ip => decide (ip = ⟨[10, 0, 0, 100]⟩), fun _ => false⟩

/-- The faults in which every call for 10.0.0.100 fails. -/
def allFail100 : NetFaults :=
  ⟨fun ip => decide (ip = ⟨[10, 0, 0, 100]⟩), fun ip => decide (ip = ⟨[10, 0, 0, 100]⟩),
    fun ip => decide (ip = ⟨[10, 0, 0, 100]⟩)⟩

/-- The faults in which only `DelAddr` for 10.0.0.100 fails. -/
def delFails100 : NetFaults :=
  ⟨fun _ => false, fun _ => false, fun ip => decide (ip = ⟨[10, 0, 0, 100]⟩)⟩

/-! ## `sendGARPLoop` (vrrp/engine_client.go, lines 108-126) -/

/-- Where the goroutine of `sendGARPLoop` stands: at the `select` of line 112, inside the call
of `netutil.SendGARP` of line 114, or returned. -/
inductive LoopPhase where
  | selecting
  | sending
  | returned
deriving DecidableEq, Repr

/-- What happens in and around the loop, one step at a time. `tickFires`: the ticker sends a
tick on `ticker.C`, a channel of capacity 1 (a tick is dropped while one waits). `cancel`: the
cancel function of the context is called, which closes `ctx.Done()`. `takeTick`: the `select`
takes `case <-ticker.C`, which it can when a tick waits. `takeDone`: the `select` takes
`case <-ctx.Done()`, which it can when the context is cancelled. `sendReturns`: the call of
`SendGARP` returns. When both cases can proceed Go's `select` takes either. -/
inductive LoopStep where
  | tickFires
  | cancel
  | takeTick
  | takeDone
  | sendReturns
deriving DecidableEq, Repr

/-- What the loop did: it called `SendGARP` (with the flag: the context was cancelled before
the call), `SendGARP` returned (with the flag: without an error), or the function returned. -/
inductive LoopEvent where
  | called (cancelled : Bool)
  | sent (ok : Bool)
  | exited
deriving DecidableEq, Repr

/-- The state of one run of `sendGARPLoop`: the phase of the goroutine, whether a tick waits
in `ticker.C`, whether the context is cancelled, the state of the network and what the loop
did so far. -/
structure LoopState (σ : Type) where
  phase : LoopPhase
  pending : Bool
  done : Bool
  net : σ
  log : List LoopEvent

/-- The state at the first `select`: no tick waits and the context is not cancelled. -/
def LoopState.init {σ : Type} (net : σ) : LoopState σ :=
  ⟨.selecting, false, false, net, []⟩

/-- One step of `sendGARPLoop`. A step that cannot happen in the current state leaves the
state alone: a `select` case that cannot proceed is not taken, and after the return the
deferred `ticker.Stop()` has stopped the ticker. An error of `SendGARP` is logged (lines
115-119) and the loop goes back to the `select`. -/
def loopStep {σ : Type} (nh : NetHandle σ) (intf : Interface) (vip : IP) (s : LoopState σ) :
    LoopStep → LoopState σ
  | .tickFires => if s.phase = .returned then s else { s with pending := true }
  | .cancel => { s with done := true }
  | .takeTick =>
    if s.phase = .selecting ∧ s.pending = true then
      { s with phase := .sending, pending := false, log := s.log ++ [.called s.done] }
    else s
  | .takeDone =>
    if s.phase = .selecting ∧ s.done = true then
      { s with phase := .returned, log := s.log ++ [.exited] }
    else s
  | .sendReturns =>
    if s.phase = .sending then
      { s with phase := .selecting, net := (nh.SendGARP intf vip s.net).2,
               log := s.log ++ [.sent (nh.SendGARP intf vip s.net).1.isNone] }
    else s

/-- A run of the loop from the state `s` over a schedule of steps. -/
def loopRun {σ : Type} (nh : NetHandle σ) (intf : Interface) (vip : IP) (s : LoopState σ)
    (steps : List LoopStep) : LoopState σ :=
  steps.foldl (loopStep nh intf vip) s

/-- `sendGARPLoop` (lines 108-126) over a schedule of steps, from its first `select`. -/
def sendGARPLoop {σ : Type} (nh : NetHandle σ) (intf : Interface) (vip : IP) (net : σ)
    (steps : List LoopStep) : LoopState σ :=
  loopRun nh intf vip (LoopState.init net) steps

/-- A `SendGARP` call. -/
def LoopEvent.isCalled : LoopEvent → Bool
  | .called _ => true
  | _ => false

/-- A return of `SendGARP`. -/
def LoopEvent.isSent : LoopEvent → Bool
  | .sent _ => true
  | _ => false

/-- The schedule of `n` ticks, each served before the next one fires: the ticker fires, the
`select` takes the tick, `SendGARP` returns. -/
def tickRounds : Nat → List LoopStep
  | 0 => []
  | n + 1 => [.tickFires, .takeTick, .sendReturns] ++ tickRounds n

/-- Modelled from the spec: the Network Address Client (§6) whose `SendAnnouncement` always
returns an error; the other calls are those of `NetModel.handle`. -/
def garpFails : NetHandle (List IP) where
  HasAddr := NetModel.HasAddr
  AddAddr := NetModel.AddAddr
  DelAddr := NetModel.DelAddr
  SendGARP := fun _ _ addrs => (some "send failed", addrs)

/-- The address of the start of a sender. -/
def VEvent.startIP : VEvent → Option IP
  | .Start _ vip => some vip
  | _ => none

/-- The entries have pairwise distinct addresses. -/
def VIPsUpdateEngine.DistinctVIPs (e : VIPsUpdateEngine) : Prop :=
  e.Config.VIPs.Pairwise (fun a b => a.IP.Equal b.IP = false)

/-- No entry holds a cancel function and no address of an entry is on the interface. -/
def World.Released (w : World (List IP)) : Prop :=
  (∀ v ∈ w.engine.Config.VIPs, v.cancel = none) ∧
    ∀ v ∈ w.engine.Config.VIPs, w.net.any (fun a => a.Equal v.IP) = false

/-- The senders of the entry `v` that are alive: the goroutines started with the context that
`v` holds the cancel function of, while that context is not cancelled. -/
def Runtime.liveFor (rt : Runtime) (v : VIPsHAConfigVIP) : List (Nat × IP) :=
  rt.loops.filter (fun p => decide (v.cancel = some p.1) && !(rt.ctxs.getD p.1 true))

/-! ## Readings of the calls of a run on the model of the kernel table -/

/-- A `NewDestination` or `UpdateDestination` call. -/
def Call.isDestinationCall : Call → Bool
  | .NewDestination _ _ => true
  | .UpdateDestination _ _ => true
  | _ => false

/-- The `NewDestination` and `UpdateDestination` calls, in order. -/
def destinationCalls (evs : List Event) : List Call :=
  (evs.map Event.call).filter Call.isDestinationCall

/-- The calls of the second loop for one configured service when the listing fetched on
line 146 is empty: the service call, the `ListDestinations` call on the handle, and one
`NewDestination` call per configured server. -/
def createCalls (parseIP : String → IP) (ipvsServices : List Service) (serviceConf : ConfigLVS) :
    List Call :=
  serviceCall parseIP ipvsServices serviceConf ::
    .ListDestinations (handleOf parseIP ipvsServices serviceConf) ::
      serviceConf.Servers.map (fun server =>
        .NewDestination (handleOf parseIP ipvsServices serviceConf)
          (destinationOf parseIP serviceConf server))

/-- Every service of the table that a record names and that has a destination has the
address of one of the configured services `done`. -/
def Table.Fresh (parseIP : String → IP) (done : List ConfigLVS) (t : Table) : Prop :=
  ∀ s e, t.lookup s = some e → e.dests ≠ [] →
    ∃ c ∈ done, e.svc.Address.Equal (parseIP c.Address) = true

/-- A configuration with two services of one address, 10.0.0.1:80 and 10.0.0.1:443, both with
scheduler `rr`, type `nat` and no server. -/
def twoPortConfig : Config :=
  ⟨"", false, [],
    [⟨"web", 80, "10.0.0.1", "rr", "nat", []⟩, ⟨"tls", 443, "10.0.0.1", "rr", "nat", []⟩]⟩

/-! ## Counting ticks in a schedule of `sendGARPLoop` -/

/-- The ticks that the ticker sent in a schedule. -/
def ticksFired (steps : List LoopStep) : Nat :=
  steps.count .tickFires

/-- The ticks that the loop received in its run over a schedule from the state `s`: the steps
at which the `select` took `case <-ticker.C` (line 113). -/
def ticksTaken {σ : Type} (nh : NetHandle σ) (intf : Interface) (vip : IP) :
    LoopState σ → List LoopStep → Nat
  | _, [] => 0
  | s, step :: rest =>
    (if step = .takeTick ∧ s.phase = .selecting ∧ s.pending = true then 1 else 0) +
      ticksTaken nh intf vip (loopStep nh intf vip s step) rest

/-- The ticks that were lost in a run over a schedule from the state `s`: the steps at which
the ticker fired while an earlier tick still waited in `ticker.C`, whose capacity is 1. -/
def ticksDropped {σ : Type} (nh : NetHandle σ) (intf : Interface) (vip : IP) :
    LoopState σ → List LoopStep → Nat
  | _, [] => 0
  | s, step :: rest =>
    (if step = .tickFires ∧ s.phase ≠ .returned ∧ s.pending = true then 1 else 0) +
      ticksDropped nh intf vip (loopStep nh intf vip s step) rest

/-- A schedule without cancellation in which a call of `SendGARP` takes more than two
periods of the ticker: the first tick is taken, the second waits in `ticker.C`, the third
fires while the second still waits, then the call returns, the waiting tick is taken and the
second call returns. -/
def slowSendSchedule : List LoopStep :=
  [.tickFires, .takeTick, .tickFires, .tickFires, .sendReturns, .takeTick, .sendReturns]

/-! # Theorems -/

/-! ## Address equality is an equivalence -/

theorem IP.Equal_iff_canon (a b : IP) : a.Equal b = true ↔ a.canon = b.canon := by
  obtain ⟨a⟩ := a
  obtain ⟨b⟩ := b
  unfold IP.Equal IP.canon
  simp only
  by_cases hl : a.length = b.length
  · simp only [hl, if_true, decide_eq_true_eq]
    by_cases h4 : b.length = 4
    · simp [h4]
    · simp [h4]
  · simp only [hl, if_false]
    by_cases h1 : a.length = 4 ∧ b.length = 16
    · obtain ⟨ha, hb⟩ := h1
      have hb4 : ¬ b.length = 4 := by omega
      simp only [ha, hb, and_self, if_true, hb4, if_false, Bool.and_eq_true, decide_eq_true_eq,
        (by decide : ¬ (16 : Nat) = 4)]
      constructor
      · rintro ⟨h1, h2⟩
        rw [← h1, h2, List.take_append_drop]
      · intro h
        subst h
        have hp : v4InV6Pfx.length = 12 := rfl
        constructor
        · rw [List.take_left' hp]
        · rw [List.drop_left' hp]
    · simp only [h1, if_false]
      by_cases h2 : a.length = 16 ∧ b.length = 4
      · obtain ⟨ha, hb⟩ := h2
        have ha4 : ¬ a.length = 4 := by omega
        simp only [ha, hb, and_self, if_true, ha4, if_false, Bool.and_eq_true, decide_eq_true_eq,
          (by decide : ¬ (16 : Nat) = 4)]
        constructor
        · rintro ⟨h1, h2⟩
          rw [← h1, ← h2, List.take_append_drop]
        · intro h
          subst h
          have hp : v4InV6Pfx.length = 12 := rfl
          constructor
          · rw [List.take_left' hp]
          · rw [List.drop_left' hp]
      · simp only [h2, if_false]
        have hp : v4InV6Pfx.length = 12 := rfl
        constructor
        · intro h; cases h
        · intro h
          exfalso
          have hlen := congrArg List.length h
          by_cases ha : a.length = 4 <;> by_cases hb : b.length = 4 <;>
            simp only [ha, hb, if_true, if_false, List.length_append, hp] at hlen <;> omega

theorem IP.Equal_refl (a : IP) : a.Equal a = true :=
  (IP.Equal_iff_canon a a).2 rfl

theorem IP.Equal_symm {a b : IP} (h : a.Equal b = true) : b.Equal a = true :=
  (IP.Equal_iff_canon b a).2 ((IP.Equal_iff_canon a b).1 h).symm

theorem IP.Equal_trans {a b c : IP} (h1 : a.Equal b = true) (h2 : b.Equal c = true) :
    a.Equal c = true :=
  (IP.Equal_iff_canon a c).2
    (((IP.Equal_iff_canon a b).1 h1).trans ((IP.Equal_iff_canon b c).1 h2))

theorem IP.Equal_comm (a b : IP) : a.Equal b = b.Equal a := by
  cases h : a.Equal b with
  | true => exact (IP.Equal_symm h).symm
  | false =>
    cases h2 : b.Equal a with
    | true => rw [IP.Equal_symm h2] at h; cases h
    | false => rfl

/-! ## The combinators of the embedding -/

theorem perform_err {σ : Type} (h : IPVSHandle σ) (c : Call) (msg : String)
    (k : Resp → σ → Outcome σ) (st : σ) {e : String} {st1 : σ}
    (hx : h.exec c st = (.err e, st1)) :
    perform h c msg k st = ⟨some (msg ++ e), st1, [⟨c, .err e⟩]⟩ := by
  simp [perform, hx]

theorem perform_ok {σ : Type} (h : IPVSHandle σ) (c : Call) (msg : String)
    (k : Resp → σ → Outcome σ) (st : σ) {r : Resp} {st1 : σ}
    (hx : h.exec c st = (r, st1)) (hr : r.ok = true) :
    perform h c msg k st = (k r st1).after ⟨c, r⟩ := by
  cases r <;> simp_all [perform, Resp.ok]

theorem andThen_err {σ : Type} (r : Outcome σ) (k : σ → Outcome σ) {e : String}
    (hr : r.err = some e) : r.andThen k = r := by
  simp [Outcome.andThen, hr]

theorem andThen_ok {σ : Type} (r : Outcome σ) (k : σ → Outcome σ) (hr : r.err = none) :
    r.andThen k = ⟨(k r.st).err, (k r.st).st, r.events ++ (k r.st).events⟩ := by
  simp [Outcome.andThen, hr]

theorem replay_cons {σ : Type} (h : IPVSHandle σ) (c : Call) (cs : List Call) (st : σ) :
    h.replay (c :: cs) st = h.replay cs (h.exec c st).2 := rfl

theorem replay_append {σ : Type} (h : IPVSHandle σ) (cs ds : List Call) (st : σ) :
    h.replay (cs ++ ds) st = h.replay ds (h.replay cs st) := by
  simp [IPVSHandle.replay, List.foldl_append]

theorem failFast_pure {σ : Type} (st : σ) : (⟨none, st, []⟩ : Outcome σ).FailFast :=
  Or.inl ⟨rfl, by simp⟩

theorem failFast_after {σ : Type} {r : Outcome σ} (hr : r.FailFast) {ev : Event}
    (hev : ev.ok = true) : (r.after ev).FailFast := by
  rcases hr with ⟨h1, h2⟩ | ⟨h1, pre, e, h2, h3, h4⟩
  · refine Or.inl ⟨h1, ?_⟩
    intro x hx
    simp only [Outcome.after, List.mem_cons] at hx
    rcases hx with rfl | hx
    · exact hev
    · exact h2 x hx
  · refine Or.inr ⟨h1, ev :: pre, e, ?_, h3, ?_⟩
    · simp [Outcome.after, h2]
    · intro x hx
      simp only [List.mem_cons] at hx
      rcases hx with rfl | hx
      · exact hev
      · exact h4 x hx

theorem failFast_andThen {σ : Type} {r : Outcome σ} (hr : r.FailFast) {k : σ → Outcome σ}
    (hk : (k r.st).FailFast) : (r.andThen k).FailFast := by
  rcases hr with ⟨h1, h2⟩ | ⟨h1, pre, e, h2, h3, h4⟩
  · rw [andThen_ok r k h1]
    rcases hk with ⟨k1, k2⟩ | ⟨k1, pre, e, k2, k3, k4⟩
    · refine Or.inl ⟨k1, ?_⟩
      intro x hx
      simp only [List.mem_append] at hx
      rcases hx with hx | hx
      · exact h2 x hx
      · exact k2 x hx
    · refine Or.inr ⟨k1, r.events ++ pre, e, ?_, k3, ?_⟩
      · simp [k2]
      · intro x hx
        simp only [List.mem_append] at hx
        rcases hx with hx | hx
        · exact h2 x hx
        · exact k4 x hx
  · cases he : r.err with
    | none => exact absurd he h1
    | some e0 =>
      rw [andThen_err r k he]
      exact Or.inr ⟨h1, pre, e, h2, h3, h4⟩

theorem traced_pure {σ : Type} (h : IPVSHandle σ) (st : σ) :
    (⟨none, st, []⟩ : Outcome σ).Traced h st :=
  ⟨failFast_pure st, rfl⟩

theorem traced_perform {σ : Type} (h : IPVSHandle σ) (c : Call) (msg : String)
    (k : Resp → σ → Outcome σ) (st : σ) (hk : ∀ r st1, (k r st1).Traced h st1) :
    (perform h c msg k st).Traced h st := by
  rcases hx : h.exec c st with ⟨r, st1⟩
  cases hr : r.ok with
  | false =>
    cases r <;> simp [Resp.ok] at hr
    rename_i e
    rw [perform_err h c msg k st hx]
    refine ⟨Or.inr ⟨by simp, [], ⟨c, .err e⟩, rfl, rfl, by simp⟩, ?_⟩
    simp [IPVSHandle.replay, hx]
  | true =>
    rw [perform_ok h c msg k st hx hr]
    refine ⟨failFast_after (hk r st1).1 hr, ?_⟩
    have h2 := (hk r st1).2
    simp only [Outcome.after, List.map_cons, replay_cons, hx]
    exact h2

theorem traced_andThen {σ : Type} (h : IPVSHandle σ) (st : σ) {r : Outcome σ}
    (hr : r.Traced h st) {k : σ → Outcome σ} (hk : ∀ st1, (k st1).Traced h st1) :
    (r.andThen k).Traced h st := by
  refine ⟨failFast_andThen hr.1 (hk r.st).1, ?_⟩
  cases he : r.err with
  | some e => rw [andThen_err r k he]; exact hr.2
  | none =>
    rw [andThen_ok r k he]
    simp only [List.map_append, replay_append]
    rw [← hr.2]
    exact (hk r.st).2

theorem traced_delDestinations {σ : Type} (h : IPVSHandle σ) (parseIP : String → IP)
    (ipvsService : Service) (servers : List ConfigServer) (l : List Destination) (st : σ) :
    (delDestinations h parseIP ipvsService servers l st).Traced h st := by
  induction l generalizing st with
  | nil => exact traced_pure h st
  | cons d rest ih =>
    unfold delDestinations
    split
    · exact ih st
    · exact traced_perform h _ _ _ st (fun _ st1 => ih st1)

theorem traced_pruneServices {σ : Type} (h : IPVSHandle σ) (parseIP : String → IP)
    (config : Config) (l : List Service) (st : σ) :
    (pruneServices h parseIP config l st).Traced h st := by
  induction l generalizing st with
  | nil => exact traced_pure h st
  | cons s rest ih =>
    unfold pruneServices
    split
    · exact traced_perform h _ _ _ st (fun r st1 =>
        traced_andThen h st1 (traced_delDestinations h parseIP s _ _ st1) (fun st2 => ih st2))
    · exact traced_perform h _ _ _ st (fun _ st1 => ih st1)

theorem traced_syncDestinations {σ : Type} (h : IPVSHandle σ) (parseIP : String → IP)
    (ipvsService : Service) (ipvsDests : List Destination) (serviceConf : ConfigLVS)
    (l : List ConfigServer) (st : σ) :
    (syncDestinations h parseIP ipvsService ipvsDests serviceConf l st).Traced h st := by
  induction l generalizing st with
  | nil => exact traced_pure h st
  | cons d rest ih =>
    unfold syncDestinations
    exact traced_perform h _ _ _ st (fun _ st1 => ih st1)

theorem traced_syncServices {σ : Type} (h : IPVSHandle σ) (parseIP : String → IP)
    (ipvsServices : List Service) (l : List ConfigLVS) (st : σ) :
    (syncServices h parseIP ipvsServices l st).Traced h st := by
  induction l generalizing st with
  | nil => exact traced_pure h st
  | cons c rest ih =>
    unfold syncServices
    exact traced_perform h _ _ _ st (fun _ st1 =>
      traced_perform h _ _ _ st1 (fun r st2 =>
        traced_andThen h st2 (traced_syncDestinations h parseIP _ _ c _ st2) (fun st3 => ih st3)))

theorem traced_ReloadConfig {σ : Type} (h : IPVSHandle σ) (parseIP : String → IP)
    (config : Config) (st : σ) : (ReloadConfig h parseIP config st).Traced h st := by
  unfold ReloadConfig
  exact traced_perform h _ _ _ st (fun r st1 =>
    traced_andThen h st1 (traced_pruneServices h parseIP config _ st1)
      (fun st2 => traced_syncServices h parseIP _ _ st2))

/-! ## Making one call fail -/

theorem failAt_exec_zero {σ : Type} (h : IPVSHandle σ) (c : Call) (st : σ) :
    h.failAt.exec c (st, 0) = (.err "injected", (st, 0)) := by
  cases c <;> rfl

theorem failAt_exec_succ {σ : Type} (h : IPVSHandle σ) (c : Call) (st : σ) (n : Nat) :
    h.failAt.exec c (st, n + 1) = ((h.exec c st).1, ((h.exec c st).2, n)) := by
  cases c <;> rfl

theorem perform_events {σ : Type} (h : IPVSHandle σ) (c : Call) (msg : String)
    (k : Resp → σ → Outcome σ) (st : σ) :
    ∃ tl, (perform h c msg k st).events = ⟨c, (h.exec c st).1⟩ :: tl := by
  rcases hx : h.exec c st with ⟨r, st1⟩
  cases hr : r.ok with
  | false =>
    cases r <;> simp [Resp.ok] at hr
    rw [perform_err h c msg k st hx]
    exact ⟨[], rfl⟩
  | true =>
    rw [perform_ok h c msg k st hx hr]
    exact ⟨_, rfl⟩

theorem failsAt_pure {σ : Type} (h : IPVSHandle σ) (st : σ) (n : Nat) :
    FailsAt h st n ⟨none, st, []⟩ ⟨none, (st, n), []⟩ := by
  constructor
  · intro _
    simp
  · intro hn
    simp at hn

theorem failsAt_after {σ : Type} (h : IPVSHandle σ) (st st1 : σ) (m : Nat) (c : Call) (r : Resp)
    (hx : h.exec c st = (r, st1)) {g : Outcome σ} {b : Outcome (σ × Nat)}
    (hgb : FailsAt h st1 m g b) :
    FailsAt h st (m + 1) (g.after ⟨c, r⟩) (b.after ⟨c, r⟩) := by
  obtain ⟨h1, h2⟩ := hgb
  constructor
  · intro hle
    simp only [Outcome.after, List.length_cons] at hle ⊢
    obtain ⟨e1, e2, e3⟩ := h1 (by omega)
    refine ⟨e1, ?_, by rw [e3]⟩
    rw [e2]
    congr 1
    omega
  · intro hlt
    simp only [Outcome.after, List.length_cons] at hlt ⊢
    obtain ⟨e1, e2, ev, e3, e4⟩ := h2 (by omega)
    refine ⟨e1, ?_, ev, ?_, ?_⟩
    · rw [e2]
      simp [List.take_succ_cons, replay_cons, hx]
    · simpa using e3
    · rw [e4]
      simp [List.take_succ_cons]

theorem failsAt_perform {σ : Type} (h : IPVSHandle σ) (c : Call) (msg : String)
    (k : Resp → σ → Outcome σ) (k2 : Resp → σ × Nat → Outcome (σ × Nat)) (st : σ) (n : Nat)
    (hk : ∀ r st1 m, FailsAt h st1 m (k r st1) (k2 r (st1, m))) :
    FailsAt h st n (perform h c msg k st) (perform h.failAt c msg k2 (st, n)) := by
  cases n with
  | zero =>
    rw [perform_err h.failAt c msg k2 (st, 0) (failAt_exec_zero h c st)]
    obtain ⟨tl, htl⟩ := perform_events h c msg k st
    constructor
    · intro hle
      rw [htl] at hle
      simp at hle
    · intro _
      refine ⟨by simp, by simp [IPVSHandle.replay], ⟨c, (h.exec c st).1⟩, by simp [htl], by simp⟩
  | succ m =>
    rcases hx : h.exec c st with ⟨r, st1⟩
    have hx2 : h.failAt.exec c (st, m + 1) = (r, (st1, m)) := by
      rw [failAt_exec_succ, hx]
    cases hr : r.ok with
    | false =>
      cases r <;> simp [Resp.ok] at hr
      rw [perform_err h c msg k st hx, perform_err h.failAt c msg k2 (st, m + 1) hx2]
      constructor
      · intro _
        simp
      · intro hlt
        simp at hlt
    | true =>
      rw [perform_ok h c msg k st hx hr, perform_ok h.failAt c msg k2 (st, m + 1) hx2 hr]
      exact failsAt_after h st st1 m c r hx (hk r st1 m)

theorem failsAt_andThen {σ : Type} (h : IPVSHandle σ) (st : σ) (n : Nat) {g : Outcome σ}
    {b : Outcome (σ × Nat)} (hg : g.Traced h st) (hgb : FailsAt h st n g b)
    {k : σ → Outcome σ} {k2 : σ × Nat → Outcome (σ × Nat)}
    (hk : ∀ st1 m, FailsAt h st1 m (k st1) (k2 (st1, m))) :
    FailsAt h st n (g.andThen k) (b.andThen k2) := by
  obtain ⟨h1, h2⟩ := hgb
  by_cases hn : n < g.events.length
  · obtain ⟨e1, e2, ev, e3, e4⟩ := h2 hn
    have hb : b.andThen k2 = b := by
      cases hbe : b.err with
      | none => exact absurd hbe e1
      | some e => exact andThen_err b k2 hbe
    rw [hb]
    have hge : ∃ X, (g.andThen k).events = g.events ++ X := by
      cases hge : g.err with
      | none => rw [andThen_ok g k hge]; exact ⟨_, rfl⟩
      | some e => rw [andThen_err g k hge]; exact ⟨[], by simp⟩
    obtain ⟨X, hX⟩ := hge
    constructor
    · intro hle
      rw [hX] at hle
      simp at hle
      omega
    · intro _
      refine ⟨e1, ?_, ev, ?_, ?_⟩
      · rw [e2, hX, List.take_append_of_le_length (by omega)]
      · rw [hX, List.getElem?_append_left hn]
        exact e3
      · rw [e4, hX, List.take_append_of_le_length (by omega)]
  · have hle : g.events.length ≤ n := by omega
    obtain ⟨e1, e2, e3⟩ := h1 hle
    cases hge : g.err with
    | some e =>
      rw [andThen_err g k hge, andThen_err b k2 (e1.trans hge)]
      exact ⟨fun _ => ⟨e1, e2, e3⟩, fun hlt => absurd hlt hn⟩
    | none =>
      rw [andThen_ok g k hge, andThen_ok b k2 (e1.trans hge), e2, e3]
      obtain ⟨k1, k3⟩ := hk g.st (n - g.events.length)
      constructor
      · intro hle2
        simp only [List.length_append] at hle2 ⊢
        obtain ⟨f1, f2, f3⟩ := k1 (by omega)
        refine ⟨f1, ?_, by rw [f3]⟩
        rw [f2]
        congr 1
        omega
      · intro hlt2
        simp only [List.length_append] at hlt2
        obtain ⟨f1, f2, ev, f3, f4⟩ := k3 (by omega)
        refine ⟨f1, ?_, ev, ?_, ?_⟩
        · rw [f2]
          simp only
          rw [List.take_append_eq_append_take, List.take_of_length_le hle, List.map_append,
            replay_append, ← hg.2]
        · simp only
          rw [List.getElem?_append_right hle]
          exact f3
        · simp only
          rw [f4, List.take_append_eq_append_take, List.take_of_length_le hle,
            List.append_assoc]

theorem failsAt_delDestinations {σ : Type} (h : IPVSHandle σ) (parseIP : String → IP)
    (ipvsService : Service) (servers : List ConfigServer) (l : List Destination) (st : σ)
    (n : Nat) :
    FailsAt h st n (delDestinations h parseIP ipvsService servers l st)
      (delDestinations h.failAt parseIP ipvsService servers l (st, n)) := by
  induction l generalizing st n with
  | nil => exact failsAt_pure h st n
  | cons d rest ih =>
    unfold delDestinations
    split
    · exact ih st n
    · exact failsAt_perform h _ _ _ _ st n (fun _ st1 m => ih st1 m)

theorem failsAt_pruneServices {σ : Type} (h : IPVSHandle σ) (parseIP : String → IP)
    (config : Config) (l : List Service) (st : σ) (n : Nat) :
    FailsAt h st n (pruneServices h parseIP config l st)
      (pruneServices h.failAt parseIP config l (st, n)) := by
  induction l generalizing st n with
  | nil => exact failsAt_pure h st n
  | cons s rest ih =>
    unfold pruneServices
    split
    · exact failsAt_perform h _ _ _ _ st n (fun r st1 m =>
        failsAt_andThen h st1 m (traced_delDestinations h parseIP s _ _ st1)
          (failsAt_delDestinations h parseIP s _ _ st1 m) (fun st2 m2 => ih st2 m2))
    · exact failsAt_perform h _ _ _ _ st n (fun _ st1 m => ih st1 m)

theorem failsAt_syncDestinations {σ : Type} (h : IPVSHandle σ) (parseIP : String → IP)
    (ipvsService : Service) (ipvsDests : List Destination) (serviceConf : ConfigLVS)
    (l : List ConfigServer) (st : σ) (n : Nat) :
    FailsAt h st n (syncDestinations h parseIP ipvsService ipvsDests serviceConf l st)
      (syncDestinations h.failAt parseIP ipvsService ipvsDests serviceConf l (st, n)) := by
  induction l generalizing st n with
  | nil => exact failsAt_pure h st n
  | cons d rest ih =>
    unfold syncDestinations
    exact failsAt_perform h _ _ _ _ st n (fun _ st1 m => ih st1 m)

theorem failsAt_syncServices {σ : Type} (h : IPVSHandle σ) (parseIP : String → IP)
    (ipvsServices : List Service) (l : List ConfigLVS) (st : σ) (n : Nat) :
    FailsAt h st n (syncServices h parseIP ipvsServices l st)
      (syncServices h.failAt parseIP ipvsServices l (st, n)) := by
  induction l generalizing st n with
  | nil => exact failsAt_pure h st n
  | cons c rest ih =>
    unfold syncServices
    exact failsAt_perform h _ _ _ _ st n (fun _ st1 m =>
      failsAt_perform h _ _ _ _ st1 m (fun r st2 m2 =>
        failsAt_andThen h st2 m2 (traced_syncDestinations h parseIP _ _ c _ st2)
          (failsAt_syncDestinations h parseIP _ _ c _ st2 m2) (fun st3 m3 => ih st3 m3)))

theorem failsAt_ReloadConfig {σ : Type} (h : IPVSHandle σ) (parseIP : String → IP)
    (config : Config) (st : σ) (n : Nat) :
    FailsAt h st n (ReloadConfig h parseIP config st)
      (ReloadConfig h.failAt parseIP config (st, n)) := by
  unfold ReloadConfig
  exact failsAt_perform h _ _ _ _ st n (fun r st1 m =>
    failsAt_andThen h st1 m (traced_pruneServices h parseIP config _ st1)
      (failsAt_pruneServices h parseIP config _ st1 m)
      (fun st2 m2 => failsAt_syncServices h parseIP _ _ st2 m2))

/-! ## The shape of a run -/

theorem exec_mutation_ok {σ : Type} (h : IPVSHandle σ) (c : Call) (st : σ)
    (hc : c.isMutation = true) (hr : (h.exec c st).1.ok = true) : (h.exec c st).1 = .done := by
  cases c <;> simp only [Call.isMutation, Bool.false_eq_true] at hc <;>
    simp only [IPVSHandle.exec] at hr ⊢
  · cases hx : (h.NewService _ st).1 <;> simp_all [respOfErr, Resp.ok]
  · cases hx : (h.UpdateService _ st).1 <;> simp_all [respOfErr, Resp.ok]
  · cases hx : (h.DelService _ st).1 <;> simp_all [respOfErr, Resp.ok]
  · cases hx : (h.NewDestination _ _ st).1 <;> simp_all [respOfErr, Resp.ok]
  · cases hx : (h.UpdateDestination _ _ st).1 <;> simp_all [respOfErr, Resp.ok]
  · cases hx : (h.DelDestination _ _ st).1 <;> simp_all [respOfErr, Resp.ok]

theorem exec_listDestinations_ok {σ : Type} (h : IPVSHandle σ) (s : Service) (st : σ)
    (hr : (h.exec (.ListDestinations s) st).1.ok = true) :
    (h.exec (.ListDestinations s) st).1 = .dests (h.exec (.ListDestinations s) st).1.getDests := by
  simp only [IPVSHandle.exec] at hr ⊢
  cases hx : (h.ListDestinations s st).1 <;> simp_all [respOfList, Resp.ok, Resp.getDests]

theorem exec_listServices_ok {σ : Type} (h : IPVSHandle σ) (st : σ)
    (hr : (h.exec .ListServices st).1.ok = true) :
    (h.exec .ListServices st).1 = .services (h.exec .ListServices st).1.getServices := by
  simp only [IPVSHandle.exec] at hr ⊢
  cases hx : (h.ListServices st).1 <;> simp_all [respOfList, Resp.ok, Resp.getServices]

theorem failFast_all_ok {σ : Type} {r : Outcome σ} (hr : r.FailFast) (he : r.err = none) :
    ∀ e ∈ r.events, e.ok = true := by
  rcases hr with ⟨_, h2⟩ | ⟨h1, _⟩
  · exact h2
  · exact absurd he h1

theorem failFast_err_of_all_ok {σ : Type} {r : Outcome σ} (hr : r.FailFast)
    (he : ∀ e ∈ r.events, e.ok = true) : r.err = none := by
  rcases hr with ⟨h1, _⟩ | ⟨_, pre, e, h2, h3, _⟩
  · exact h1
  · have := he e (by simp [h2])
    rw [h3] at this
    cases this

theorem shape_pure {σ : Type} (st : σ) : (⟨none, st, []⟩ : Outcome σ).Shape [] := by
  simp [Outcome.Shape]

theorem shape_perform {σ : Type} (h : IPVSHandle σ) (c : Call) (msg : String)
    (k : Resp → σ → Outcome σ) (st : σ) (resp : Resp) (e : List Event)
    (hk : ∀ r st1, h.exec c st = (r, st1) → r.ok = true → resp = r ∧ (k r st1).Shape e) :
    (perform h c msg k st).Shape (⟨c, resp⟩ :: e) := by
  rcases hx : h.exec c st with ⟨r, st1⟩
  cases hr : r.ok with
  | false =>
    cases r <;> simp [Resp.ok] at hr
    rw [perform_err h c msg k st hx]
    simp [Outcome.Shape, Event.ok, Resp.ok]
  | true =>
    rw [perform_ok h c msg k st hx hr]
    obtain ⟨rfl, h1, h2, h3⟩ := hk r st1 hx hr
    refine ⟨?_, ?_, ?_⟩
    · simpa [Outcome.after] using h1
    · simpa [Outcome.after, Event.ok, hr] using h2
    · intro he
      simp only [Outcome.after] at he ⊢
      rw [h3 he]

theorem shape_andThen {σ : Type} {r : Outcome σ} {k : σ → Outcome σ} {e1 e2 : List Event}
    (hf : r.FailFast) (h1 : r.Shape e1) (h2 : r.err = none → (k r.st).Shape e2) :
    (r.andThen k).Shape (e1 ++ e2) := by
  cases he : r.err with
  | some e =>
    rw [andThen_err r k he]
    refine ⟨?_, ?_, ?_⟩
    · rw [List.map_append]
      exact h1.1.trans (List.prefix_append _ _)
    · exact h1.2.1.trans (List.prefix_append _ _)
    · intro h
      rw [he] at h
      cases h
  | none =>
    rw [andThen_ok r k he]
    have hev := h1.2.2 he
    have hok := failFast_all_ok hf he
    obtain ⟨k1, k2, k3⟩ := h2 he
    refine ⟨?_, ?_, ?_⟩
    · simp only [List.map_append, hev]
      exact (List.prefix_append_right_inj _).2 k1
    · simp only [List.filter_append]
      have hfl : r.events.filter Event.ok = r.events :=
        List.filter_eq_self.2 (fun a ha => hok a ha)
      rw [hfl, hev]
      exact (List.prefix_append_right_inj _).2 k2
    · intro h
      simp only at h ⊢
      rw [hev, k3 h]

theorem shape_delDestinations {σ : Type} (h : IPVSHandle σ) (parseIP : String → IP)
    (ipvsService : Service) (servers : List ConfigServer) (l : List Destination) (st : σ) :
    (delDestinations h parseIP ipvsService servers l st).Shape
      ((l.filter (fun ipvsDest =>
        !servers.any (fun server => ipvsDest.Address.Equal (parseIP server.Address)))).map
        (fun ipvsDest => ⟨.DelDestination ipvsService ipvsDest, .done⟩)) := by
  induction l generalizing st with
  | nil => exact shape_pure st
  | cons d rest ih =>
    unfold delDestinations
    split
    · rename_i hany
      rw [List.filter_cons_of_neg (by simp [hany])]
      exact ih st
    · rename_i hany
      rw [List.filter_cons_of_pos (by simpa using hany)]
      refine shape_perform h _ _ _ st .done _ (fun r st1 hx hr => ⟨?_, ih st1⟩)
      have := exec_mutation_ok h (.DelDestination ipvsService d) st rfl (by rw [hx]; exact hr)
      rw [hx] at this
      exact this.symm

theorem shape_pruneServices {σ : Type} (h : IPVSHandle σ) (parseIP : String → IP)
    (config : Config) (l : List Service) (st : σ) :
    ∃ ls : List (List Destination), ls.length = l.length ∧
      (pruneServices h parseIP config l st).Shape
        (pruneTrace parseIP config ConfigLVS.zero.Servers l ls) := by
  induction l generalizing st with
  | nil => exact ⟨[], rfl, shape_pure st⟩
  | cons s rest ih =>
    unfold pruneServices
    by_cases hin : inConfig parseIP config s = true
    · simp only [hin, if_true]
      obtain ⟨ls, hlen, hS⟩ := ih
        (delDestinations h parseIP s ConfigLVS.zero.Servers
          (h.exec (.ListDestinations s) st).1.getDests (h.exec (.ListDestinations s) st).2).st
      refine ⟨(h.exec (.ListDestinations s) st).1.getDests :: ls, by simp [hlen], ?_⟩
      simp only [pruneTrace, pruneBlock, hin, if_true, List.cons_append]
      refine shape_perform h _ _ _ st _ _ (fun r st1 hx hr => ?_)
      have hr2 := exec_listDestinations_ok h s st (by rw [hx]; exact hr)
      rw [hx] at hr2
      simp only [hx] at hS ⊢
      simp only at hr2
      refine ⟨hr2.symm, ?_⟩
      exact shape_andThen (traced_delDestinations h parseIP s _ _ st1).1
        (shape_delDestinations h parseIP s _ _ st1) (fun _ => hS)
    · simp only [hin, if_false, Bool.false_eq_true]
      obtain ⟨ls, hlen, hS⟩ := ih (h.exec (.DelService s) st).2
      refine ⟨[] :: ls, by simp [hlen], ?_⟩
      simp only [pruneTrace, pruneBlock, hin, if_false, Bool.false_eq_true, List.singleton_append]
      refine shape_perform h _ _ _ st _ _ (fun r st1 hx hr => ?_)
      have hr2 := exec_mutation_ok h (.DelService s) st rfl (by rw [hx]; exact hr)
      rw [hx] at hr2
      simp only [hx] at hS
      exact ⟨hr2.symm, hS⟩

theorem destinationCall_isMutation (parseIP : String → IP) (ipvsService : Service)
    (ipvsDests : List Destination) (serviceConf : ConfigLVS) (server : ConfigServer) :
    (destinationCall parseIP ipvsService ipvsDests serviceConf server).isMutation = true := by
  unfold destinationCall
  split <;> rfl

theorem serviceCall_isMutation (parseIP : String → IP) (ipvsServices : List Service)
    (serviceConf : ConfigLVS) :
    (serviceCall parseIP ipvsServices serviceConf).isMutation = true := by
  unfold serviceCall
  split <;> rfl

theorem shape_syncDestinations {σ : Type} (h : IPVSHandle σ) (parseIP : String → IP)
    (ipvsService : Service) (ipvsDests : List Destination) (serviceConf : ConfigLVS)
    (l : List ConfigServer) (st : σ) :
    (syncDestinations h parseIP ipvsService ipvsDests serviceConf l st).Shape
      (l.map (fun server =>
        ⟨destinationCall parseIP ipvsService ipvsDests serviceConf server, .done⟩)) := by
  induction l generalizing st with
  | nil => exact shape_pure st
  | cons d rest ih =>
    unfold syncDestinations
    rw [List.map_cons]
    refine shape_perform h _ _ _ st .done _ (fun r st1 hx hr => ⟨?_, ih st1⟩)
    have := exec_mutation_ok h _ st
      (destinationCall_isMutation parseIP ipvsService ipvsDests serviceConf d)
      (by rw [hx]; exact hr)
    rw [hx] at this
    exact this.symm

theorem shape_syncServices {σ : Type} (h : IPVSHandle σ) (parseIP : String → IP)
    (ipvsServices : List Service) (l : List ConfigLVS) (st : σ) :
    ∃ ls : List (List Destination), ls.length = l.length ∧
      (syncServices h parseIP ipvsServices l st).Shape (syncTrace parseIP ipvsServices l ls) := by
  induction l generalizing st with
  | nil => exact ⟨[], rfl, shape_pure st⟩
  | cons c rest ih =>
    unfold syncServices
    obtain ⟨ls, hlen, hS⟩ := ih
      (syncDestinations h parseIP (handleOf parseIP ipvsServices c)
        (h.exec (.ListDestinations (handleOf parseIP ipvsServices c))
          (h.exec (serviceCall parseIP ipvsServices c) st).2).1.getDests c c.Servers
        (h.exec (.ListDestinations (handleOf parseIP ipvsServices c))
          (h.exec (serviceCall parseIP ipvsServices c) st).2).2).st
    refine ⟨(h.exec (.ListDestinations (handleOf parseIP ipvsServices c))
      (h.exec (serviceCall parseIP ipvsServices c) st).2).1.getDests :: ls, by simp [hlen], ?_⟩
    simp only [syncTrace, syncBlock, List.cons_append]
    refine shape_perform h _ _ _ st _ _ (fun r st1 hx hr => ?_)
    have hr2 := exec_mutation_ok h _ st (serviceCall_isMutation parseIP ipvsServices c)
      (by rw [hx]; exact hr)
    rw [hx] at hr2
    simp only [hx] at hS ⊢
    refine ⟨hr2.symm, ?_⟩
    refine shape_perform h _ _ _ st1 _ _ (fun r2 st2 hx2 hr3 => ?_)
    have hr4 := exec_listDestinations_ok h _ st1 (by rw [hx2]; exact hr3)
    rw [hx2] at hr4
    simp only [hx2] at hS ⊢
    simp only at hr4
    refine ⟨hr4.symm, ?_⟩
    exact shape_andThen (traced_syncDestinations h parseIP _ _ c _ st2).1
      (shape_syncDestinations h parseIP _ _ c _ st2) (fun _ => hS)

theorem shape_ReloadConfig {σ : Type} (h : IPVSHandle σ) (parseIP : String → IP)
    (config : Config) (st : σ) :
    ∃ lsP lsS : List (List Destination),
      lsP.length = (h.exec .ListServices st).1.getServices.length ∧
      lsS.length = config.LVS.length ∧
      (ReloadConfig h parseIP config st).Shape
        (⟨.ListServices, .services (h.exec .ListServices st).1.getServices⟩ ::
          (pruneTrace parseIP config ConfigLVS.zero.Servers
              (h.exec .ListServices st).1.getServices lsP ++
            syncTrace parseIP (h.exec .ListServices st).1.getServices config.LVS lsS)) := by
  unfold ReloadConfig
  obtain ⟨lsP, hlenP, hP⟩ := shape_pruneServices h parseIP config
    (h.exec .ListServices st).1.getServices (h.exec .ListServices st).2
  obtain ⟨lsS, hlenS, hS⟩ := shape_syncServices h parseIP
    (h.exec .ListServices st).1.getServices config.LVS
    (pruneServices h parseIP config (h.exec .ListServices st).1.getServices
      (h.exec .ListServices st).2).st
  refine ⟨lsP, lsS, hlenP, hlenS, ?_⟩
  refine shape_perform h _ _ _ st _ _ (fun r st1 hx hr => ?_)
  have hr2 := exec_listServices_ok h st (by rw [hx]; exact hr)
  rw [hx] at hr2
  simp only [hx] at hP hS ⊢
  simp only at hr2
  refine ⟨hr2.symm, ?_⟩
  exact shape_andThen (traced_pruneServices h parseIP config _ st1).1 hP (fun _ => hS)

/-! ## The events of the expected traces -/

theorem shape_call_mem {σ : Type} {r : Outcome σ} {expected : List Event}
    (hs : r.Shape expected) {ev : Event} (hev : ev ∈ r.events) :
    ∃ e ∈ expected, e.call = ev.call := by
  have h1 : ev.call ∈ r.events.map Event.call := List.mem_map_of_mem _ hev
  have h2 := hs.1.subset h1
  obtain ⟨e, he, hc⟩ := List.mem_map.1 h2
  exact ⟨e, he, hc⟩

theorem mem_pruneTrace (parseIP : String → IP) (config : Config) (servers : List ConfigServer)
    (l : List Service) (ls : List (List Destination)) (e : Event)
    (he : e ∈ pruneTrace parseIP config servers l ls) :
    ∃ s ∈ l,
      (inConfig parseIP config s = true ∧
        ((∃ ds, e = ⟨.ListDestinations s, .dests ds⟩) ∨ ∃ d, e = ⟨.DelDestination s d, .done⟩)) ∨
      (inConfig parseIP config s = false ∧ e = ⟨.DelService s, .done⟩) := by
  induction l generalizing ls with
  | nil => simp [pruneTrace] at he
  | cons s rest ih =>
    cases ls with
    | nil => simp [pruneTrace] at he
    | cons ds ls =>
      simp only [pruneTrace, List.mem_append] at he
      rcases he with he | he
      · refine ⟨s, List.mem_cons_self _ _, ?_⟩
        unfold pruneBlock at he
        by_cases hin : inConfig parseIP config s = true
        · simp only [hin, if_true, List.mem_cons, List.mem_map] at he
          rcases he with rfl | ⟨d, _, rfl⟩
          · exact Or.inl ⟨hin, Or.inl ⟨ds, rfl⟩⟩
          · exact Or.inl ⟨hin, Or.inr ⟨d, rfl⟩⟩
        · simp only [hin, if_false, Bool.false_eq_true, List.mem_singleton] at he
          exact Or.inr ⟨by simpa using hin, he⟩
      · obtain ⟨s2, hs2, h2⟩ := ih ls he
        exact ⟨s2, List.mem_cons_of_mem _ hs2, h2⟩

theorem mem_syncTrace (parseIP : String → IP) (ipvsServices : List Service)
    (l : List ConfigLVS) (ls : List (List Destination)) (e : Event)
    (he : e ∈ syncTrace parseIP ipvsServices l ls) :
    ∃ c ∈ l, ∃ ds,
      e = ⟨serviceCall parseIP ipvsServices c, .done⟩ ∨
      e = ⟨.ListDestinations (handleOf parseIP ipvsServices c), .dests ds⟩ ∨
      ∃ server ∈ c.Servers,
        e = ⟨destinationCall parseIP (handleOf parseIP ipvsServices c) ds c server, .done⟩ := by
  induction l generalizing ls with
  | nil => simp [syncTrace] at he
  | cons c rest ih =>
    cases ls with
    | nil => simp [syncTrace] at he
    | cons ds ls =>
      simp only [syncTrace, List.mem_append] at he
      rcases he with he | he
      · refine ⟨c, List.mem_cons_self _ _, ds, ?_⟩
        simp only [syncBlock, List.mem_cons, List.mem_map] at he
        rcases he with rfl | rfl | ⟨sv, hsv, rfl⟩
        · exact Or.inl rfl
        · exact Or.inr (Or.inl rfl)
        · exact Or.inr (Or.inr ⟨sv, hsv, rfl⟩)
      · obtain ⟨c2, hc2, h2⟩ := ih ls he
        exact ⟨c2, List.mem_cons_of_mem _ hc2, h2⟩

theorem pruneTrace_not_sync (parseIP : String → IP) (config : Config)
    (servers : List ConfigServer) (l : List Service) (ls : List (List Destination)) (e : Event)
    (he : e ∈ pruneTrace parseIP config servers l ls) : e.call.isSync = false := by
  obtain ⟨s, _, h⟩ := mem_pruneTrace parseIP config servers l ls e he
  rcases h with ⟨_, ⟨ds, rfl⟩ | ⟨d, rfl⟩⟩ | ⟨_, rfl⟩ <;> rfl

theorem findService_some {parseIP : String → IP} {ipvsServices : List Service}
    {c : ConfigLVS} {s : Service} (h : findService parseIP ipvsServices c = some s) :
    s ∈ ipvsServices ∧ s.Address.Equal (parseIP c.Address) = true := by
  unfold findService at h
  exact ⟨List.mem_of_find?_eq_some h, by simpa using List.find?_some h⟩

theorem findService_none {parseIP : String → IP} {ipvsServices : List Service}
    {c : ConfigLVS} (h : findService parseIP ipvsServices c = none) :
    ∀ s ∈ ipvsServices, s.Address.Equal (parseIP c.Address) = false := by
  unfold findService at h
  intro s hs
  have := List.find?_eq_none.1 h s hs
  simpa using this

theorem serviceCall_eq (parseIP : String → IP) (ipvsServices : List Service) (c : ConfigLVS) :
    serviceCall parseIP ipvsServices c =
      if ipvsServices.any (fun s => s.Address.Equal (parseIP c.Address)) then
        .UpdateService (serviceOf parseIP c)
      else .NewService (serviceOf parseIP c) := by
  unfold serviceCall
  cases hf : findService parseIP ipvsServices c with
  | none =>
    have h := findService_none hf
    have : ipvsServices.any (fun s => s.Address.Equal (parseIP c.Address)) = false := by
      rw [List.any_eq_false]
      intro s hs
      simp [h s hs]
    simp [this]
  | some s =>
    obtain ⟨h1, h2⟩ := findService_some hf
    have : ipvsServices.any (fun s => s.Address.Equal (parseIP c.Address)) = true :=
      List.any_eq_true.2 ⟨s, h1, h2⟩
    simp [this]

theorem handleOf_inConfig (parseIP : String → IP) (config : Config)
    (ipvsServices : List Service) (c : ConfigLVS) (hc : c ∈ config.LVS) :
    inConfig parseIP config (handleOf parseIP ipvsServices c) = true := by
  unfold inConfig
  rw [List.any_eq_true]
  refine ⟨c, hc, ?_⟩
  unfold handleOf
  cases hf : findService parseIP ipvsServices c with
  | none => exact IP.Equal_refl _
  | some s => exact (findService_some hf).2

theorem deletedServices_append (a b : List Event) :
    deletedServices (a ++ b) = deletedServices a ++ deletedServices b := by
  simp [deletedServices, List.filterMap_append]

theorem deletedServices_pruneTrace (parseIP : String → IP) (config : Config)
    (servers : List ConfigServer) (l : List Service) (ls : List (List Destination))
    (hlen : ls.length = l.length) :
    deletedServices (pruneTrace parseIP config servers l ls) =
      l.filter (fun s => !inConfig parseIP config s) := by
  induction l generalizing ls with
  | nil => cases ls <;> simp [pruneTrace, deletedServices]
  | cons s rest ih =>
    cases ls with
    | nil => simp at hlen
    | cons ds ls =>
      simp only [pruneTrace, deletedServices_append]
      rw [ih ls (by simpa using hlen)]
      by_cases hin : inConfig parseIP config s = true
      · simp [pruneBlock, hin, deletedServices, List.filterMap_map, Function.comp_def]
      · simp [pruneBlock, hin, deletedServices]

theorem deletedServices_syncTrace (parseIP : String → IP) (ipvsServices : List Service)
    (l : List ConfigLVS) (ls : List (List Destination)) :
    deletedServices (syncTrace parseIP ipvsServices l ls) = [] := by
  unfold deletedServices
  rw [List.filterMap_eq_nil_iff]
  intro e he
  obtain ⟨c, _, ds, h⟩ := mem_syncTrace parseIP ipvsServices l ls e he
  rcases h with rfl | rfl | ⟨sv, _, rfl⟩
  · simp only [serviceCall]
    cases findService parseIP ipvsServices c <;> rfl
  · rfl
  · simp only [destinationCall]
    cases ds.any (fun ipvsDest => ipvsDest.Address.Equal (parseIP sv.Address)) <;> rfl

/-! ## Reading the expected traces -/

theorem fwdMethodOf_eq (type : String) :
    fwdMethodOf type = if type = "dr" then IP_VS_CONN_F_DROUTE else IP_VS_CONN_F_MASQ := by
  unfold fwdMethodOf
  split
  · simp
  · split
    · rename_i h
      exact absurd h (by decide)
    · rfl
  · split
    · rename_i h1 _ h2
      exact absurd h2 h1
    · rfl

theorem serviceCalls_append (a b : List Event) :
    serviceCalls (a ++ b) = serviceCalls a ++ serviceCalls b := by
  simp [serviceCalls]

theorem serviceCalls_pruneTrace (parseIP : String → IP) (config : Config)
    (servers : List ConfigServer) (l : List Service) (ls : List (List Destination)) :
    serviceCalls (pruneTrace parseIP config servers l ls) = [] := by
  unfold serviceCalls
  rw [List.filter_eq_nil_iff]
  intro c hc
  obtain ⟨e, he, rfl⟩ := List.mem_map.1 hc
  obtain ⟨s, _, h⟩ := mem_pruneTrace parseIP config servers l ls e he
  rcases h with ⟨_, ⟨ds, rfl⟩ | ⟨d, rfl⟩⟩ | ⟨_, rfl⟩ <;> simp [Call.isServiceCall]

theorem serviceCall_isServiceCall (parseIP : String → IP) (ipvsServices : List Service)
    (c : ConfigLVS) : (serviceCall parseIP ipvsServices c).isServiceCall = true := by
  unfold serviceCall
  cases findService parseIP ipvsServices c <;> rfl

theorem destinationCall_not_serviceCall (parseIP : String → IP) (ipvsService : Service)
    (ipvsDests : List Destination) (serviceConf : ConfigLVS) (server : ConfigServer) :
    (destinationCall parseIP ipvsService ipvsDests serviceConf server).isServiceCall = false := by
  unfold destinationCall
  split <;> rfl

theorem serviceCalls_syncTrace (parseIP : String → IP) (ipvsServices : List Service)
    (l : List ConfigLVS) (ls : List (List Destination)) (hlen : ls.length = l.length) :
    serviceCalls (syncTrace parseIP ipvsServices l ls) =
      l.map (serviceCall parseIP ipvsServices) := by
  induction l generalizing ls with
  | nil => cases ls <;> simp [syncTrace, serviceCalls]
  | cons c rest ih =>
    cases ls with
    | nil => simp at hlen
    | cons ds ls =>
      simp only [syncTrace, serviceCalls_append, List.map_cons]
      rw [ih ls (by simpa using hlen)]
      have : serviceCalls (syncBlock parseIP ipvsServices c ds) =
          [serviceCall parseIP ipvsServices c] := by
        simp only [serviceCalls, syncBlock, List.map_cons, List.map_map]
        rw [List.filter_cons_of_pos (serviceCall_isServiceCall parseIP ipvsServices c),
          List.filter_cons_of_neg (by simp [Call.isServiceCall])]
        congr 1
        rw [List.filter_eq_nil_iff]
        intro x hx
        obtain ⟨sv, _, rfl⟩ := List.mem_map.1 hx
        simp [destinationCall_not_serviceCall]
      rw [this]
      rfl

theorem destRecords_append (a b : List Event) :
    destRecords (a ++ b) = destRecords a ++ destRecords b := by
  simp [destRecords, List.filterMap_append]

theorem destRecords_pruneTrace (parseIP : String → IP) (config : Config)
    (servers : List ConfigServer) (l : List Service) (ls : List (List Destination)) :
    destRecords (pruneTrace parseIP config servers l ls) = [] := by
  unfold destRecords
  rw [List.filterMap_eq_nil_iff]
  intro e he
  obtain ⟨s, _, h⟩ := mem_pruneTrace parseIP config servers l ls e he
  rcases h with ⟨_, ⟨ds, rfl⟩ | ⟨d, rfl⟩⟩ | ⟨_, rfl⟩ <;> rfl

theorem destinationCall_destRecord (parseIP : String → IP) (ipvsService : Service)
    (ipvsDests : List Destination) (serviceConf : ConfigLVS) (server : ConfigServer) :
    (destinationCall parseIP ipvsService ipvsDests serviceConf server).destRecord =
      some (destinationOf parseIP serviceConf server) := by
  unfold destinationCall
  split <;> rfl

theorem serviceCall_destRecord (parseIP : String → IP) (ipvsServices : List Service)
    (c : ConfigLVS) : (serviceCall parseIP ipvsServices c).destRecord = none := by
  unfold serviceCall
  cases findService parseIP ipvsServices c <;> rfl

theorem destRecords_syncTrace (parseIP : String → IP) (ipvsServices : List Service)
    (l : List ConfigLVS) (ls : List (List Destination)) (hlen : ls.length = l.length) :
    destRecords (syncTrace parseIP ipvsServices l ls) =
      l.flatMap (fun c => c.Servers.map (destinationOf parseIP c)) := by
  induction l generalizing ls with
  | nil => cases ls <;> simp [syncTrace, destRecords]
  | cons c rest ih =>
    cases ls with
    | nil => simp at hlen
    | cons ds ls =>
      simp only [syncTrace, destRecords_append, List.flatMap_cons]
      rw [ih ls (by simpa using hlen)]
      congr 1
      have h2 : (Call.ListDestinations (handleOf parseIP ipvsServices c)).destRecord = none :=
        rfl
      simp only [destRecords, syncBlock, List.filterMap_cons, serviceCall_destRecord, h2,
        List.filterMap_map, Function.comp_def, destinationCall_destRecord]
      exact congrFun (List.filterMap_eq_map (destinationOf parseIP c)) c.Servers

/-! ## Claims about the calls of `ReloadConfig` -/

theorem exec_listServices_of_ok {σ : Type} (h : IPVSHandle σ) (st : σ) (listing : List Service)
    (hl : (h.ListServices st).1 = .ok listing) :
    (h.exec .ListServices st).1.getServices = listing := by
  simp [IPVSHandle.exec, hl, respOfList, Resp.getServices]

theorem ReloadConfig_events_of_ok {σ : Type} (h : IPVSHandle σ) (parseIP : String → IP)
    (config : Config) (st : σ) (listing : List Service)
    (hl : (h.ListServices st).1 = .ok listing)
    (hok : ∀ e ∈ (ReloadConfig h parseIP config st).events, e.ok = true) :
    ∃ lsP lsS : List (List Destination),
      lsP.length = listing.length ∧ lsS.length = config.LVS.length ∧
      (ReloadConfig h parseIP config st).events =
        ⟨.ListServices, .services listing⟩ ::
          (pruneTrace parseIP config ConfigLVS.zero.Servers listing lsP ++
            syncTrace parseIP listing config.LVS lsS) := by
  obtain ⟨lsP, lsS, hP, hS, hshape⟩ := shape_ReloadConfig h parseIP config st
  rw [exec_listServices_of_ok h st listing hl] at hP hshape
  exact ⟨lsP, lsS, hP, hS,
    hshape.2.2 (failFast_err_of_all_ok (traced_ReloadConfig h parseIP config st).1 hok)⟩

theorem deleted_of_ok {σ : Type} (h : IPVSHandle σ) (parseIP : String → IP)
    (config : Config) (st : σ) (listing : List Service)
    (hl : (h.ListServices st).1 = .ok listing)
    (hok : ∀ e ∈ (ReloadConfig h parseIP config st).events, e.ok = true) :
    deletedServices (ReloadConfig h parseIP config st).events =
      listing.filter (fun s => !inConfig parseIP config s) := by
  obtain ⟨lsP, lsS, hP, _, hev⟩ := ReloadConfig_events_of_ok h parseIP config st listing hl hok
  rw [hev]
  have h1 : deletedServices [(⟨.ListServices, .services listing⟩ : Event)] = [] := rfl
  rw [← List.singleton_append, deletedServices_append, deletedServices_append, h1,
    deletedServices_pruneTrace parseIP config _ listing lsP hP, deletedServices_syncTrace]
  simp

/-- C5 (service pruning). When every call of a run succeeds, `DelService` is issued for
exactly the listed services whose address equals the address of no configured service, once
for each and in listing order; for such a service no `ListDestinations` and no
`DelDestination` call is issued; and a run on a permutation of the listing deletes the same
services. -/
theorem ReloadConfig_prunes_services {σ τ : Type} (h : IPVSHandle σ) (h2 : IPVSHandle τ)
    (parseIP : String → IP) (config : Config) (st : σ) (st2 : τ)
    (listing listing2 : List Service)
    (hl : (h.ListServices st).1 = .ok listing) (hl2 : (h2.ListServices st2).1 = .ok listing2)
    (hok : ∀ e ∈ (ReloadConfig h parseIP config st).events, e.ok = true)
    (hok2 : ∀ e ∈ (ReloadConfig h2 parseIP config st2).events, e.ok = true)
    (hperm : listing2.Perm listing) :
    deletedServices (ReloadConfig h parseIP config st).events =
        listing.filter (fun s => !inConfig parseIP config s) ∧
      (∀ s ∈ listing, inConfig parseIP config s = false →
        ∀ e ∈ (ReloadConfig h parseIP config st).events,
          e.call ≠ .ListDestinations s ∧ ∀ d, e.call ≠ .DelDestination s d) ∧
      (deletedServices (ReloadConfig h2 parseIP config st2).events).Perm
        (deletedServices (ReloadConfig h parseIP config st).events) := by
  refine ⟨deleted_of_ok h parseIP config st listing hl hok, ?_, ?_⟩
  · intro s _ hs e he
    obtain ⟨lsP, lsS, _, _, hev⟩ :=
      ReloadConfig_events_of_ok h parseIP config st listing hl hok
    rw [hev] at he
    simp only [List.mem_cons, List.mem_append] at he
    rcases he with rfl | he | he
    · exact ⟨by simp, by simp⟩
    · obtain ⟨s2, _, h2⟩ := mem_pruneTrace parseIP config _ listing lsP e he
      rcases h2 with ⟨hin, ⟨ds, rfl⟩ | ⟨d, rfl⟩⟩ | ⟨_, rfl⟩
      · refine ⟨?_, by simp⟩
        intro heq
        simp only [Call.ListDestinations.injEq] at heq
        rw [heq, hs] at hin
        cases hin
      · refine ⟨by simp, ?_⟩
        intro d2 heq
        simp only [Call.DelDestination.injEq] at heq
        rw [heq.1, hs] at hin
        cases hin
      · exact ⟨by simp, by simp⟩
    · obtain ⟨c, hc, ds, h2⟩ := mem_syncTrace parseIP listing config.LVS lsS e he
      rcases h2 with rfl | rfl | ⟨sv, _, rfl⟩
      · simp only [serviceCall]
        cases findService parseIP listing c <;> exact ⟨by simp, by simp⟩
      · refine ⟨?_, by simp⟩
        intro heq
        simp only [Call.ListDestinations.injEq] at heq
        have := handleOf_inConfig parseIP config listing c hc
        rw [heq, hs] at this
        cases this
      · simp only [destinationCall]
        split <;> exact ⟨by simp, by simp⟩
  · rw [deleted_of_ok h parseIP config st listing hl hok,
      deleted_of_ok h2 parseIP config st2 listing2 hl2 hok2]
    exact hperm.filter _

/-- C6 (service create-or-update). The `NewService` and `UpdateService` calls of a run are,
in configuration order, an initial segment of one call per configured service, and all of
them when the run returns `nil`. The call for a configured service is `UpdateService` when
some listed service has its address and `NewService` otherwise; the listed ports play no
part. The record passed holds the parsed address, its address family, TCP, the configured
port and the configured schedule. -/
theorem ReloadConfig_service_calls {σ : Type} (h : IPVSHandle σ) (parseIP : String → IP)
    (config : Config) (st : σ) (listing : List Service)
    (hl : (h.ListServices st).1 = .ok listing) :
    serviceCalls (ReloadConfig h parseIP config st).events <+:
        config.LVS.map (serviceCall parseIP listing) ∧
      ((ReloadConfig h parseIP config st).err = none →
        serviceCalls (ReloadConfig h parseIP config st).events =
          config.LVS.map (serviceCall parseIP listing)) ∧
      (∀ c : ConfigLVS, serviceCall parseIP listing c =
        if listing.any (fun s => s.Address.Equal (parseIP c.Address)) then
          .UpdateService (serviceOf parseIP c)
        else .NewService (serviceOf parseIP c)) ∧
      (∀ (c : ConfigLVS) (other : List Service),
        other.map Service.Address = listing.map Service.Address →
          serviceCall parseIP other c = serviceCall parseIP listing c) ∧
      (∀ c : ConfigLVS, serviceOf parseIP c =
        ⟨parseIP c.Address, ipAddressFamily (parseIP c.Address), IPPROTO_TCP, c.Port,
          c.Schedule⟩) := by
  obtain ⟨lsP, lsS, hP, hS, hshape⟩ := shape_ReloadConfig h parseIP config st
  rw [exec_listServices_of_ok h st listing hl] at hP hshape
  have hexp : serviceCalls (⟨.ListServices, .services listing⟩ ::
      (pruneTrace parseIP config ConfigLVS.zero.Servers listing lsP ++
        syncTrace parseIP listing config.LVS lsS)) =
      config.LVS.map (serviceCall parseIP listing) := by
    have h1 : serviceCalls [(⟨.ListServices, .services listing⟩ : Event)] = [] := rfl
    rw [← List.singleton_append, serviceCalls_append, serviceCalls_append, h1,
      serviceCalls_pruneTrace, serviceCalls_syncTrace parseIP listing config.LVS lsS hS]
    rfl
  refine ⟨?_, ?_, serviceCall_eq parseIP listing, ?_, fun c => rfl⟩
  · rw [← hexp]
    exact hshape.1.filter _
  · intro he
    rw [hshape.2.2 he, hexp]
  · intro c other hother
    rw [serviceCall_eq, serviceCall_eq]
    have : other.any (fun s => s.Address.Equal (parseIP c.Address)) =
        listing.any (fun s => s.Address.Equal (parseIP c.Address)) := by
      have e1 : ∀ l : List Service, l.any (fun s => s.Address.Equal (parseIP c.Address)) =
          (l.map Service.Address).any (fun a => a.Equal (parseIP c.Address)) := by
        intro l
        induction l with
        | nil => rfl
        | cons a t ih => simp only [List.any_cons, List.map_cons, ih]
      rw [e1 other, e1 listing, hother]
    rw [this]

theorem ReloadConfig_prunes_services_witness :
    deletedServices (ReloadConfig Kernel.handle parseIPv4 webConfig staleFirstTable).events =
        [liveService 10 0 0 9 80] ∧
      (deletedServices (ReloadConfig Kernel.handle parseIPv4 webConfig staleLastTable).events).Perm
        (deletedServices (ReloadConfig Kernel.handle parseIPv4 webConfig staleFirstTable).events) :=
  ⟨(ReloadConfig_prunes_services Kernel.handle Kernel.handle parseIPv4 webConfig
      staleFirstTable staleLastTable (staleFirstTable.map Entry.svc)
      (staleLastTable.map Entry.svc) rfl rfl (by decide) (by decide) (by decide)).1.trans
      (by decide),
    (ReloadConfig_prunes_services Kernel.handle Kernel.handle parseIPv4 webConfig
      staleFirstTable staleLastTable (staleFirstTable.map Entry.svc)
      (staleLastTable.map Entry.svc) rfl rfl (by decide) (by decide) (by decide)).2.2⟩

theorem ReloadConfig_service_calls_witness :
    serviceCalls (ReloadConfig Kernel.handle parseIPv4 webConfig staleFirstTable).events =
      [.UpdateService ⟨parseIPv4 "10.0.0.1", AF_INET, IPPROTO_TCP, 80, "rr"⟩] :=
  ((ReloadConfig_service_calls Kernel.handle parseIPv4 webConfig staleFirstTable
    (staleFirstTable.map Entry.svc) rfl).2.1 (by decide)).trans (by decide)

/-- C7 (destination create-or-update). The events of a run split into those of the first
loop and of the listing, which hold no create or update call, and those of the second loop.
The second loop makes, for each configured service in order, its service call, the
`ListDestinations` call on its handle, and then for each configured server in order one
destination call on that handle: `UpdateDestination` when the list just fetched has a
destination with the address of the server, `NewDestination` otherwise, with the record built
from the parsed address, the port and the weight of the server. A run that fails stops inside
this sequence; a run that returns `nil` makes all of it. -/
theorem ReloadConfig_destination_calls {σ : Type} (h : IPVSHandle σ) (parseIP : String → IP)
    (config : Config) (st : σ) :
    ∃ (pre post : List Event) (ls : List (List Destination)),
      (ReloadConfig h parseIP config st).events = pre ++ post ∧
      (∀ e ∈ pre, e.call.isSync = false) ∧
      ls.length = config.LVS.length ∧
      post.map Event.call <+:
        (syncTrace parseIP (h.exec .ListServices st).1.getServices config.LVS ls).map
          Event.call ∧
      post.filter Event.ok <+:
        syncTrace parseIP (h.exec .ListServices st).1.getServices config.LVS ls ∧
      ((ReloadConfig h parseIP config st).err = none →
        post = syncTrace parseIP (h.exec .ListServices st).1.getServices config.LVS ls) ∧
      (∀ (handle : Service) (ds : List Destination) (c : ConfigLVS) (sv : ConfigServer),
        destinationCall parseIP handle ds c sv =
          if ds.any (fun d => d.Address.Equal (parseIP sv.Address)) then
            .UpdateDestination handle
              ⟨parseIP sv.Address, ipAddressFamily (parseIP sv.Address), sv.Port,
                fwdMethodOf c.Type_, sv.Weight⟩
          else
            .NewDestination handle
              ⟨parseIP sv.Address, ipAddressFamily (parseIP sv.Address), sv.Port,
                fwdMethodOf c.Type_, sv.Weight⟩) := by
  have hpad : (List.replicate config.LVS.length ([] : List Destination)).length =
      config.LVS.length := List.length_replicate _ _
  unfold ReloadConfig
  rcases hx : h.exec .ListServices st with ⟨r, st1⟩
  cases hr : r.ok with
  | false =>
    cases r <;> simp [Resp.ok] at hr
    rw [perform_err h _ _ _ st hx]
    exact ⟨_, [], _, (List.append_nil _).symm, by simp [Call.isSync], hpad, by simp, by simp,
      by simp, fun _ _ _ _ => rfl⟩
  | true =>
    rw [perform_ok h _ _ _ st hx hr]
    have hprune : ∀ e ∈ (pruneServices h parseIP config r.getServices st1).events,
        e.call.isSync = false := by
      intro e he
      obtain ⟨lsP, _, hsh⟩ := shape_pruneServices h parseIP config r.getServices st1
      obtain ⟨e2, he2, hc⟩ := shape_call_mem hsh he
      rw [← hc]
      exact pruneTrace_not_sync parseIP config _ _ lsP e2 he2
    cases hp : (pruneServices h parseIP config r.getServices st1).err with
    | some e =>
      rw [andThen_err _ _ hp]
      refine ⟨_, [], _, (List.append_nil _).symm, ?_, hpad, by simp, by simp, ?_,
        fun _ _ _ _ => rfl⟩
      · intro x hx2
        simp only [Outcome.after, List.mem_cons] at hx2
        rcases hx2 with rfl | hx2
        · rfl
        · exact hprune x hx2
      · intro he
        simp [Outcome.after, hp] at he
    | none =>
      rw [andThen_ok _ _ hp]
      obtain ⟨ls, hlen, hsh⟩ := shape_syncServices h parseIP r.getServices config.LVS
        (pruneServices h parseIP config r.getServices st1).st
      refine ⟨⟨.ListServices, r⟩ :: (pruneServices h parseIP config r.getServices st1).events,
        _, ls, by simp [Outcome.after], ?_, hlen, hsh.1, hsh.2.1, ?_, fun _ _ _ _ => rfl⟩
      · intro x hx2
        simp only [List.mem_cons] at hx2
        rcases hx2 with rfl | hx2
        · rfl
        · exact hprune x hx2
      · intro he
        exact hsh.2.2 he

/-- C8 (forwarding-mode mapping). The destination record built for a server of a configured
service has the direct-route flag exactly when the type of the service is the string `dr`;
for every other type it has the masquerade flag, and the two flags differ. The records passed
to `NewDestination` and `UpdateDestination` by a run are these records, one per configured
server in configuration order: an initial segment of them, and all of them when the run
returns `nil`. -/
theorem ReloadConfig_forwarding_flag {σ : Type} (h : IPVSHandle σ) (parseIP : String → IP)
    (config : Config) (st : σ) :
    (∀ (c : ConfigLVS) (sv : ConfigServer),
        ((destinationOf parseIP c sv).FwdMethod = IP_VS_CONN_F_DROUTE ↔ c.Type_ = "dr") ∧
        (c.Type_ ≠ "dr" → (destinationOf parseIP c sv).FwdMethod = IP_VS_CONN_F_MASQ)) ∧
      IP_VS_CONN_F_DROUTE ≠ IP_VS_CONN_F_MASQ ∧
      destRecords (ReloadConfig h parseIP config st).events <+:
        config.LVS.flatMap (fun c => c.Servers.map (destinationOf parseIP c)) ∧
      ((ReloadConfig h parseIP config st).err = none →
        destRecords (ReloadConfig h parseIP config st).events =
          config.LVS.flatMap (fun c => c.Servers.map (destinationOf parseIP c))) := by
  have hne : IP_VS_CONN_F_DROUTE ≠ IP_VS_CONN_F_MASQ := by decide
  obtain ⟨lsP, lsS, hP, hS, hshape⟩ := shape_ReloadConfig h parseIP config st
  have hexp : destRecords (⟨.ListServices, .services (h.exec .ListServices st).1.getServices⟩ ::
      (pruneTrace parseIP config ConfigLVS.zero.Servers
          (h.exec .ListServices st).1.getServices lsP ++
        syncTrace parseIP (h.exec .ListServices st).1.getServices config.LVS lsS)) =
      config.LVS.flatMap (fun c => c.Servers.map (destinationOf parseIP c)) := by
    have h1 : destRecords [(⟨.ListServices,
        .services (h.exec .ListServices st).1.getServices⟩ : Event)] = [] := rfl
    rw [← List.singleton_append, destRecords_append, destRecords_append, h1,
      destRecords_pruneTrace, destRecords_syncTrace parseIP _ config.LVS lsS hS]
    rfl
  refine ⟨?_, hne, ?_, ?_⟩
  · intro c sv
    simp only [destinationOf, fwdMethodOf_eq]
    by_cases ht : c.Type_ = "dr"
    · simp [ht]
    · simp [ht, hne.symm]
  · rw [← hexp]
    have hd : ∀ evs : List Event,
        destRecords evs = (evs.map Event.call).filterMap Call.destRecord := by
      intro evs
      simp [destRecords, List.filterMap_map, Function.comp_def]
    rw [hd, hd]
    exact hshape.1.filterMap _
  · intro he
    rw [hshape.2.2 he, hexp]

theorem failFast_err_iff {σ : Type} {r : Outcome σ} (hr : r.FailFast) :
    r.err ≠ none ↔ ∃ e ∈ r.events, e.ok = false := by
  constructor
  · intro he
    rcases hr with ⟨h1, _⟩ | ⟨_, pre, e, h2, h3, _⟩
    · exact absurd h1 he
    · exact ⟨e, by simp [h2], h3⟩
  · rintro ⟨e, he, hf⟩ hn
    have := failFast_all_ok hr hn e he
    rw [hf] at this
    cases this

theorem failFast_failed_last {σ : Type} {r : Outcome σ} (hr : r.FailFast)
    (pre : List Event) (e : Event) (post : List Event) (hev : r.events = pre ++ e :: post)
    (hf : e.ok = false) : post = [] := by
  rcases hr with ⟨_, h2⟩ | ⟨_, pre2, e2, h2, _, h4⟩
  · have := h2 e (by simp [hev])
    rw [hf] at this
    cases this
  · cases post with
    | nil => rfl
    | cons p ps =>
      exfalso
      have hd := congrArg List.dropLast (hev.symm.trans h2)
      rw [List.dropLast_concat] at hd
      have hmem : e ∈ pre2 := by
        rw [← hd, List.dropLast_append_of_ne_nil _ (by simp)]
        simp [List.dropLast]
      have := h4 e hmem
      rw [hf] at this
      cases this

/-- C4 (fail-fast). A run returns an error exactly when one of its calls returned an error;
a call that failed is the last call of the run; the state of the collaborator at the return is
the state its calls produced, in order, with nothing undone. When the call number `n` of a run
is made to fail, the run returns an error, its events are the first `n` events of the original
run followed by that call with its error, and the collaborator is left in the state that the
first `n` calls produced. -/
theorem ReloadConfig_fail_fast {σ : Type} (h : IPVSHandle σ) (parseIP : String → IP)
    (config : Config) (st : σ) :
    ((ReloadConfig h parseIP config st).err ≠ none ↔
        ∃ e ∈ (ReloadConfig h parseIP config st).events, e.ok = false) ∧
      (∀ pre e post, (ReloadConfig h parseIP config st).events = pre ++ e :: post →
        e.ok = false → post = []) ∧
      (ReloadConfig h parseIP config st).st =
        h.replay ((ReloadConfig h parseIP config st).events.map Event.call) st ∧
      (∀ n, n < (ReloadConfig h parseIP config st).events.length →
        (ReloadConfig h.failAt parseIP config (st, n)).err ≠ none ∧
        (∃ ev, (ReloadConfig h parseIP config st).events[n]? = some ev ∧
          (ReloadConfig h.failAt parseIP config (st, n)).events =
            (ReloadConfig h parseIP config st).events.take n ++
              [⟨ev.call, .err "injected"⟩]) ∧
        (ReloadConfig h.failAt parseIP config (st, n)).st =
          (h.replay (((ReloadConfig h parseIP config st).events.take n).map Event.call) st,
            0)) := by
  have ht := traced_ReloadConfig h parseIP config st
  refine ⟨failFast_err_iff ht.1, failFast_failed_last ht.1, ht.2, ?_⟩
  intro n hn
  obtain ⟨e1, e2, e3⟩ := (failsAt_ReloadConfig h parseIP config st n).2 hn
  exact ⟨e1, e3, e2⟩

/-- C1, evaluated. The table `webTable` matches `webConfig` exactly: the service 10.0.0.1 is
configured and so are its destinations 10.0.0.2 and 10.0.0.3. Every call of the run succeeds,
and the first loop issues `DelDestination` for both destinations; the second loop then adds
them again with `NewDestination`. -/
theorem prune_deletes_configured_destinations :
    tableMatches parseIPv4 webTable webConfig = true ∧
      (liveDestination 10 0 0 2 80 1).Address.Equal (parseIPv4 "10.0.0.2") = true ∧
      (∀ e ∈ (ReloadConfig Kernel.handle parseIPv4 webConfig webTable).events, e.ok = true) ∧
      (ReloadConfig Kernel.handle parseIPv4 webConfig webTable).events.map Event.call =
        [.ListServices,
          .ListDestinations (liveService 10 0 0 1 80),
          .DelDestination (liveService 10 0 0 1 80) (liveDestination 10 0 0 2 80 1),
          .DelDestination (liveService 10 0 0 1 80) (liveDestination 10 0 0 3 80 2),
          .UpdateService ⟨parseIPv4 "10.0.0.1", AF_INET, IPPROTO_TCP, 80, "rr"⟩,
          .ListDestinations (liveService 10 0 0 1 80),
          .NewDestination (liveService 10 0 0 1 80)
            ⟨parseIPv4 "10.0.0.2", AF_INET, 80, IP_VS_CONN_F_MASQ, 1⟩,
          .NewDestination (liveService 10 0 0 1 80)
            ⟨parseIPv4 "10.0.0.3", AF_INET, 80, IP_VS_CONN_F_MASQ, 2⟩] := by
  decide

/-- C3 as stated fails: `bareTable` matches `bareConfig` exactly, and the run issues
`UpdateService`. -/
theorem idempotent_reconciliation_counterexample :
    tableMatches parseIPv4 bareTable bareConfig = true ∧
      ¬ ∀ e ∈ (ReloadConfig Kernel.handle parseIPv4 bareConfig bareTable).events,
        e.call.isMutation = false := by
  decide

theorem serviceCalls_ReloadConfig {σ : Type} (h : IPVSHandle σ) (parseIP : String → IP)
    (config : Config) (st : σ) (listing : List Service)
    (hl : (h.ListServices st).1 = .ok listing) :
    serviceCalls (ReloadConfig h parseIP config st).events <+:
        config.LVS.map (serviceCall parseIP listing) ∧
      ((ReloadConfig h parseIP config st).err = none →
        serviceCalls (ReloadConfig h parseIP config st).events =
          config.LVS.map (serviceCall parseIP listing)) := by
  obtain ⟨lsP, lsS, hP, hS, hshape⟩ := shape_ReloadConfig h parseIP config st
  rw [exec_listServices_of_ok h st listing hl] at hP hshape
  have hexp : serviceCalls (⟨.ListServices, .services listing⟩ ::
      (pruneTrace parseIP config ConfigLVS.zero.Servers listing lsP ++
        syncTrace parseIP listing config.LVS lsS)) =
      config.LVS.map (serviceCall parseIP listing) := by
    have h1 : serviceCalls [(⟨.ListServices, .services listing⟩ : Event)] = [] := rfl
    rw [← List.singleton_append, serviceCalls_append, serviceCalls_append, h1,
      serviceCalls_pruneTrace, serviceCalls_syncTrace parseIP listing config.LVS lsS hS]
    rfl
  refine ⟨?_, ?_⟩
  · rw [← hexp]
    exact hshape.1.filter _
  · intro he
    rw [hshape.2.2 he, hexp]

theorem tableMatches_inConfig {parseIP : String → IP} {t : Table} {config : Config}
    (hm : tableMatches parseIP t config = true) :
    (∀ s ∈ t.map Entry.svc, inConfig parseIP config s = true) ∧
      ∀ c ∈ config.LVS,
        (t.map Entry.svc).any (fun s => s.Address.Equal (parseIP c.Address)) = true := by
  simp only [tableMatches, Bool.and_eq_true, List.all_eq_true, List.any_eq_true] at hm
  obtain ⟨h1, h2⟩ := hm
  constructor
  · intro s hs
    obtain ⟨e, he, rfl⟩ := List.mem_map.1 hs
    obtain ⟨c, hc, hec⟩ := h1 e he
    simp only [entryMatches, serviceMatches, Bool.and_eq_true] at hec
    exact List.any_eq_true.2 ⟨c, hc, hec.1.1.1.1.1⟩
  · intro c hc
    obtain ⟨e, he, hec⟩ := h2 c hc
    simp only [entryMatches, serviceMatches, Bool.and_eq_true] at hec
    exact List.any_eq_true.2 ⟨e.svc, List.mem_map_of_mem _ he, hec.1.1.1.1.1⟩

/-- C3, amended. On a table that matches the configuration exactly, a run issues no
`NewService` and no `DelService` call; its service calls are `UpdateService` calls, one per
configured service in configuration order with the record built from the configuration: an
initial segment of them, and all of them when the run returns `nil`. -/
theorem ReloadConfig_matching_table (parseIP : String → IP) (config : Config) (t : Table)
    (hm : tableMatches parseIP t config = true) :
    (∀ e ∈ (ReloadConfig Kernel.handle parseIP config t).events,
        ∀ s, e.call ≠ .NewService s ∧ e.call ≠ .DelService s) ∧
      serviceCalls (ReloadConfig Kernel.handle parseIP config t).events <+:
        config.LVS.map (fun c => Call.UpdateService (serviceOf parseIP c)) ∧
      ((ReloadConfig Kernel.handle parseIP config t).err = none →
        serviceCalls (ReloadConfig Kernel.handle parseIP config t).events =
          config.LVS.map (fun c => Call.UpdateService (serviceOf parseIP c))) := by
  obtain ⟨ha, hb⟩ := tableMatches_inConfig hm
  have hl : (Kernel.handle.ListServices t).1 = .ok (t.map Entry.svc) := rfl
  have hcall : ∀ c ∈ config.LVS, serviceCall parseIP (t.map Entry.svc) c =
      Call.UpdateService (serviceOf parseIP c) := by
    intro c hc
    rw [serviceCall_eq, hb c hc]
    rfl
  have hmap : config.LVS.map (serviceCall parseIP (t.map Entry.svc)) =
      config.LVS.map (fun c => Call.UpdateService (serviceOf parseIP c)) :=
    List.map_congr_left hcall
  obtain ⟨h1, h2⟩ := serviceCalls_ReloadConfig Kernel.handle parseIP config t _ hl
  rw [hmap] at h1 h2
  refine ⟨?_, h1, h2⟩
  intro ev hev s
  obtain ⟨lsP, lsS, hP, hS, hshape⟩ := shape_ReloadConfig Kernel.handle parseIP config t
  rw [exec_listServices_of_ok Kernel.handle t _ hl] at hP hshape
  obtain ⟨e, he, hc⟩ := shape_call_mem hshape hev
  rw [← hc]
  simp only [List.mem_cons, List.mem_append] at he
  rcases he with rfl | he | he
  · exact ⟨by simp, by simp⟩
  · obtain ⟨s2, hs2, h3⟩ := mem_pruneTrace parseIP config _ _ lsP e he
    rcases h3 with ⟨_, ⟨ds, rfl⟩ | ⟨d, rfl⟩⟩ | ⟨hin, rfl⟩
    · exact ⟨by simp, by simp⟩
    · exact ⟨by simp, by simp⟩
    · rw [ha s2 hs2] at hin
      cases hin
  · obtain ⟨c, hc2, ds, h3⟩ := mem_syncTrace parseIP _ config.LVS lsS e he
    rcases h3 with rfl | rfl | ⟨sv, _, rfl⟩
    · simp only [hcall c hc2]
      exact ⟨by simp, by simp⟩
    · exact ⟨by simp, by simp⟩
    · simp only [destinationCall]
      split <;> exact ⟨by simp, by simp⟩

theorem ReloadConfig_matching_table_witness :
    serviceCalls (ReloadConfig Kernel.handle parseIPv4 webConfig webTable).events <+:
      webConfig.LVS.map (fun c => Call.UpdateService (serviceOf parseIPv4 c)) :=
  (ReloadConfig_matching_table parseIPv4 webConfig webTable (by decide)).2.1

/-! ## The VIP engine -/

theorem startAnnouncer_cancel_isSome (vipCfg : VIPsHAConfigVIP) (rt : Runtime) :
    (startAnnouncer vipCfg rt).1.cancel.isSome = true := by
  unfold startAnnouncer
  cases h : vipCfg.cancel <;> simp [h]

theorem cancelAnnouncer_vip (vipCfg : VIPsHAConfigVIP) (rt : Runtime) :
    (cancelAnnouncer vipCfg rt).1 = vipCfg := by
  unfold cancelAnnouncer
  cases vipCfg.cancel <;> rfl

theorem updateHAStateForVIP_keeps_handle {σ : Type} (nh : NetHandle σ) (e : VIPsUpdateEngine)
    (state : haState) (vipCfg : VIPsHAConfigVIP) (net : σ) (rt : Runtime) (n : Nat)
    (hc : vipCfg.cancel = some n) :
    (updateHAStateForVIP nh e state vipCfg net rt).vip.cancel = some n := by
  unfold updateHAStateForVIP
  have hs : (startAnnouncer vipCfg rt).1 = vipCfg := by
    unfold startAnnouncer
    rw [hc]
  split
  · exact hc
  · split
    · split
      · simp only [hs, hc]
      · split
        · exact hc
        · simp only [hs, hc]
    · split
      · split
        · exact hc
        · simp only [cancelAnnouncer_vip, hc]
      · exact hc

/-- C9, evaluated. From `masterWorld` (the VIP on the interface, the entry holding the cancel
function of context 0, its sender running), `updateHAStateForVIP` with `HABackup` finds the
address, deletes it, calls the cancel function, so that no sender runs any more, and returns
`nil`; the entry still holds the cancel function of context 0 afterwards: the field is not
cleared. -/
theorem standby_keeps_cancelled_handle :
    masterWorld.engine.Config.VIPs = [{ vipEntry with cancel := some 0 }] ∧
      (updateHAStateForVIP NetModel.handle masterWorld.engine haState.HABackup
        { vipEntry with cancel := some 0 } masterWorld.net masterWorld.rt).events =
        [.HasAddr vipEntry.IP (some true), .DelAddr vipEntry.IP true, .Cancel 0] ∧
      (updateHAStateForVIP NetModel.handle masterWorld.engine haState.HABackup
        { vipEntry with cancel := some 0 } masterWorld.net masterWorld.rt).err = none ∧
      ((updateHAStateForVIP NetModel.handle masterWorld.engine haState.HABackup
        { vipEntry with cancel := some 0 } masterWorld.net masterWorld.rt).rt.running
          vipEntry.IP) = [] ∧
      (updateHAStateForVIP NetModel.handle masterWorld.engine haState.HABackup
        { vipEntry with cancel := some 0 } masterWorld.net masterWorld.rt).vip.cancel =
        some 0 := by
  decide

/-- C10, evaluated. From `initialWorld` the role policy holds after `HAState(HAMaster)` and
after a following `HAState(HABackup)`; after the third call, `HAState(HAMaster)` again, the
VIP is on the interface and the entry still holds the cancel function of the cancelled
context 0, so no sender was started and none runs: the role policy fails. -/
theorem role_policy_fails_after_failback :
    (initialWorld.run NetModel.handle [.HAMaster]).engine.Config.VIPs.all
        (rolePolicy .HAMaster (initialWorld.run NetModel.handle [.HAMaster])) = true ∧
      (initialWorld.run NetModel.handle [.HAMaster, .HABackup]).engine.Config.VIPs.all
        (rolePolicy .HABackup (initialWorld.run NetModel.handle [.HAMaster, .HABackup])) =
        true ∧
      (initialWorld.run NetModel.handle [.HAMaster, .HABackup, .HAMaster]).net =
        [vipEntry.IP] ∧
      (initialWorld.run NetModel.handle [.HAMaster, .HABackup, .HAMaster]).engine.Config.VIPs =
        [{ vipEntry with cancel := some 0 }] ∧
      (initialWorld.run NetModel.handle [.HAMaster, .HABackup, .HAMaster]).rt.running
        vipEntry.IP = [] ∧
      (initialWorld.run NetModel.handle [.HAMaster, .HABackup, .HAMaster]).engine.Config.VIPs.all
        (rolePolicy .HAMaster
          (initialWorld.run NetModel.handle [.HAMaster, .HABackup, .HAMaster])) = false := by
  decide

/-! ## The model of the kernel table -/

theorem perform_none {σ : Type} (h : IPVSHandle σ) (c : Call) (msg : String)
    (k : Resp → σ → Outcome σ) (st : σ) (hn : (perform h c msg k st).err = none) :
    (h.exec c st).1.ok = true ∧ (k (h.exec c st).1 (h.exec c st).2).err = none ∧
      (perform h c msg k st).st = (k (h.exec c st).1 (h.exec c st).2).st := by
  rcases hx : h.exec c st with ⟨r, st1⟩
  cases hr : r.ok with
  | false =>
    cases r <;> simp [Resp.ok] at hr
    rw [perform_err h c msg k st hx] at hn
    cases hn
  | true =>
    rw [perform_ok h c msg k st hx hr] at hn ⊢
    exact ⟨rfl, hn, rfl⟩

theorem andThen_none {σ : Type} (r : Outcome σ) (k : σ → Outcome σ)
    (hn : (r.andThen k).err = none) :
    r.err = none ∧ (k r.st).err = none ∧ (r.andThen k).st = (k r.st).st := by
  cases he : r.err with
  | some e =>
    rw [andThen_err r k he, he] at hn
    cases hn
  | none =>
    rw [andThen_ok r k he] at hn ⊢
    exact ⟨rfl, hn, rfl⟩

theorem sameService_refl (s : Service) : sameService s s = true := by
  simp [sameService, IP.Equal_refl]

theorem sameService_addr {a b : Service} (h : sameService a b = true) :
    a.Address.Equal b.Address = true := by
  simp only [sameService, Bool.and_eq_true] at h
  exact h.1.1

theorem sameService_symm {a b : Service} (h : sameService a b = true) :
    sameService b a = true := by
  simp only [sameService, Bool.and_eq_true, decide_eq_true_eq] at h ⊢
  exact ⟨⟨IP.Equal_symm h.1.1, h.1.2.symm⟩, h.2.symm⟩

theorem sameDestination_refl (d : Destination) : sameDestination d d = true := by
  simp [sameDestination, IP.Equal_refl]

theorem equal_false_of {a b c : IP} (hab : a.Equal b = false) (hbc : b.Equal c = true) :
    a.Equal c = false := by
  cases h : a.Equal c with
  | false => rfl
  | true =>
    rw [IP.Equal_trans h (IP.Equal_symm hbc)] at hab
    cases hab

theorem distinct_others {pre post : Table} {e : Entry} {s : Service}
    (hd : Table.Distinct (pre ++ e :: post)) (he : e.svc.Address.Equal s.Address = true) :
    Table.Others pre s ∧ Table.Others post s := by
  unfold Table.Distinct at hd
  rw [List.pairwise_append] at hd
  obtain ⟨_, h2, h3⟩ := hd
  rw [List.pairwise_cons] at h2
  constructor
  · intro x hx
    cases hs : sameService x.svc s with
    | false => rfl
    | true =>
      have h4 := h3 x hx e (List.mem_cons_self _ _)
      rw [IP.Equal_trans (sameService_addr hs) (IP.Equal_symm he)] at h4
      cases h4
  · intro x hx
    cases hs : sameService x.svc s with
    | false => rfl
    | true =>
      have h4 := h2.1 x hx
      rw [IP.Equal_trans he (IP.Equal_symm (sameService_addr hs))] at h4
      cases h4

theorem lookup_unique (pre post : Table) (e : Entry) (s : Service)
    (h1 : Table.Others pre s) (he : sameService e.svc s = true) :
    Table.lookup (pre ++ e :: post) s = some e := by
  unfold Table.lookup
  rw [List.find?_append]
  have : pre.find? (fun x => sameService x.svc s) = none := by
    rw [List.find?_eq_none]
    intro x hx
    simp [h1 x hx]
  rw [this]
  simp [List.find?_cons, he]

theorem lookup_none {t : Table} {s : Service} (h : Table.Others t s) :
    Table.lookup t s = none := by
  unfold Table.lookup
  rw [List.find?_eq_none]
  intro x hx
  simp [h x hx]

theorem map_others {t : Table} {s : Service} (h : Table.Others t s) (f : Entry → Entry) :
    t.map (fun x => if sameService x.svc s then f x else x) = t := by
  induction t with
  | nil => rfl
  | cons a t ih =>
    have ha := h a (List.mem_cons_self _ _)
    rw [List.map_cons, ih (fun x hx => h x (List.mem_cons_of_mem _ hx))]
    simp [ha]

theorem filter_others {t : Table} {s : Service} (h : Table.Others t s) :
    t.filter (fun x => !sameService x.svc s) = t := by
  rw [List.filter_eq_self]
  intro x hx
  simp [h x hx]

theorem modify_unique {pre post : Table} {e : Entry} {s : Service}
    (h1 : Table.Others pre s) (h2 : Table.Others post s) (he : sameService e.svc s = true)
    (f : Entry → Entry) :
    Table.modify (pre ++ e :: post) s f = pre ++ f e :: post := by
  unfold Table.modify
  rw [List.map_append, List.map_cons, map_others h1, map_others h2]
  simp [he]

theorem filter_unique {pre post : Table} {e : Entry} {s : Service}
    (h1 : Table.Others pre s) (h2 : Table.Others post s) (he : sameService e.svc s = true) :
    (pre ++ e :: post).filter (fun x => !sameService x.svc s) = pre ++ post := by
  rw [List.filter_append, List.filter_cons, filter_others h1, filter_others h2]
  simp [he]

theorem kernel_delDestinations {pre post : Table} (parseIP : String → IP) (sv : Service)
    (h1 : Table.Others pre sv) (h2 : Table.Others post sv)
    (l cur : List Destination) (hcur : ∀ x ∈ cur, x ∈ l)
    (hn : (delDestinations Kernel.handle parseIP sv [] l (pre ++ ⟨sv, cur⟩ :: post)).err = none) :
    (delDestinations Kernel.handle parseIP sv [] l (pre ++ ⟨sv, cur⟩ :: post)).st =
      pre ++ ⟨sv, []⟩ :: post := by
  induction l generalizing cur with
  | nil =>
    have : cur = [] := List.eq_nil_iff_forall_not_mem.2 (fun x hx => by simpa using hcur x hx)
    subst this
    rfl
  | cons d rest ih =>
    unfold delDestinations at hn ⊢
    simp only [List.any_nil, Bool.false_eq_true, if_false] at hn ⊢
    obtain ⟨hok, hk, hst⟩ := perform_none _ _ _ _ _ hn
    rw [hst]
    have hlook := lookup_unique _ post ⟨sv, cur⟩ _ h1 (sameService_refl sv)
    have hexec : Kernel.handle.exec (.DelDestination sv d) (pre ++ ⟨sv, cur⟩ :: post) =
        (if cur.any (fun x => sameDestination x d) then
          (Resp.done, pre ++ ⟨sv, cur.filter (fun x => !sameDestination x d)⟩ :: post)
        else (Resp.err "no such destination", pre ++ ⟨sv, cur⟩ :: post)) := by
      simp only [IPVSHandle.exec, Kernel.handle, Kernel.DelDestination, hlook]
      split
      · rw [modify_unique h1 h2 (sameService_refl sv)]
        rfl
      · rfl
    rw [hexec] at hok hk ⊢
    by_cases hany : cur.any (fun x => sameDestination x d) = true
    · simp only [hany, if_true] at hk ⊢
      refine ih _ ?_ hk
      intro x hx
      obtain ⟨hx1, hx2⟩ := List.mem_filter.1 hx
      have := hcur x hx1
      simp only [List.mem_cons] at this
      rcases this with rfl | h3
      · simp [sameDestination_refl] at hx2
      · exact h3
    · simp [hany, Resp.ok] at hok

theorem kernel_pruneServices (parseIP : String → IP) (config : Config) (pre rest : Table)
    (hd : Table.Distinct (pre ++ rest))
    (hn : (pruneServices Kernel.handle parseIP config (rest.map Entry.svc)
      (pre ++ rest)).err = none) :
    (pruneServices Kernel.handle parseIP config (rest.map Entry.svc) (pre ++ rest)).st =
      pre ++ rest.filterMap (pruneEntry parseIP config) := by
  induction rest generalizing pre with
  | nil => simp [pruneServices]
  | cons e rest ih =>
    obtain ⟨h1, h2⟩ := distinct_others hd (IP.Equal_refl e.svc.Address)
    have hlook := lookup_unique _ rest e _ h1 (sameService_refl e.svc)
    simp only [List.map_cons] at hn ⊢
    unfold pruneServices at hn ⊢
    by_cases hin : inConfig parseIP config e.svc = true
    · simp only [hin, if_true] at hn ⊢
      obtain ⟨_, hk, hst⟩ := perform_none _ _ _ _ _ hn
      rw [hst]
      have hexec : Kernel.handle.exec (.ListDestinations e.svc) (pre ++ e :: rest) =
          (Resp.dests e.dests, pre ++ e :: rest) := by
        simp [IPVSHandle.exec, Kernel.handle, Kernel.ListDestinations, hlook, respOfList]
      rw [hexec] at hk ⊢
      simp only [Resp.getDests, ConfigLVS.zero] at hk ⊢
      obtain ⟨hd1, hk2, hst2⟩ := andThen_none _ _ hk
      rw [hst2]
      have hdel := kernel_delDestinations parseIP e.svc h1 h2 e.dests e.dests
        (fun x hx => hx) hd1
      rw [hdel] at hk2 ⊢
      have hd2 : Table.Distinct ((pre ++ [⟨e.svc, []⟩]) ++ rest) := by
        unfold Table.Distinct at hd ⊢
        simp only [List.append_assoc, List.singleton_append]
        rw [List.pairwise_append] at hd ⊢
        refine ⟨hd.1, ?_, ?_⟩
        · rw [List.pairwise_cons] at hd ⊢
          exact hd.2.1
        · intro a ha b hb
          simp only [List.mem_cons] at hb
          rcases hb with rfl | hb
          · exact hd.2.2 a ha e (List.mem_cons_self _ _)
          · exact hd.2.2 a ha b (List.mem_cons_of_mem _ hb)
      have hrw : pre ++ ⟨e.svc, []⟩ :: rest = (pre ++ [⟨e.svc, []⟩]) ++ rest := by simp
      rw [hrw] at hk2 ⊢
      rw [ih _ hd2 hk2]
      simp [pruneEntry, hin]
    · simp only [hin, if_false, Bool.false_eq_true] at hn ⊢
      obtain ⟨_, hk, hst⟩ := perform_none _ _ _ _ _ hn
      rw [hst]
      have hexec : Kernel.handle.exec (.DelService e.svc) (pre ++ e :: rest) =
          (Resp.done, pre ++ rest) := by
        simp only [IPVSHandle.exec, Kernel.handle, Kernel.DelService, hlook]
        rw [filter_unique h1 h2 (sameService_refl e.svc)]
        rfl
      rw [hexec] at hk ⊢
      have hd2 : Table.Distinct (pre ++ rest) := by
        unfold Table.Distinct at hd ⊢
        rw [List.pairwise_append] at hd ⊢
        refine ⟨hd.1, ?_, ?_⟩
        · rw [List.pairwise_cons] at hd
          exact hd.2.1.2
        · intro a ha b hb
          exact hd.2.2 a ha b (List.mem_cons_of_mem _ hb)
      rw [ih _ hd2 hk]
      simp [pruneEntry, hin]

theorem kernel_syncDestinations {pre post : Table} (parseIP : String → IP) (s rec : Service)
    (c : ConfigLVS) (h1 : Table.Others pre s) (h2 : Table.Others post s)
    (hrec : sameService rec s = true) (servers : List ConfigServer) (cur : List Destination)
    (hn : (syncDestinations Kernel.handle parseIP s [] c servers
      (pre ++ ⟨rec, cur⟩ :: post)).err = none) :
    (syncDestinations Kernel.handle parseIP s [] c servers (pre ++ ⟨rec, cur⟩ :: post)).st =
      pre ++ ⟨rec, cur ++ servers.map (destinationOf parseIP c)⟩ :: post := by
  induction servers generalizing cur with
  | nil => simp [syncDestinations]
  | cons sv rest ih =>
    unfold syncDestinations at hn ⊢
    obtain ⟨hok, hk, hst⟩ := perform_none _ _ _ _ _ hn
    rw [hst]
    have hcall : destinationCall parseIP s [] c sv =
        .NewDestination s (destinationOf parseIP c sv) := by
      simp [destinationCall]
    have hlook := lookup_unique _ post ⟨rec, cur⟩ _ h1 hrec
    have hexec : Kernel.handle.exec (destinationCall parseIP s [] c sv)
        (pre ++ ⟨rec, cur⟩ :: post) =
        (if cur.any (fun x => sameDestination x (destinationOf parseIP c sv)) then
          (Resp.err "destination exists", pre ++ ⟨rec, cur⟩ :: post)
        else (Resp.done, pre ++ ⟨rec, cur ++ [destinationOf parseIP c sv]⟩ :: post)) := by
      rw [hcall]
      simp only [IPVSHandle.exec, Kernel.handle, Kernel.NewDestination, hlook]
      split
      · rfl
      · rw [modify_unique h1 h2 hrec]
        rfl
    rw [hexec] at hok hk ⊢
    by_cases hany : cur.any (fun x => sameDestination x (destinationOf parseIP c sv)) = true
    · simp [hany, Resp.ok] at hok
    · simp only [hany, if_false, Bool.false_eq_true] at hk ⊢
      rw [ih _ hk]
      simp

theorem distinct_insert {pre post : Table} {n : Entry}
    (hd : Table.Distinct (pre ++ post))
    (hne : ∀ x ∈ pre ++ post, x.svc.Address.Equal n.svc.Address = false) :
    Table.Distinct (pre ++ n :: post) := by
  unfold Table.Distinct at hd ⊢
  rw [List.pairwise_append] at hd ⊢
  refine ⟨hd.1, ?_, ?_⟩
  · rw [List.pairwise_cons]
    refine ⟨?_, hd.2.1⟩
    intro b hb
    rw [IP.Equal_comm]
    exact hne b (List.mem_append_right _ hb)
  · intro a ha b hb
    simp only [List.mem_cons] at hb
    rcases hb with rfl | hb
    · exact hne a (List.mem_append_left _ ha)
    · exact hd.2.2 a ha b hb

theorem distinct_remove {pre post : Table} {old : Entry}
    (hd : Table.Distinct (pre ++ old :: post)) :
    Table.Distinct (pre ++ post) ∧
      ∀ x ∈ pre ++ post, x.svc.Address.Equal old.svc.Address = false := by
  unfold Table.Distinct at hd ⊢
  rw [List.pairwise_append, List.pairwise_cons] at hd
  obtain ⟨h1, ⟨h2, h3⟩, h4⟩ := hd
  constructor
  · rw [List.pairwise_append]
    exact ⟨h1, h3, fun a ha b hb => h4 a ha b (List.mem_cons_of_mem _ hb)⟩
  · intro x hx
    rcases List.mem_append.1 hx with hx | hx
    · exact h4 x hx old (List.mem_cons_self _ _)
    · rw [IP.Equal_comm]
      exact h2 x hx

/-- The effect on the model of the body of the second loop for one configured service, when
its three steps succeed: the entry of the configured service replaces the entry with its
address, or is added when there is none, and the other entries stay. -/
theorem kernel_syncService_step (parseIP : String → IP) (listing : List Service)
    (c : ConfigLVS) (t : Table) (ha : Table.Distinct t)
    (hfound : ∀ s ∈ listing, s.Address.Equal (parseIP c.Address) = true → ⟨s, []⟩ ∈ t)
    (hmiss : (∀ s ∈ listing, s.Address.Equal (parseIP c.Address) = false) →
      ∀ x ∈ t, x.svc.Address.Equal (parseIP c.Address) = false)
    (hok1 : (Kernel.handle.exec (serviceCall parseIP listing c) t).1.ok = true)
    (hok2 : (Kernel.handle.exec (.ListDestinations (handleOf parseIP listing c))
      (Kernel.handle.exec (serviceCall parseIP listing c) t).2).1.ok = true)
    (hn : (syncDestinations Kernel.handle parseIP (handleOf parseIP listing c)
      (Kernel.handle.exec (.ListDestinations (handleOf parseIP listing c))
        (Kernel.handle.exec (serviceCall parseIP listing c) t).2).1.getDests c c.Servers
      (Kernel.handle.exec (.ListDestinations (handleOf parseIP listing c))
        (Kernel.handle.exec (serviceCall parseIP listing c) t).2).2).err = none) :
    ∃ pre post : Table,
      (syncDestinations Kernel.handle parseIP (handleOf parseIP listing c)
        (Kernel.handle.exec (.ListDestinations (handleOf parseIP listing c))
          (Kernel.handle.exec (serviceCall parseIP listing c) t).2).1.getDests c c.Servers
        (Kernel.handle.exec (.ListDestinations (handleOf parseIP listing c))
          (Kernel.handle.exec (serviceCall parseIP listing c) t).2).2).st =
        pre ++ entryOf parseIP c :: post ∧
      Table.Distinct (pre ++ entryOf parseIP c :: post) ∧
      ∀ x, x ∈ pre ++ post ↔
        (x ∈ t ∧ x.svc.Address.Equal (parseIP c.Address) = false) := by
  cases hf : findService parseIP listing c with
  | none =>
    have hcall : serviceCall parseIP listing c = .NewService (serviceOf parseIP c) := by
      simp [serviceCall, hf]
    have hhandle : handleOf parseIP listing c = serviceOf parseIP c := by
      simp [handleOf, hf]
    have hno := hmiss (findService_none hf)
    have hoth : Table.Others t (serviceOf parseIP c) := by
      intro x hx
      cases hs : sameService x.svc (serviceOf parseIP c) with
      | false => rfl
      | true =>
        have := hno x hx
        rw [show parseIP c.Address = (serviceOf parseIP c).Address from rfl,
          sameService_addr hs] at this
        cases this
    have hexec1 : Kernel.handle.exec (.NewService (serviceOf parseIP c)) t =
        (Resp.done, t ++ ⟨serviceOf parseIP c, []⟩ :: []) := by
      simp [IPVSHandle.exec, Kernel.handle, Kernel.NewService, lookup_none hoth, respOfErr]
    have hexec2 : Kernel.handle.exec (.ListDestinations (serviceOf parseIP c))
        (t ++ ⟨serviceOf parseIP c, []⟩ :: []) =
        (Resp.dests [], t ++ ⟨serviceOf parseIP c, []⟩ :: []) := by
      have hlook := lookup_unique _ [] ⟨serviceOf parseIP c, []⟩ _ hoth
        (sameService_refl _)
      simp [IPVSHandle.exec, Kernel.handle, Kernel.ListDestinations, hlook, respOfList]
    rw [hcall, hhandle, hexec1] at hn ⊢
    simp only at hn ⊢
    rw [hexec2] at hn ⊢
    simp only [Resp.getDests] at hn ⊢
    refine ⟨t, [], ?_, ?_, ?_⟩
    · rw [kernel_syncDestinations parseIP _ _ c hoth (fun x hx => by simp at hx)
        (sameService_refl _) c.Servers [] hn]
      rfl
    · refine distinct_insert (by simpa using ha) ?_
      intro x hx
      exact hno x (by simpa using hx)
    · intro x
      simp only [List.append_nil]
      exact ⟨fun hx => ⟨hx, hno x hx⟩, fun hx => hx.1⟩
  | some s =>
    obtain ⟨hs1, hs2⟩ := findService_some hf
    have hcall : serviceCall parseIP listing c = .UpdateService (serviceOf parseIP c) := by
      simp [serviceCall, hf]
    have hhandle : handleOf parseIP listing c = s := by
      simp [handleOf, hf]
    obtain ⟨pre, post, ht⟩ := List.append_of_mem (hfound s hs1 hs2)
    subst ht
    obtain ⟨hp1, hp2⟩ := distinct_others (s := serviceOf parseIP c) ha hs2
    obtain ⟨hq1, hq2⟩ := distinct_others (s := s) ha (IP.Equal_refl _)
    obtain ⟨hr1, hr2⟩ := distinct_remove ha
    rw [hcall] at hok1 hok2 hn ⊢
    rw [hhandle] at hok2 hn ⊢
    cases hsame : sameService s (serviceOf parseIP c) with
    | false =>
      exfalso
      have hoth : Table.Others (pre ++ ⟨s, []⟩ :: post) (serviceOf parseIP c) := by
        intro x hx
        simp only [List.mem_append, List.mem_cons] at hx
        rcases hx with hx | rfl | hx
        · exact hp1 x hx
        · exact hsame
        · exact hp2 x hx
      simp [IPVSHandle.exec, Kernel.handle, Kernel.UpdateService, lookup_none hoth, respOfErr,
        Resp.ok] at hok1
    | true =>
      have hexec1 : Kernel.handle.exec (.UpdateService (serviceOf parseIP c))
          (pre ++ ⟨s, []⟩ :: post) =
          (Resp.done, pre ++ ⟨serviceOf parseIP c, []⟩ :: post) := by
        have hlook := lookup_unique _ post ⟨s, []⟩ _ hp1 hsame
        simp only [IPVSHandle.exec, Kernel.handle, Kernel.UpdateService, hlook]
        rw [modify_unique hp1 hp2 hsame]
        rfl
      have hexec2 : Kernel.handle.exec (.ListDestinations s)
          (pre ++ ⟨serviceOf parseIP c, []⟩ :: post) =
          (Resp.dests [], pre ++ ⟨serviceOf parseIP c, []⟩ :: post) := by
        have hlook := lookup_unique _ post ⟨serviceOf parseIP c, []⟩ _ hq1
          (sameService_symm hsame)
        simp [IPVSHandle.exec, Kernel.handle, Kernel.ListDestinations, hlook, respOfList]
      rw [hexec1] at hn ⊢
      simp only at hn ⊢
      rw [hexec2] at hn ⊢
      simp only [Resp.getDests] at hn ⊢
      have hne : ∀ x ∈ pre ++ post, x.svc.Address.Equal (parseIP c.Address) = false :=
        fun x hx => equal_false_of (hr2 x hx) hs2
      refine ⟨pre, post, ?_, distinct_insert hr1 hne, ?_⟩
      · rw [kernel_syncDestinations parseIP _ _ c hq1 hq2 (sameService_symm hsame)
          c.Servers [] hn]
        rfl
      · intro x
        constructor
        · intro hx
          refine ⟨?_, hne x hx⟩
          rcases List.mem_append.1 hx with hx | hx
          · exact List.mem_append_left _ hx
          · exact List.mem_append_right _ (List.mem_cons_of_mem _ hx)
        · rintro ⟨hx, hxe⟩
          simp only [List.mem_append, List.mem_cons] at hx ⊢
          rcases hx with hx | rfl | hx
          · exact Or.inl hx
          · rw [hs2] at hxe
            cases hxe
          · exact Or.inr hx

theorem kernel_syncServices (parseIP : String → IP) (listing : List Service)
    (done todo : List ConfigLVS) (t : Table)
    (hcfg : (done ++ todo).Pairwise
      (fun a b => (parseIP a.Address).Equal (parseIP b.Address) = false))
    (ha : Table.Distinct t)
    (hb : ∀ e ∈ t, (∃ c ∈ done, e = entryOf parseIP c) ∨
      (e.dests = [] ∧ e.svc ∈ listing ∧
        ∃ c ∈ todo, e.svc.Address.Equal (parseIP c.Address) = true))
    (hc : ∀ c ∈ done, entryOf parseIP c ∈ t)
    (hd : ∀ c ∈ todo, ∀ s ∈ listing, s.Address.Equal (parseIP c.Address) = true →
      ⟨s, []⟩ ∈ t)
    (hn : (syncServices Kernel.handle parseIP listing todo t).err = none) :
    Table.Distinct (syncServices Kernel.handle parseIP listing todo t).st ∧
      (∀ e ∈ (syncServices Kernel.handle parseIP listing todo t).st,
        ∃ c ∈ done ++ todo, e = entryOf parseIP c) ∧
      ∀ c ∈ done ++ todo,
        entryOf parseIP c ∈ (syncServices Kernel.handle parseIP listing todo t).st := by
  induction todo generalizing done t with
  | nil =>
    simp only [syncServices, List.append_nil]
    refine ⟨ha, ?_, hc⟩
    intro e he
    rcases hb e he with h | ⟨_, _, c, hc2, _⟩
    · exact h
    · simp at hc2
  | cons c todo ih =>
    unfold syncServices at hn ⊢
    obtain ⟨hok1, hk1, hst1⟩ := perform_none _ _ _ _ _ hn
    obtain ⟨hok2, hk2, hst2⟩ := perform_none _ _ _ _ _ hk1
    obtain ⟨hn3, hk3, hst3⟩ := andThen_none _ _ hk2
    rw [hst1, hst2, hst3]
    have hcfg2 := List.pairwise_append.1 hcfg
    have hcfg3 := List.pairwise_cons.1 hcfg2.2.1
    have hmiss : (∀ s ∈ listing, s.Address.Equal (parseIP c.Address) = false) →
        ∀ x ∈ t, x.svc.Address.Equal (parseIP c.Address) = false := by
      intro hall x hx
      rcases hb x hx with ⟨c2, hc2, rfl⟩ | ⟨_, hl, _⟩
      · exact hcfg2.2.2 c2 hc2 c (List.mem_cons_self _ _)
      · exact hall _ hl
    obtain ⟨pre, post, hst, hD, hM⟩ := kernel_syncService_step parseIP listing c t ha
      (hd c (List.mem_cons_self _ _)) hmiss hok1 hok2 hn3
    rw [hst] at hk3 ⊢
    have hmem : ∀ x, x ∈ pre ++ entryOf parseIP c :: post ↔
        x = entryOf parseIP c ∨ x ∈ pre ++ post := by
      intro x
      simp only [List.mem_append, List.mem_cons]
      tauto
    have hcfg' : ((done ++ [c]) ++ todo).Pairwise
        (fun a b => (parseIP a.Address).Equal (parseIP b.Address) = false) := by
      simpa using hcfg
    have key := ih (done ++ [c]) (pre ++ entryOf parseIP c :: post) hcfg' hD ?_ ?_ ?_ hk3
    · simpa using key
    · intro e he
      rcases (hmem e).1 he with rfl | he
      · exact Or.inl ⟨c, by simp, rfl⟩
      · obtain ⟨he1, he2⟩ := (hM e).1 he
        rcases hb e he1 with ⟨c2, hc2, rfl⟩ | ⟨h1, h2, c2, hc2, h3⟩
        · exact Or.inl ⟨c2, List.mem_append_left _ hc2, rfl⟩
        · refine Or.inr ⟨h1, h2, c2, ?_, h3⟩
          simp only [List.mem_cons] at hc2
          rcases hc2 with rfl | hc2
          · rw [h3] at he2
            cases he2
          · exact hc2
    · intro c2 hc2
      simp only [List.mem_append, List.mem_singleton] at hc2
      rcases hc2 with hc2 | rfl
      · refine (hmem _).2 (Or.inr ((hM _).2 ⟨hc c2 hc2, ?_⟩))
        exact hcfg2.2.2 c2 hc2 c (List.mem_cons_self _ _)
      · exact (hmem _).2 (Or.inl rfl)
    · intro c2 hc2 s hs hsc
      refine (hmem _).2 (Or.inr ((hM _).2 ⟨hd c2 (List.mem_cons_of_mem _ hc2) s hs hsc, ?_⟩))
      show s.Address.Equal (parseIP c.Address) = false
      have h1 := hcfg3.1 c2 hc2
      rw [IP.Equal_comm] at h1
      rw [IP.Equal_comm]
      exact equal_false_of (a := parseIP c.Address) (by rw [IP.Equal_comm]; exact h1)
        (IP.Equal_symm hsc)

theorem entryMatches_entryOf (parseIP : String → IP) (c : ConfigLVS) :
    entryMatches parseIP (entryOf parseIP c) c = true := by
  simp only [entryMatches, entryOf, Bool.and_eq_true, List.all_eq_true, List.any_eq_true]
  refine ⟨⟨?_, ?_⟩, ?_⟩
  · simp [serviceMatches, serviceOf, IP.Equal_refl]
  · intro d hd
    obtain ⟨sv, hsv, rfl⟩ := List.mem_map.1 hd
    exact ⟨sv, hsv, by simp [destinationMatches, destinationOf, IP.Equal_refl]⟩
  · intro sv hsv
    exact ⟨destinationOf parseIP c sv, List.mem_map_of_mem _ hsv,
      by simp [destinationMatches, destinationOf, IP.Equal_refl]⟩

theorem entryMatches_addr {parseIP : String → IP} {e : Entry} {c : ConfigLVS}
    (h : entryMatches parseIP e c = true) :
    e.svc.Address.Equal (parseIP c.Address) = true := by
  simp only [entryMatches, serviceMatches, Bool.and_eq_true] at h
  exact h.1.1.1.1.1

/-- C2 as stated fails: the table `twoPortTable` is well formed, the one configured service
of `bareConfig` trivially meets the distinctness conditions, the run returns `nil`, and the
resulting table still holds the service 10.0.0.1:443, which is not configured. -/
theorem convergence_counterexample :
    twoPortTable.WF ∧ bareConfig.DistinctServices parseIPv4 ∧
      bareConfig.DistinctServers parseIPv4 ∧
      (ReloadConfig Kernel.handle parseIPv4 bareConfig twoPortTable).err = none ∧
      (⟨liveService 10 0 0 1 443, []⟩ : Entry) ∈
        (ReloadConfig Kernel.handle parseIPv4 bareConfig twoPortTable).st ∧
      ¬ Converged parseIPv4 (ReloadConfig Kernel.handle parseIPv4 bareConfig twoPortTable).st
        bareConfig := by
  unfold Table.WF Config.DistinctServices Config.DistinctServers Converged
  decide

/-- C2, amended. On the model of the kernel table, for every live table whose services have
pairwise distinct addresses and every configuration whose service addresses are pairwise
distinct and whose server addresses are pairwise distinct within each service, a run that
returns `nil` leaves a table that holds exactly the configuration: its entries are, up to
order, the entries of the configured services, each with the destinations of its configured
servers. -/
theorem ReloadConfig_converges (parseIP : String → IP) (config : Config) (t : Table)
    (hlive : t.Distinct) (hservices : config.DistinctServices parseIP)
    (_hservers : config.DistinctServers parseIP)
    (hnil : (ReloadConfig Kernel.handle parseIP config t).err = none) :
    (ReloadConfig Kernel.handle parseIP config t).st.Perm
        (config.LVS.map (entryOf parseIP)) ∧
      Converged parseIP (ReloadConfig Kernel.handle parseIP config t).st config := by
  unfold ReloadConfig at hnil ⊢
  obtain ⟨_, hk1, hst1⟩ := perform_none _ _ _ _ _ hnil
  have hexec : Kernel.handle.exec .ListServices t = (Resp.services (t.map Entry.svc), t) := rfl
  rw [hst1]
  rw [hexec] at hk1 ⊢
  simp only [Resp.getServices] at hk1 ⊢
  obtain ⟨hn2, hk2, hst2⟩ := andThen_none _ _ hk1
  rw [hst2]
  have hprune := kernel_pruneServices parseIP config [] t (by simpa using hlive)
    (by simpa using hn2)
  simp only [List.nil_append] at hprune
  rw [hprune] at hk2 ⊢
  have hmemP : ∀ e, e ∈ t.filterMap (pruneEntry parseIP config) ↔
      ∃ e0 ∈ t, inConfig parseIP config e0.svc = true ∧ e = ⟨e0.svc, []⟩ := by
    intro e
    simp only [List.mem_filterMap, pruneEntry]
    constructor
    · rintro ⟨e0, he0, h⟩
      by_cases hin : inConfig parseIP config e0.svc = true
      · simp only [hin, if_true, Option.some.injEq] at h
        exact ⟨e0, he0, hin, h.symm⟩
      · simp [hin] at h
    · rintro ⟨e0, he0, hin, rfl⟩
      exact ⟨e0, he0, by simp [hin]⟩
  obtain ⟨hD, hsub, hsup⟩ := kernel_syncServices parseIP (t.map Entry.svc) [] config.LVS
    (t.filterMap (pruneEntry parseIP config)) (by simpa using hservices)
    (by
      unfold Table.Distinct at hlive ⊢
      refine hlive.filterMap _ ?_
      intro a a2 haa b hb b2 hb2
      simp only [pruneEntry, Option.mem_def] at hb hb2
      split at hb <;> simp only [Option.some.injEq, reduceCtorEq] at hb
      split at hb2 <;> simp only [Option.some.injEq, reduceCtorEq] at hb2
      subst hb
      subst hb2
      exact haa)
    (by
      intro e he
      obtain ⟨e0, he0, hin, rfl⟩ := (hmemP e).1 he
      obtain ⟨c, hc, hec⟩ := List.any_eq_true.1 hin
      exact Or.inr ⟨rfl, List.mem_map.2 ⟨e0, he0, rfl⟩, c, hc, hec⟩)
    (by simp)
    (by
      intro c hc s hs hsc
      obtain ⟨e0, he0, rfl⟩ := List.mem_map.1 hs
      exact (hmemP _).2 ⟨e0, he0, List.any_eq_true.2 ⟨c, hc, hsc⟩, rfl⟩)
    hk2
  simp only [List.nil_append] at hsub hsup
  have hnd1 : (syncServices Kernel.handle parseIP (t.map Entry.svc) config.LVS
      (t.filterMap (pruneEntry parseIP config))).st.Nodup := by
    unfold Table.Distinct at hD
    refine hD.imp ?_
    intro a b hab heq
    rw [heq, IP.Equal_refl] at hab
    cases hab
  have hnd2 : (config.LVS.map (entryOf parseIP)).Nodup := by
    unfold List.Nodup
    rw [List.pairwise_map]
    unfold Config.DistinctServices at hservices
    refine hservices.imp ?_
    intro a b hab heq
    have : parseIP a.Address = parseIP b.Address := by
      have := congrArg (fun e => e.svc.Address) heq
      simpa [entryOf, serviceOf] using this
    rw [this, IP.Equal_refl] at hab
    cases hab
  have hperm : (syncServices Kernel.handle parseIP (t.map Entry.svc) config.LVS
      (t.filterMap (pruneEntry parseIP config))).st.Perm (config.LVS.map (entryOf parseIP)) := by
    rw [List.perm_ext_iff_of_nodup hnd1 hnd2]
    intro e
    constructor
    · intro he
      obtain ⟨c, hc, rfl⟩ := hsub e he
      exact List.mem_map_of_mem _ hc
    · intro he
      obtain ⟨c, hc, rfl⟩ := List.mem_map.1 he
      exact hsup c hc
  refine ⟨hperm, ?_, ?_, ?_⟩
  · simp only [tableMatches, Bool.and_eq_true, List.all_eq_true, List.any_eq_true]
    constructor
    · intro e he
      obtain ⟨c, hc, rfl⟩ := hsub e he
      exact ⟨c, hc, entryMatches_entryOf parseIP c⟩
    · intro c hc
      exact ⟨entryOf parseIP c, hsup c hc, entryMatches_entryOf parseIP c⟩
  · rw [hperm.length_eq, List.length_map]
  · intro e he c hc hm
    obtain ⟨c2, hc2, rfl⟩ := hsub e he
    have haddr : (parseIP c2.Address).Equal (parseIP c.Address) = true := entryMatches_addr hm
    have hcc : c2 = c := by
      by_contra hne
      have hsym : Symmetric (fun a b : ConfigLVS =>
          (parseIP a.Address).Equal (parseIP b.Address) = false) := by
        intro a b hab
        rw [IP.Equal_comm]
        exact hab
      have := List.Pairwise.forall hsym hservices hc2 hc hne
      rw [haddr] at this
      cases this
    subst hcc
    simp [entryOf]

theorem ReloadConfig_converges_witness :
    (ReloadConfig Kernel.handle parseIPv4 webConfig staleFirstTable).st.Perm
      (webConfig.LVS.map (entryOf parseIPv4)) :=
  (ReloadConfig_converges parseIPv4 webConfig staleFirstTable
    (by unfold Table.Distinct; decide) (by unfold Config.DistinctServices; decide)
    (by unfold Config.DistinctServers; decide) (by decide)).1

/-! ## One entry of the VIP engine -/

theorem updateHAStateForVIP_hasAddr_error {σ : Type} (nh : NetHandle σ) (e : VIPsUpdateEngine)
    (state : haState) (v : VIPsHAConfigVIP) (net : σ) (rt : Runtime) {err : String} {net1 : σ}
    (h1 : nh.HasAddr e.Config.VIPInterface v.IP net = (.error err, net1)) :
    updateHAStateForVIP nh e state v net rt =
      ⟨some ("failed to check interface has VIP, err=" ++ err), v, net1, rt,
        [.HasAddr v.IP none]⟩ := by
  simp [updateHAStateForVIP, h1]

theorem updateHAStateForVIP_master_present {σ : Type} (nh : NetHandle σ)
    (e : VIPsUpdateEngine) (v : VIPsHAConfigVIP) (net : σ) (rt : Runtime) {net1 : σ}
    (h1 : nh.HasAddr e.Config.VIPInterface v.IP net = (.ok true, net1)) :
    updateHAStateForVIP nh e .HAMaster v net rt =
      ⟨none, (startAnnouncer v rt).1, net1, (startAnnouncer v rt).2.1,
        .HasAddr v.IP (some true) :: (startAnnouncer v rt).2.2⟩ := by
  simp [updateHAStateForVIP, h1]

theorem updateHAStateForVIP_master_add_error {σ : Type} (nh : NetHandle σ)
    (e : VIPsUpdateEngine) (v : VIPsHAConfigVIP) (net : σ) (rt : Runtime) {net1 net2 : σ}
    {err : String}
    (h1 : nh.HasAddr e.Config.VIPInterface v.IP net = (.ok false, net1))
    (h2 : nh.AddAddr e.Config.VIPInterface v.IP v.IPNet "" net1 = (some err, net2)) :
    updateHAStateForVIP nh e .HAMaster v net rt =
      ⟨some ("failed to add IP address, err=" ++ err), v, net2, rt,
        [.HasAddr v.IP (some false), .AddAddr v.IP false]⟩ := by
  simp [updateHAStateForVIP, h1, h2]

theorem updateHAStateForVIP_master_add_ok {σ : Type} (nh : NetHandle σ)
    (e : VIPsUpdateEngine) (v : VIPsHAConfigVIP) (net : σ) (rt : Runtime) {net1 net2 : σ}
    (h1 : nh.HasAddr e.Config.VIPInterface v.IP net = (.ok false, net1))
    (h2 : nh.AddAddr e.Config.VIPInterface v.IP v.IPNet "" net1 = (none, net2)) :
    updateHAStateForVIP nh e .HAMaster v net rt =
      ⟨none, (startAnnouncer v rt).1, net2, (startAnnouncer v rt).2.1,
        .HasAddr v.IP (some false) :: .AddAddr v.IP true :: (startAnnouncer v rt).2.2⟩ := by
  simp [updateHAStateForVIP, h1, h2]

theorem updateHAStateForVIP_standby_del_error {σ : Type} (nh : NetHandle σ)
    (e : VIPsUpdateEngine) (state : haState) (v : VIPsHAConfigVIP) (net : σ) (rt : Runtime)
    {net1 net2 : σ} {err : String} (hs : state ≠ .HAMaster)
    (h1 : nh.HasAddr e.Config.VIPInterface v.IP net = (.ok true, net1))
    (h2 : nh.DelAddr e.Config.VIPInterface v.IP v.IPNet net1 = (some err, net2)) :
    updateHAStateForVIP nh e state v net rt =
      ⟨some ("failed to delete IP address, err=" ++ err), v, net2, rt,
        [.HasAddr v.IP (some true), .DelAddr v.IP false]⟩ := by
  simp [updateHAStateForVIP, h1, h2, hs]

theorem updateHAStateForVIP_standby_del_ok {σ : Type} (nh : NetHandle σ)
    (e : VIPsUpdateEngine) (state : haState) (v : VIPsHAConfigVIP) (net : σ) (rt : Runtime)
    {net1 net2 : σ} (hs : state ≠ .HAMaster)
    (h1 : nh.HasAddr e.Config.VIPInterface v.IP net = (.ok true, net1))
    (h2 : nh.DelAddr e.Config.VIPInterface v.IP v.IPNet net1 = (none, net2)) :
    updateHAStateForVIP nh e state v net rt =
      ⟨none, (cancelAnnouncer v rt).1, net2, (cancelAnnouncer v rt).2.1,
        .HasAddr v.IP (some true) :: .DelAddr v.IP true :: (cancelAnnouncer v rt).2.2⟩ := by
  simp [updateHAStateForVIP, h1, h2, hs]

theorem updateHAStateForVIP_standby_absent {σ : Type} (nh : NetHandle σ)
    (e : VIPsUpdateEngine) (state : haState) (v : VIPsHAConfigVIP) (net : σ) (rt : Runtime)
    {net1 : σ} (hs : state ≠ .HAMaster)
    (h1 : nh.HasAddr e.Config.VIPInterface v.IP net = (.ok false, net1)) :
    updateHAStateForVIP nh e state v net rt =
      ⟨none, v, net1, rt, [.HasAddr v.IP (some false)]⟩ := by
  simp [updateHAStateForVIP, h1, hs]

/-- C13 (a failure ends the processing of the entry and keeps its handle). When `HasAddr`
fails, the check is the only thing done: no `AddAddr`, no `DelAddr`, no start and no cancel.
When `AddAddr` fails no sender is started; when `DelAddr` fails the cancel function is not
called. In the three cases an error is returned, the contexts and goroutines are as before
and the entry, with its cancel function, is as before. -/
theorem updateHAStateForVIP_failure {σ : Type} (nh : NetHandle σ) (e : VIPsUpdateEngine)
    (state : haState) (v : VIPsHAConfigVIP) (net : σ) (rt : Runtime) :
    (∀ err net1, nh.HasAddr e.Config.VIPInterface v.IP net = (.error err, net1) →
        (updateHAStateForVIP nh e state v net rt).events = [.HasAddr v.IP none] ∧
        (updateHAStateForVIP nh e state v net rt).err ≠ none ∧
        (updateHAStateForVIP nh e state v net rt).vip = v ∧
        (updateHAStateForVIP nh e state v net rt).rt = rt) ∧
      (∀ err net1 net2, state = .HAMaster →
        nh.HasAddr e.Config.VIPInterface v.IP net = (.ok false, net1) →
        nh.AddAddr e.Config.VIPInterface v.IP v.IPNet "" net1 = (some err, net2) →
        (updateHAStateForVIP nh e state v net rt).events =
          [.HasAddr v.IP (some false), .AddAddr v.IP false] ∧
        (updateHAStateForVIP nh e state v net rt).err ≠ none ∧
        (updateHAStateForVIP nh e state v net rt).vip = v ∧
        (updateHAStateForVIP nh e state v net rt).rt = rt) ∧
      (∀ err net1 net2, state ≠ .HAMaster →
        nh.HasAddr e.Config.VIPInterface v.IP net = (.ok true, net1) →
        nh.DelAddr e.Config.VIPInterface v.IP v.IPNet net1 = (some err, net2) →
        (updateHAStateForVIP nh e state v net rt).events =
          [.HasAddr v.IP (some true), .DelAddr v.IP false] ∧
        (updateHAStateForVIP nh e state v net rt).err ≠ none ∧
        (updateHAStateForVIP nh e state v net rt).vip = v ∧
        (updateHAStateForVIP nh e state v net rt).rt = rt) := by
  refine ⟨?_, ?_, ?_⟩
  · intro err net1 h1
    rw [updateHAStateForVIP_hasAddr_error nh e state v net rt h1]
    exact ⟨rfl, by simp, rfl, rfl⟩
  · intro err net1 net2 hs h1 h2
    subst hs
    rw [updateHAStateForVIP_master_add_error nh e v net rt h1 h2]
    exact ⟨rfl, by simp, rfl, rfl⟩
  · intro err net1 net2 hs h1 h2
    rw [updateHAStateForVIP_standby_del_error nh e state v net rt hs h1 h2]
    exact ⟨rfl, by simp, rfl, rfl⟩

theorem updateHAStateForVIP_failure_witness :
    (updateHAStateForVIP (NetModel.faulty allFail100) vipEngine .HAMaster
        { vipEntry with cancel := some 0 } [] ⟨[false], [(0, vipEntry.IP)]⟩).events =
        [.HasAddr vipEntry.IP none] ∧
      (updateHAStateForVIP (NetModel.faulty addFails100) vipEngine .HAMaster vipEntry []
        ⟨[], []⟩).events = [.HasAddr vipEntry.IP (some false), .AddAddr vipEntry.IP false] ∧
      (updateHAStateForVIP (NetModel.faulty delFails100) vipEngine .HABackup
        { vipEntry with cancel := some 0 } [vipEntry.IP] ⟨[false], [(0, vipEntry.IP)]⟩).vip =
        { vipEntry with cancel := some 0 } :=
  ⟨((updateHAStateForVIP_failure (NetModel.faulty allFail100) vipEngine .HAMaster
      { vipEntry with cancel := some 0 } [] ⟨[false], [(0, vipEntry.IP)]⟩).1
      "injected" [] rfl).1,
    ((updateHAStateForVIP_failure (NetModel.faulty addFails100) vipEngine .HAMaster vipEntry []
      ⟨[], []⟩).2.1 "injected" [] [] rfl rfl rfl).1,
    ((updateHAStateForVIP_failure (NetModel.faulty delFails100) vipEngine .HABackup
      { vipEntry with cancel := some 0 } [vipEntry.IP] ⟨[false], [(0, vipEntry.IP)]⟩).2.2
      "injected" [vipEntry.IP] [vipEntry.IP] (by decide) rfl rfl).2.2.1⟩

/-- C15 (standby on a released VIP is a no-op). With a state other than `HAMaster` and
`HasAddr` reporting the address absent, `updateHAStateForVIP` returns `nil`, does nothing but
the check (no `DelAddr`, no `AddAddr`, no call of the cancel function), and leaves the entry
with its cancel function, the contexts and the goroutines as they were, whether or not the
entry holds a cancel function. -/
theorem updateHAStateForVIP_released {σ : Type} (nh : NetHandle σ) (e : VIPsUpdateEngine)
    (state : haState) (v : VIPsHAConfigVIP) (net net1 : σ) (rt : Runtime)
    (hs : state ≠ .HAMaster)
    (h1 : nh.HasAddr e.Config.VIPInterface v.IP net = (.ok false, net1)) :
    (updateHAStateForVIP nh e state v net rt).err = none ∧
      (updateHAStateForVIP nh e state v net rt).events = [.HasAddr v.IP (some false)] ∧
      (updateHAStateForVIP nh e state v net rt).vip = v ∧
      (updateHAStateForVIP nh e state v net rt).rt = rt ∧
      (updateHAStateForVIP nh e state v net rt).net = net1 := by
  rw [updateHAStateForVIP_standby_absent nh e state v net rt hs h1]
  exact ⟨rfl, rfl, rfl, rfl, rfl⟩

theorem updateHAStateForVIP_released_witness :
    (updateHAStateForVIP NetModel.handle vipEngine .HABackup
        { vipEntry with cancel := some 0 } [] ⟨[false], [(0, vipEntry.IP)]⟩).vip.cancel =
        some 0 ∧
      (updateHAStateForVIP NetModel.handle vipEngine .HABackup
        { vipEntry with cancel := some 0 } [] ⟨[false], [(0, vipEntry.IP)]⟩).rt =
        ⟨[false], [(0, vipEntry.IP)]⟩ :=
  ⟨congrArg VIPsHAConfigVIP.cancel
      (updateHAStateForVIP_released NetModel.handle vipEngine .HABackup
        { vipEntry with cancel := some 0 } [] [] ⟨[false], [(0, vipEntry.IP)]⟩ (by decide)
        rfl).2.2.1,
    (updateHAStateForVIP_released NetModel.handle vipEngine .HABackup
      { vipEntry with cancel := some 0 } [] [] ⟨[false], [(0, vipEntry.IP)]⟩ (by decide)
      rfl).2.2.2.1⟩

/-! ## The loop of `HAState` -/

theorem updateVIPs_err {σ : Type} (nh : NetHandle σ) (e : VIPsUpdateEngine) (state : haState)
    (l : List VIPsHAConfigVIP) (net : σ) (rt : Runtime) :
    (updateVIPs nh e state l net rt).err = none := by
  cases l <;> rfl

theorem updateVIPs_length {σ : Type} (nh : NetHandle σ) (e : VIPsUpdateEngine)
    (state : haState) (l : List VIPsHAConfigVIP) (net : σ) (rt : Runtime) :
    (updateVIPs nh e state l net rt).vips.length = l.length := by
  induction l generalizing net rt with
  | nil => rfl
  | cons v rest ih => simp [updateVIPs, ih]

theorem startAnnouncer_hasAddrIP (v : VIPsHAConfigVIP) (rt : Runtime) :
    (startAnnouncer v rt).2.2.filterMap VEvent.hasAddrIP = [] := by
  unfold startAnnouncer
  cases v.cancel <;> rfl

theorem cancelAnnouncer_hasAddrIP (v : VIPsHAConfigVIP) (rt : Runtime) :
    (cancelAnnouncer v rt).2.2.filterMap VEvent.hasAddrIP = [] := by
  unfold cancelAnnouncer
  cases v.cancel <;> rfl

theorem updateHAStateForVIP_hasAddrIP {σ : Type} (nh : NetHandle σ) (e : VIPsUpdateEngine)
    (state : haState) (v : VIPsHAConfigVIP) (net : σ) (rt : Runtime) :
    (updateHAStateForVIP nh e state v net rt).events.filterMap VEvent.hasAddrIP = [v.IP] := by
  rcases h1 : nh.HasAddr e.Config.VIPInterface v.IP net with ⟨res, net1⟩
  cases res with
  | error err =>
    rw [updateHAStateForVIP_hasAddr_error nh e state v net rt h1]
    rfl
  | ok hasVIP =>
    by_cases hs : state = .HAMaster
    · subst hs
      cases hasVIP with
      | true =>
        rw [updateHAStateForVIP_master_present nh e v net rt h1]
        simp [List.filterMap_cons, VEvent.hasAddrIP, startAnnouncer_hasAddrIP]
      | false =>
        rcases h2 : nh.AddAddr e.Config.VIPInterface v.IP v.IPNet "" net1 with ⟨res2, net2⟩
        cases res2 with
        | some err =>
          rw [updateHAStateForVIP_master_add_error nh e v net rt h1 h2]
          rfl
        | none =>
          rw [updateHAStateForVIP_master_add_ok nh e v net rt h1 h2]
          simp [List.filterMap_cons, VEvent.hasAddrIP, startAnnouncer_hasAddrIP]
    · cases hasVIP with
      | false =>
        rw [updateHAStateForVIP_standby_absent nh e state v net rt hs h1]
        rfl
      | true =>
        rcases h2 : nh.DelAddr e.Config.VIPInterface v.IP v.IPNet net1 with ⟨res2, net2⟩
        cases res2 with
        | some err =>
          rw [updateHAStateForVIP_standby_del_error nh e state v net rt hs h1 h2]
          rfl
        | none =>
          rw [updateHAStateForVIP_standby_del_ok nh e state v net rt hs h1 h2]
          simp [List.filterMap_cons, VEvent.hasAddrIP, cancelAnnouncer_hasAddrIP]

theorem updateVIPs_hasAddrIP {σ : Type} (nh : NetHandle σ) (e : VIPsUpdateEngine)
    (state : haState) (l : List VIPsHAConfigVIP) (net : σ) (rt : Runtime) :
    (updateVIPs nh e state l net rt).events.filterMap VEvent.hasAddrIP =
      l.map (fun v => v.IP) := by
  induction l generalizing net rt with
  | nil => rfl
  | cons v rest ih =>
    simp only [updateVIPs, List.filterMap_append, updateHAStateForVIP_hasAddrIP, ih,
      List.map_cons, List.singleton_append]

theorem updateVIPs_append {σ : Type} (nh : NetHandle σ) (e : VIPsUpdateEngine)
    (state : haState) (pre post : List VIPsHAConfigVIP) (net : σ) (rt : Runtime) :
    (updateVIPs nh e state (pre ++ post) net rt).events =
        (updateVIPs nh e state pre net rt).events ++
          (updateVIPs nh e state post (updateVIPs nh e state pre net rt).net
            (updateVIPs nh e state pre net rt).rt).events ∧
      (updateVIPs nh e state (pre ++ post) net rt).vips =
        (updateVIPs nh e state pre net rt).vips ++
          (updateVIPs nh e state post (updateVIPs nh e state pre net rt).net
            (updateVIPs nh e state pre net rt).rt).vips ∧
      (updateVIPs nh e state (pre ++ post) net rt).net =
        (updateVIPs nh e state post (updateVIPs nh e state pre net rt).net
          (updateVIPs nh e state pre net rt).rt).net ∧
      (updateVIPs nh e state (pre ++ post) net rt).rt =
        (updateVIPs nh e state post (updateVIPs nh e state pre net rt).net
          (updateVIPs nh e state pre net rt).rt).rt := by
  induction pre generalizing net rt with
  | nil => simp [updateVIPs]
  | cons v rest ih =>
    obtain ⟨h1, h2, h3, h4⟩ := ih (updateHAStateForVIP nh e state v net rt).net
      (updateHAStateForVIP nh e state v net rt).rt
    rw [List.cons_append]
    simp only [updateVIPs]
    rw [h1, h2, h3, h4]
    simp

/-- C12 (per-VIP fault isolation). Whatever the role, the entries and the behaviour of the
collaborator, `HAState` returns `nil`, returns one entry per entry, makes the `HasAddr` check
of every entry in configuration order, and processes every entry with `updateHAStateForVIP`
from the state that the entries before it left, whether they failed or not. In particular,
under `HAMaster`, when `AddAddr` fails for the first entry, the second entry gets its check,
its `AddAddr` call when its address is absent, and the start of its sender when it holds no
cancel function. -/
theorem HAState_fault_isolation {σ : Type} (nh : NetHandle σ) (e : VIPsUpdateEngine)
    (state : haState) (net : σ) (rt : Runtime) :
    (HAState nh e state net rt).err = none ∧
      (HAState nh e state net rt).vips.length = e.Config.VIPs.length ∧
      (HAState nh e state net rt).events.filterMap VEvent.hasAddrIP =
        e.Config.VIPs.map (fun v => v.IP) ∧
      (∀ pre v post, e.Config.VIPs = pre ++ v :: post →
        (HAState nh e state net rt).events =
          (updateVIPs nh e state pre net rt).events ++
            (updateHAStateForVIP nh e state v (updateVIPs nh e state pre net rt).net
              (updateVIPs nh e state pre net rt).rt).events ++
            (updateVIPs nh e state post
              (updateHAStateForVIP nh e state v (updateVIPs nh e state pre net rt).net
                (updateVIPs nh e state pre net rt).rt).net
              (updateHAStateForVIP nh e state v (updateVIPs nh e state pre net rt).net
                (updateVIPs nh e state pre net rt).rt).rt).events) ∧
      (∀ v1 v2 rest err net1 net2 net3 net4, e.Config.VIPs = v1 :: v2 :: rest →
        state = .HAMaster →
        nh.HasAddr e.Config.VIPInterface v1.IP net = (.ok false, net1) →
        nh.AddAddr e.Config.VIPInterface v1.IP v1.IPNet "" net1 = (some err, net2) →
        nh.HasAddr e.Config.VIPInterface v2.IP net2 = (.ok false, net3) →
        nh.AddAddr e.Config.VIPInterface v2.IP v2.IPNet "" net3 = (none, net4) →
        v2.cancel = none →
        (HAState nh e state net rt).events.take 5 =
          [.HasAddr v1.IP (some false), .AddAddr v1.IP false, .HasAddr v2.IP (some false),
            .AddAddr v2.IP true, .Start rt.ctxs.length v2.IP]) := by
  refine ⟨updateVIPs_err nh e state _ net rt, updateVIPs_length nh e state _ net rt,
    updateVIPs_hasAddrIP nh e state _ net rt, ?_, ?_⟩
  · intro pre v post hl
    unfold HAState
    rw [hl, (updateVIPs_append nh e state pre (v :: post) net rt).1]
    simp [updateVIPs, List.append_assoc]
  · intro v1 v2 rest err net1 net2 net3 net4 hl hs h1 h2 h3 h4 hc
    subst hs
    unfold HAState
    rw [hl]
    simp only [updateVIPs]
    rw [updateHAStateForVIP_master_add_error nh e v1 net rt h1 h2]
    simp only
    rw [updateHAStateForVIP_master_add_ok nh e v2 net2 rt h3 h4]
    simp [startAnnouncer, hc, Runtime.withCancel]

theorem HAState_fault_isolation_witness :
    (HAState (NetModel.faulty addFails100) twoVIPEngine .HAMaster [] ⟨[], []⟩).events.take 5 =
      [.HasAddr vipEntry.IP (some false), .AddAddr vipEntry.IP false,
        .HasAddr vipEntry2.IP (some false), .AddAddr vipEntry2.IP true,
        .Start 0 vipEntry2.IP] :=
  (HAState_fault_isolation (NetModel.faulty addFails100) twoVIPEngine .HAMaster []
    ⟨[], []⟩).2.2.2.2 vipEntry vipEntry2 [] "injected" [] [] [] [vipEntry2.IP] rfl rfl rfl rfl
    rfl rfl rfl

/-! ## Two consecutive `HAState(HAMaster)` calls -/

theorem updateVIPs_master_fresh (e : VIPsUpdateEngine) (l : List VIPsHAConfigVIP)
    (net : List IP) (rt : Runtime) (hnone : ∀ v ∈ l, v.cancel = none)
    (hdist : l.Pairwise (fun a b => a.IP.Equal b.IP = false))
    (habs : ∀ v ∈ l, net.any (fun a => a.Equal v.IP) = false) :
    (updateVIPs NetModel.handle e .HAMaster l net rt).events = masterTrace rt.ctxs.length l ∧
      (updateVIPs NetModel.handle e .HAMaster l net rt).net = net ++ l.map (fun v => v.IP) ∧
      (∀ v ∈ (updateVIPs NetModel.handle e .HAMaster l net rt).vips, v.cancel ≠ none) ∧
      (updateVIPs NetModel.handle e .HAMaster l net rt).vips.map (fun v => v.IP) =
        l.map (fun v => v.IP) := by
  induction l generalizing net rt with
  | nil => simp [updateVIPs, masterTrace]
  | cons v rest ih =>
    have h1 : NetModel.handle.HasAddr e.Config.VIPInterface v.IP net = (.ok false, net) := by
      show (Except.ok (net.any (fun a => a.Equal v.IP)), net) = _
      rw [habs v (List.mem_cons_self _ _)]
    have h2 : NetModel.handle.AddAddr e.Config.VIPInterface v.IP v.IPNet "" net =
        (none, net ++ [v.IP]) := rfl
    have hstep := updateHAStateForVIP_master_add_ok NetModel.handle e v net rt h1 h2
    have hc := hnone v (List.mem_cons_self _ _)
    have hstart : startAnnouncer v rt =
        ({ v with cancel := some rt.ctxs.length },
          ⟨rt.ctxs ++ [false], rt.loops ++ [(rt.ctxs.length, v.IP)]⟩,
          [VEvent.Start rt.ctxs.length v.IP]) := by
      simp [startAnnouncer, hc, Runtime.withCancel, Runtime.go]
    rw [hstart] at hstep
    rw [List.pairwise_cons] at hdist
    obtain ⟨i1, i2, i3, i4⟩ := ih (net ++ [v.IP])
      ⟨rt.ctxs ++ [false], rt.loops ++ [(rt.ctxs.length, v.IP)]⟩
      (fun w hw => hnone w (List.mem_cons_of_mem _ hw)) hdist.2
      (by
        intro w hw
        rw [List.any_append, habs w (List.mem_cons_of_mem _ hw)]
        simp [hdist.1 w hw])
    simp only [updateVIPs, hstep, i1, i2, masterTrace, List.length_append, List.length_singleton,
      List.map_cons, i4]
    refine ⟨by simp, by simp, ?_, trivial⟩
    intro w hw
    simp only [List.mem_cons] at hw
    rcases hw with rfl | hw
    · simp
    · exact i3 w hw

theorem updateVIPs_master_held (e : VIPsUpdateEngine) (l : List VIPsHAConfigVIP)
    (net : List IP) (rt : Runtime) (hsome : ∀ v ∈ l, v.cancel ≠ none)
    (hpres : ∀ v ∈ l, net.any (fun a => a.Equal v.IP) = true) :
    (updateVIPs NetModel.handle e .HAMaster l net rt).events =
        l.map (fun v => VEvent.HasAddr v.IP (some true)) ∧
      (updateVIPs NetModel.handle e .HAMaster l net rt).net = net ∧
      (updateVIPs NetModel.handle e .HAMaster l net rt).rt = rt ∧
      (updateVIPs NetModel.handle e .HAMaster l net rt).vips = l := by
  induction l generalizing net rt with
  | nil => simp [updateVIPs]
  | cons v rest ih =>
    have h1 : NetModel.handle.HasAddr e.Config.VIPInterface v.IP net = (.ok true, net) := by
      show (Except.ok (net.any (fun a => a.Equal v.IP)), net) = _
      rw [hpres v (List.mem_cons_self _ _)]
    have hstep := updateHAStateForVIP_master_present NetModel.handle e v net rt h1
    have hstart : startAnnouncer v rt = (v, rt, []) := by
      unfold startAnnouncer
      cases hc : v.cancel with
      | none => exact absurd hc (hsome v (List.mem_cons_self _ _))
      | some n => rfl
    rw [hstart] at hstep
    obtain ⟨i1, i2, i3, i4⟩ := ih net rt (fun w hw => hsome w (List.mem_cons_of_mem _ hw))
      (fun w hw => hpres w (List.mem_cons_of_mem _ hw))
    simp only [updateVIPs, hstep, i1, i2, i3, i4, List.map_cons, List.singleton_append]
    exact ⟨trivial, trivial, trivial, trivial⟩

theorem masterTrace_addAddr (n : Nat) (l : List VIPsHAConfigVIP) :
    (masterTrace n l).filter VEvent.isAddAddr = l.map (fun v => VEvent.AddAddr v.IP true) := by
  induction l generalizing n with
  | nil => rfl
  | cons v rest ih => simp [masterTrace, VEvent.isAddAddr, ih]

theorem masterTrace_startIP (n : Nat) (l : List VIPsHAConfigVIP) :
    (masterTrace n l).filterMap VEvent.startIP = l.map (fun v => v.IP) := by
  induction l generalizing n with
  | nil => rfl
  | cons v rest ih => simp [masterTrace, VEvent.startIP, ih]

/-- C11 as stated fails: the two entries of `sameAddressEngine` are different entries of one
address, none holds a cancel function and the interface holds no address. The first
`HAState(HAMaster)` adds the address for the first entry only, since the check of the second
entry finds it, and starts a sender for each entry; the second call adds nothing: one
`AddAddr` call for two entries. -/
theorem master_twice_counterexample :
    sameAddressEngine.Config.VIPs.length = 2 ∧
      vipEntry ≠ vipEntry32 ∧
      World.Released ⟨sameAddressEngine, [], ⟨[], []⟩⟩ ∧
      (HAState NetModel.handle sameAddressEngine .HAMaster [] ⟨[], []⟩).events =
        [.HasAddr vipEntry.IP (some false), .AddAddr vipEntry.IP true, .Start 0 vipEntry.IP,
          .HasAddr vipEntry32.IP (some true), .Start 1 vipEntry32.IP] ∧
      (HAState NetModel.handle
        ((World.mk sameAddressEngine [] ⟨[], []⟩).apply NetModel.handle .HAMaster).engine
        .HAMaster
        ((World.mk sameAddressEngine [] ⟨[], []⟩).apply NetModel.handle .HAMaster).net
        ((World.mk sameAddressEngine [] ⟨[], []⟩).apply NetModel.handle .HAMaster).rt).events =
        [.HasAddr vipEntry.IP (some true), .HasAddr vipEntry32.IP (some true)] ∧
      ¬ (((HAState NetModel.handle sameAddressEngine .HAMaster [] ⟨[], []⟩).events ++
        (HAState NetModel.handle
          ((World.mk sameAddressEngine [] ⟨[], []⟩).apply NetModel.handle .HAMaster).engine
          .HAMaster
          ((World.mk sameAddressEngine [] ⟨[], []⟩).apply NetModel.handle .HAMaster).net
          ((World.mk sameAddressEngine [] ⟨[], []⟩).apply NetModel.handle
            .HAMaster).rt).events).filter
        VEvent.isAddAddr).length = sameAddressEngine.Config.VIPs.length := by
  unfold World.Released
  decide

/-- C11, amended. For every configuration whose VIP addresses are pairwise distinct, from a
state where no VIP is on the interface and no entry holds a cancel function, with every call
succeeding and `HasAddr` reflecting the earlier `AddAddr` calls: the first
`HAState(HAMaster)` makes for each entry, in order, its check, one `AddAddr` call and one
start of a sender; the second makes the check of each entry and nothing else, so no
`AddAddr`, no `DelAddr` and no start. -/
theorem HAState_master_twice (w : World (List IP)) (hrel : w.Released)
    (hdist : w.engine.DistinctVIPs) :
    (HAState NetModel.handle w.engine .HAMaster w.net w.rt).events =
        masterTrace w.rt.ctxs.length w.engine.Config.VIPs ∧
      (HAState NetModel.handle w.engine .HAMaster w.net w.rt).events.filter VEvent.isAddAddr =
        w.engine.Config.VIPs.map (fun v => VEvent.AddAddr v.IP true) ∧
      (HAState NetModel.handle w.engine .HAMaster w.net w.rt).events.filterMap VEvent.startIP =
        w.engine.Config.VIPs.map (fun v => v.IP) ∧
      (HAState NetModel.handle (w.apply NetModel.handle .HAMaster).engine .HAMaster
        (w.apply NetModel.handle .HAMaster).net (w.apply NetModel.handle .HAMaster).rt).events =
        ((w.apply NetModel.handle .HAMaster).engine.Config.VIPs.map
          (fun v => VEvent.HasAddr v.IP (some true))) ∧
      (w.apply NetModel.handle .HAMaster).engine.Config.VIPs.map (fun v => v.IP) =
        w.engine.Config.VIPs.map (fun v => v.IP) ∧
      ∀ ev ∈ (HAState NetModel.handle (w.apply NetModel.handle .HAMaster).engine .HAMaster
        (w.apply NetModel.handle .HAMaster).net (w.apply NetModel.handle .HAMaster).rt).events,
        ev.isAddAddr = false ∧ ev.isDelAddr = false ∧ ev.isStart = false := by
  obtain ⟨a1, a2, a3, a4⟩ := updateVIPs_master_fresh w.engine w.engine.Config.VIPs w.net w.rt
    hrel.1 hdist hrel.2
  have hpres : ∀ v ∈ (updateVIPs NetModel.handle w.engine .HAMaster w.engine.Config.VIPs
      w.net w.rt).vips,
      (updateVIPs NetModel.handle w.engine .HAMaster w.engine.Config.VIPs w.net w.rt).net.any
        (fun a => a.Equal v.IP) = true := by
    intro v hv
    rw [a2, List.any_append, Bool.or_eq_true]
    right
    rw [← a4, List.any_eq_true]
    exact ⟨v.IP, List.mem_map.2 ⟨v, hv, rfl⟩, IP.Equal_refl _⟩
  obtain ⟨b1, _, _, _⟩ := updateVIPs_master_held
    (w.apply NetModel.handle .HAMaster).engine
    (updateVIPs NetModel.handle w.engine .HAMaster w.engine.Config.VIPs w.net w.rt).vips
    (updateVIPs NetModel.handle w.engine .HAMaster w.engine.Config.VIPs w.net w.rt).net
    (updateVIPs NetModel.handle w.engine .HAMaster w.engine.Config.VIPs w.net w.rt).rt
    a3 hpres
  have hsecond : (HAState NetModel.handle (w.apply NetModel.handle .HAMaster).engine .HAMaster
      (w.apply NetModel.handle .HAMaster).net (w.apply NetModel.handle .HAMaster).rt).events =
      ((w.apply NetModel.handle .HAMaster).engine.Config.VIPs.map
        (fun v => VEvent.HasAddr v.IP (some true))) := b1
  refine ⟨a1, ?_, ?_, hsecond, a4, ?_⟩
  · show (updateVIPs NetModel.handle w.engine .HAMaster w.engine.Config.VIPs w.net
      w.rt).events.filter VEvent.isAddAddr = _
    rw [a1, masterTrace_addAddr]
  · show (updateVIPs NetModel.handle w.engine .HAMaster w.engine.Config.VIPs w.net
      w.rt).events.filterMap VEvent.startIP = _
    rw [a1, masterTrace_startIP]
  · intro ev hev
    rw [hsecond] at hev
    obtain ⟨v, _, rfl⟩ := List.mem_map.1 hev
    exact ⟨rfl, rfl, rfl⟩

theorem HAState_master_twice_witness :
    (HAState NetModel.handle twoVIPEngine .HAMaster [] ⟨[], []⟩).events =
      [.HasAddr vipEntry.IP (some false), .AddAddr vipEntry.IP true, .Start 0 vipEntry.IP,
        .HasAddr vipEntry2.IP (some false), .AddAddr vipEntry2.IP true,
        .Start 1 vipEntry2.IP] :=
  (HAState_master_twice ⟨twoVIPEngine, [], ⟨[], []⟩⟩ (by unfold World.Released; decide)
    (by unfold VIPsUpdateEngine.DistinctVIPs; decide)).1

/-! ## At most one sender per entry -/

theorem handlesOf_cons (v : VIPsHAConfigVIP) (l : List VIPsHAConfigVIP) :
    handlesOf (v :: l) = handlesOf [v] ++ handlesOf l := by
  unfold handlesOf
  cases h : v.cancel <;> simp [List.filterMap_cons, h]

theorem handlesOf_append (a b : List VIPsHAConfigVIP) :
    handlesOf (a ++ b) = handlesOf a ++ handlesOf b := by
  simp [handlesOf, List.filterMap_append]

theorem startAnnouncer_loops (v : VIPsHAConfigVIP) (rt : Runtime) :
    ∃ A : List (Nat × IP), (A = [] ∨ (A = [(rt.ctxs.length, v.IP)] ∧ v.cancel = none)) ∧
      (startAnnouncer v rt).2.1.loops = rt.loops ++ A ∧
      handlesOf [(startAnnouncer v rt).1] = handlesOf [v] ++ A ∧
      (startAnnouncer v rt).2.1.ctxs.length = rt.ctxs.length + A.length := by
  unfold startAnnouncer
  cases h : v.cancel with
  | none =>
    refine ⟨[(rt.ctxs.length, v.IP)], Or.inr ⟨rfl, rfl⟩, ?_, ?_, ?_⟩
    · simp [Runtime.go, Runtime.withCancel]
    · simp [handlesOf, h, Runtime.withCancel]
    · simp [Runtime.go, Runtime.withCancel]
  | some n =>
    exact ⟨[], Or.inl rfl, by simp, by simp, by simp⟩

theorem cancelAnnouncer_loops (v : VIPsHAConfigVIP) (rt : Runtime) :
    (cancelAnnouncer v rt).2.1.loops = rt.loops ∧
      (cancelAnnouncer v rt).2.1.ctxs.length = rt.ctxs.length := by
  unfold cancelAnnouncer
  cases v.cancel <;> simp [Runtime.cancelCtx]

theorem updateHAStateForVIP_loops {σ : Type} (nh : NetHandle σ) (e : VIPsUpdateEngine)
    (state : haState) (v : VIPsHAConfigVIP) (net : σ) (rt : Runtime) :
    ∃ A : List (Nat × IP), (A = [] ∨ (A = [(rt.ctxs.length, v.IP)] ∧ v.cancel = none)) ∧
      (updateHAStateForVIP nh e state v net rt).rt.loops = rt.loops ++ A ∧
      handlesOf [(updateHAStateForVIP nh e state v net rt).vip] = handlesOf [v] ++ A ∧
      (updateHAStateForVIP nh e state v net rt).rt.ctxs.length = rt.ctxs.length + A.length := by
  have hnil : ∀ net2 : σ, ∀ err : Option String, ∀ evs : List VEvent,
      ∃ A : List (Nat × IP), (A = [] ∨ (A = [(rt.ctxs.length, v.IP)] ∧ v.cancel = none)) ∧
        (VOutcome.mk err v net2 rt evs).rt.loops = rt.loops ++ A ∧
        handlesOf [(VOutcome.mk err v net2 rt evs).vip] = handlesOf [v] ++ A ∧
        (VOutcome.mk err v net2 rt evs).rt.ctxs.length = rt.ctxs.length + A.length :=
    fun _ _ _ => ⟨[], Or.inl rfl, by simp, by simp, by simp⟩
  rcases h1 : nh.HasAddr e.Config.VIPInterface v.IP net with ⟨res, net1⟩
  cases res with
  | error err =>
    rw [updateHAStateForVIP_hasAddr_error nh e state v net rt h1]
    exact hnil _ _ _
  | ok hasVIP =>
    by_cases hs : state = .HAMaster
    · subst hs
      cases hasVIP with
      | true =>
        rw [updateHAStateForVIP_master_present nh e v net rt h1]
        exact startAnnouncer_loops v rt
      | false =>
        rcases h2 : nh.AddAddr e.Config.VIPInterface v.IP v.IPNet "" net1 with ⟨res2, net2⟩
        cases res2 with
        | some err =>
          rw [updateHAStateForVIP_master_add_error nh e v net rt h1 h2]
          exact hnil _ _ _
        | none =>
          rw [updateHAStateForVIP_master_add_ok nh e v net rt h1 h2]
          exact startAnnouncer_loops v rt
    · cases hasVIP with
      | false =>
        rw [updateHAStateForVIP_standby_absent nh e state v net rt hs h1]
        exact hnil _ _ _
      | true =>
        rcases h2 : nh.DelAddr e.Config.VIPInterface v.IP v.IPNet net1 with ⟨res2, net2⟩
        cases res2 with
        | some err =>
          rw [updateHAStateForVIP_standby_del_error nh e state v net rt hs h1 h2]
          exact hnil _ _ _
        | none =>
          rw [updateHAStateForVIP_standby_del_ok nh e state v net rt hs h1 h2]
          refine ⟨[], Or.inl rfl, ?_, ?_, ?_⟩
          · simp [(cancelAnnouncer_loops v rt).1]
          · simp [cancelAnnouncer_vip]
          · simp [(cancelAnnouncer_loops v rt).2]

theorem updateVIPs_loops {σ : Type} (nh : NetHandle σ) (e : VIPsUpdateEngine)
    (state : haState) (l : List VIPsHAConfigVIP) (net : σ) (rt : Runtime) :
    ∃ A : List (Nat × IP),
      (updateVIPs nh e state l net rt).rt.loops = rt.loops ++ A ∧
      (handlesOf (updateVIPs nh e state l net rt).vips).Perm (handlesOf l ++ A) ∧
      (updateVIPs nh e state l net rt).rt.ctxs.length = rt.ctxs.length + A.length ∧
      (A.map Prod.fst).Nodup ∧
      ∀ p ∈ A, rt.ctxs.length ≤ p.1 ∧ p.1 < rt.ctxs.length + A.length := by
  induction l generalizing net rt with
  | nil => exact ⟨[], by simp [updateVIPs], by simp [updateVIPs], by simp [updateVIPs],
      by simp, by simp⟩
  | cons v rest ih =>
    obtain ⟨A1, hA1, s1, s2, s3⟩ := updateHAStateForVIP_loops nh e state v net rt
    obtain ⟨A2, t1, t2, t3, t4, t5⟩ := ih (updateHAStateForVIP nh e state v net rt).net
      (updateHAStateForVIP nh e state v net rt).rt
    refine ⟨A1 ++ A2, ?_, ?_, ?_, ?_, ?_⟩
    · simp only [updateVIPs]
      rw [t1, s1, List.append_assoc]
    · simp only [updateVIPs]
      rw [handlesOf_cons, handlesOf_cons v rest, s2]
      have h3 : (handlesOf [v] ++ A1 ++ (handlesOf rest ++ A2)).Perm
          (handlesOf [v] ++ handlesOf rest ++ (A1 ++ A2)) := by
        simp only [List.append_assoc]
        refine List.Perm.append_left _ ?_
        rw [← List.append_assoc, ← List.append_assoc]
        exact List.Perm.append_right _ List.perm_append_comm
      exact (List.Perm.append_left _ t2).trans h3
    · simp only [updateVIPs]
      rw [t3, s3, List.length_append]
      omega
    · rw [List.map_append, List.nodup_append]
      refine ⟨?_, t4, ?_⟩
      · rcases hA1 with rfl | ⟨rfl, _⟩ <;> simp
      · intro a ha1 ha2
        obtain ⟨p, hp, rfl⟩ := List.mem_map.1 ha1
        obtain ⟨q, hq, hpq⟩ := List.mem_map.1 ha2
        have hq2 := (t5 q hq).1
        rw [s3] at hq2
        rcases hA1 with rfl | ⟨rfl, _⟩
        · simp at hp
        · simp only [List.mem_singleton] at hp
          subst hp
          simp only [List.length_singleton] at hq2
          simp only at hpq
          omega
    · intro p hp
      rw [List.length_append]
      rcases List.mem_append.1 hp with hp | hp
      · rcases hA1 with rfl | ⟨rfl, _⟩
        · simp at hp
        · simp only [List.mem_singleton] at hp
          subst hp
          simp
      · have := t5 p hp
        rw [s3] at this
        omega

theorem start_mem_startAnnouncer {v : VIPsHAConfigVIP} {rt : Runtime} {c : Nat} {ip : IP}
    (h : VEvent.Start c ip ∈ (startAnnouncer v rt).2.2) :
    v.cancel = none ∧ (startAnnouncer v rt).1.cancel = some c ∧ c = rt.ctxs.length ∧
      ip = v.IP := by
  unfold startAnnouncer at h ⊢
  cases hc : v.cancel with
  | none =>
    simp only [hc, List.mem_singleton, VEvent.Start.injEq] at h
    obtain ⟨rfl, rfl⟩ := h
    exact ⟨rfl, rfl, rfl, rfl⟩
  | some n => simp [hc] at h

theorem start_not_mem_cancelAnnouncer (v : VIPsHAConfigVIP) (rt : Runtime) (c : Nat) (ip : IP) :
    VEvent.Start c ip ∉ (cancelAnnouncer v rt).2.2 := by
  unfold cancelAnnouncer
  cases v.cancel <;> simp

theorem updateHAStateForVIP_start {σ : Type} (nh : NetHandle σ) (e : VIPsUpdateEngine)
    (state : haState) (v : VIPsHAConfigVIP) (net : σ) (rt : Runtime) (c : Nat) (ip : IP)
    (h : VEvent.Start c ip ∈ (updateHAStateForVIP nh e state v net rt).events) :
    v.cancel = none ∧ (updateHAStateForVIP nh e state v net rt).vip.cancel = some c ∧
      c = rt.ctxs.length ∧ ip = v.IP := by
  rcases h1 : nh.HasAddr e.Config.VIPInterface v.IP net with ⟨res, net1⟩
  cases res with
  | error err =>
    rw [updateHAStateForVIP_hasAddr_error nh e state v net rt h1] at h
    simp at h
  | ok hasVIP =>
    by_cases hs : state = .HAMaster
    · subst hs
      cases hasVIP with
      | true =>
        rw [updateHAStateForVIP_master_present nh e v net rt h1] at h ⊢
        simp only [List.mem_cons, reduceCtorEq, false_or] at h
        exact start_mem_startAnnouncer h
      | false =>
        rcases h2 : nh.AddAddr e.Config.VIPInterface v.IP v.IPNet "" net1 with ⟨res2, net2⟩
        cases res2 with
        | some err =>
          rw [updateHAStateForVIP_master_add_error nh e v net rt h1 h2] at h
          simp at h
        | none =>
          rw [updateHAStateForVIP_master_add_ok nh e v net rt h1 h2] at h ⊢
          simp only [List.mem_cons, reduceCtorEq, false_or] at h
          exact start_mem_startAnnouncer h
    · cases hasVIP with
      | false =>
        rw [updateHAStateForVIP_standby_absent nh e state v net rt hs h1] at h
        simp at h
      | true =>
        rcases h2 : nh.DelAddr e.Config.VIPInterface v.IP v.IPNet net1 with ⟨res2, net2⟩
        cases res2 with
        | some err =>
          rw [updateHAStateForVIP_standby_del_error nh e state v net rt hs h1 h2] at h
          simp at h
        | none =>
          rw [updateHAStateForVIP_standby_del_ok nh e state v net rt hs h1 h2] at h
          simp only [List.mem_cons, reduceCtorEq, false_or] at h
          exact absurd h (start_not_mem_cancelAnnouncer v rt c ip)

theorem filter_ctx_length_le_one (l : List (Nat × IP)) (hnd : (l.map Prod.fst).Nodup)
    (n : Nat) (q : Nat × IP → Bool) :
    (l.filter (fun p => decide (p.1 = n) && q p)).length ≤ 1 := by
  induction l with
  | nil => simp
  | cons a rest ih =>
    rw [List.map_cons, List.nodup_cons] at hnd
    by_cases ha : a.1 = n
    · have hrest : rest.filter (fun p => decide (p.1 = n) && q p) = [] := by
        rw [List.filter_eq_nil_iff]
        intro p hp
        have hne : p.1 ≠ n := by
          intro hpn
          exact hnd.1 (List.mem_map.2 ⟨p, hp, hpn.trans ha.symm⟩)
        simp [hne]
      rw [List.filter_cons, hrest]
      split <;> simp
    · rw [List.filter_cons_of_neg (by simp [ha])]
      exact ih hnd.2

theorem liveFor_le_one (rt : Runtime) (hnd : (rt.loops.map Prod.fst).Nodup)
    (v : VIPsHAConfigVIP) : (rt.liveFor v).length ≤ 1 := by
  unfold Runtime.liveFor
  cases hc : v.cancel with
  | none => simp
  | some n =>
    have := filter_ctx_length_le_one rt.loops hnd n (fun p => !(rt.ctxs.getD p.1 true))
    have heq : rt.loops.filter (fun p => decide (some n = some p.1) && !(rt.ctxs.getD p.1 true)) =
        rt.loops.filter (fun p => decide (p.1 = n) && !(rt.ctxs.getD p.1 true)) := by
      apply List.filter_congr
      intro p _
      have : (some n = some p.1) ↔ (p.1 = n) := by
        constructor
        · intro h
          exact (Option.some.inj h).symm
        · intro h
          rw [h]
      simp only [this]
    rw [heq]
    exact this

theorem owned_mid {σ : Type} (nh : NetHandle σ) (w : World σ) (hw : w.Owned)
    (state : haState) (pre post : List VIPsHAConfigVIP)
    (hl : w.engine.Config.VIPs = pre ++ post) :
    (updateVIPs nh w.engine state pre w.net w.rt).rt.loops.Perm
        (handlesOf ((updateVIPs nh w.engine state pre w.net w.rt).vips ++ post)) ∧
      ((updateVIPs nh w.engine state pre w.net w.rt).rt.loops.map Prod.fst).Nodup ∧
      ∀ p ∈ (updateVIPs nh w.engine state pre w.net w.rt).rt.loops,
        p.1 < (updateVIPs nh w.engine state pre w.net w.rt).rt.ctxs.length := by
  obtain ⟨h1, h2, h3⟩ := hw
  obtain ⟨A, a1, a2, a3, a4, a5⟩ := updateVIPs_loops nh w.engine state pre w.net w.rt
  rw [hl, handlesOf_append] at h1
  refine ⟨?_, ?_, ?_⟩
  · rw [a1, handlesOf_append]
    have s1 : (w.rt.loops ++ A).Perm (handlesOf pre ++ handlesOf post ++ A) :=
      List.Perm.append_right _ h1
    have s2 : (handlesOf pre ++ handlesOf post ++ A).Perm
        (handlesOf pre ++ A ++ handlesOf post) := by
      simp only [List.append_assoc]
      exact List.Perm.append_left _ List.perm_append_comm
    exact s1.trans (s2.trans (List.Perm.append_right _ a2.symm))
  · rw [a1, List.map_append, List.nodup_append]
    refine ⟨h2, a4, ?_⟩
    intro n hn1 hn2
    obtain ⟨p, hp, rfl⟩ := List.mem_map.1 hn1
    obtain ⟨q, hq, hpq⟩ := List.mem_map.1 hn2
    have := h3 p hp
    have := (a5 q hq).1
    omega
  · intro p hp
    rw [a1] at hp
    rw [a3]
    rcases List.mem_append.1 hp with hp | hp
    · have := h3 p hp
      omega
    · exact (a5 p hp).2

theorem owned_apply {σ : Type} (nh : NetHandle σ) (w : World σ) (hw : w.Owned)
    (state : haState) : (w.apply nh state).Owned := by
  have := owned_mid nh w hw state w.engine.Config.VIPs [] (by simp)
  simpa [World.Owned, World.apply, HAState] using this

theorem owned_run {σ : Type} (nh : NetHandle σ) (w : World σ) (hw : w.Owned)
    (states : List haState) : (w.run nh states).Owned := by
  induction states generalizing w with
  | nil => exact hw
  | cons s rest ih => exact ih (w.apply nh s) (owned_apply nh w hw s)

/-- C14 (at most one live sender per entry). From a world in which no entry holds a cancel
function and no sender was started, after every sequence of `HAState` calls, whatever the
roles and the results of the collaborator, and also between two entries of a further call:
the senders started are those of the contexts that the entries hold a cancel function of, one
per such entry, no two senders share a context, and each entry has at most one live sender. A
sender is started only for an entry that holds no cancel function, and the cancel function of
its new context is stored in the entry by that call. -/
theorem HAState_one_announcer {σ : Type} (nh : NetHandle σ) (w : World σ)
    (states : List haState) (hnone : ∀ v ∈ w.engine.Config.VIPs, v.cancel = none)
    (hloops : w.rt.loops = []) :
    (w.run nh states).Owned ∧
      (∀ v, ((w.run nh states).rt.liveFor v).length ≤ 1) ∧
      (∀ state pre post, (w.run nh states).engine.Config.VIPs = pre ++ post →
        (updateVIPs nh (w.run nh states).engine state pre (w.run nh states).net
            (w.run nh states).rt).rt.loops.Perm
          (handlesOf ((updateVIPs nh (w.run nh states).engine state pre (w.run nh states).net
            (w.run nh states).rt).vips ++ post)) ∧
        ∀ v, ((updateVIPs nh (w.run nh states).engine state pre (w.run nh states).net
            (w.run nh states).rt).rt.liveFor v).length ≤ 1) ∧
      (∀ e state v net rt c ip,
        VEvent.Start c ip ∈ (updateHAStateForVIP nh e state v net rt).events →
          v.cancel = none ∧ (updateHAStateForVIP nh e state v net rt).vip.cancel = some c ∧
          c = rt.ctxs.length ∧ ip = v.IP) := by
  have h0 : w.Owned := by
    refine ⟨?_, ?_, ?_⟩
    · rw [hloops]
      have : handlesOf w.engine.Config.VIPs = [] := by
        unfold handlesOf
        rw [List.filterMap_eq_nil_iff]
        intro v hv
        simp [hnone v hv]
      rw [this]
    · simp [hloops]
    · simp [hloops]
  have h1 := owned_run nh w h0 states
  refine ⟨h1, fun v => liveFor_le_one _ h1.2.1 v, ?_,
    fun e state v net rt c ip => updateHAStateForVIP_start nh e state v net rt c ip⟩
  intro state pre post hl
  obtain ⟨m1, m2, _⟩ := owned_mid nh (w.run nh states) h1 state pre post hl
  exact ⟨m1, fun v => liveFor_le_one _ m2 v⟩

theorem HAState_one_announcer_witness :
    (initialWorld.run NetModel.handle [.HAMaster, .HABackup, .HAMaster]).Owned :=
  (HAState_one_announcer NetModel.handle initialWorld [.HAMaster, .HABackup, .HAMaster]
    (by decide) rfl).1

/-! ## `sendGARPLoop` -/

theorem loopRun_append {σ : Type} (nh : NetHandle σ) (intf : Interface) (vip : IP)
    (s : LoopState σ) (a b : List LoopStep) :
    loopRun nh intf vip s (a ++ b) = loopRun nh intf vip (loopRun nh intf vip s a) b := by
  simp [loopRun, List.foldl_append]

theorem loopRun_cons {σ : Type} (nh : NetHandle σ) (intf : Interface) (vip : IP)
    (s : LoopState σ) (a : LoopStep) (b : List LoopStep) :
    loopRun nh intf vip s (a :: b) = loopRun nh intf vip (loopStep nh intf vip s a) b := rfl

theorem loopStep_returned {σ : Type} (nh : NetHandle σ) (intf : Interface) (vip : IP)
    (s : LoopState σ) (h : s.phase = .returned) (step : LoopStep) :
    (loopStep nh intf vip s step).phase = .returned ∧
      (loopStep nh intf vip s step).log = s.log := by
  cases step <;> simp [loopStep, h]

theorem loopRun_returned {σ : Type} (nh : NetHandle σ) (intf : Interface) (vip : IP)
    (s : LoopState σ) (h : s.phase = .returned) (steps : List LoopStep) :
    (loopRun nh intf vip s steps).phase = .returned ∧
      (loopRun nh intf vip s steps).log = s.log := by
  induction steps generalizing s with
  | nil => exact ⟨h, rfl⟩
  | cons a rest ih =>
    rw [loopRun_cons]
    obtain ⟨h1, h2⟩ := loopStep_returned nh intf vip s h a
    obtain ⟨h3, h4⟩ := ih _ h1
    exact ⟨h3, h4.trans h2⟩

theorem loopStep_exit_inv {σ : Type} (nh : NetHandle σ) (intf : Interface) (vip : IP)
    (s : LoopState σ)
    (h : s.phase = .returned → s.done = true ∧ s.log.getLast? = some .exited)
    (step : LoopStep) :
    (loopStep nh intf vip s step).phase = .returned →
      (loopStep nh intf vip s step).done = true ∧
        (loopStep nh intf vip s step).log.getLast? = some .exited := by
  cases step with
  | tickFires =>
    by_cases hp : s.phase = .returned
    · simpa [loopStep, hp] using h hp
    · simp [loopStep, hp]
  | cancel =>
    intro hp
    exact ⟨rfl, (h hp).2⟩
  | takeTick =>
    by_cases hc : s.phase = .selecting ∧ s.pending = true
    · simp [loopStep, hc]
    · simpa [loopStep, hc] using h
  | takeDone =>
    by_cases hc : s.phase = .selecting ∧ s.done = true
    · simp [loopStep, hc]
    · simpa [loopStep, hc] using h
  | sendReturns =>
    by_cases hc : s.phase = .sending
    · simp [loopStep, hc]
    · simpa [loopStep, hc] using h

theorem loopRun_exit_inv {σ : Type} (nh : NetHandle σ) (intf : Interface) (vip : IP)
    (s : LoopState σ)
    (h : s.phase = .returned → s.done = true ∧ s.log.getLast? = some .exited)
    (steps : List LoopStep) :
    (loopRun nh intf vip s steps).phase = .returned →
      (loopRun nh intf vip s steps).done = true ∧
        (loopRun nh intf vip s steps).log.getLast? = some .exited := by
  induction steps generalizing s with
  | nil => exact h
  | cons a rest ih =>
    rw [loopRun_cons]
    exact ih _ (loopStep_exit_inv nh intf vip s h a)

/-- C17 as stated fails. In this schedule the ticker fires and the loop calls `SendGARP`;
during that call the ticker fires again and the context is cancelled; the call returns, and
at the `select`, where both cases can proceed, the tick is taken: `SendGARP` is called once
more, after the cancellation, and this second call was not in flight when the cancellation
happened. -/
theorem cancellation_counterexample :
    (sendGARPLoop NetModel.handle ⟨2, "eth0"⟩ vipEntry.IP [vipEntry.IP]
        [.tickFires, .takeTick, .tickFires, .cancel, .sendReturns, .takeTick]).log =
        [.called false, .sent true, .called true] ∧
      ¬ ∀ ev ∈ (sendGARPLoop NetModel.handle ⟨2, "eth0"⟩ vipEntry.IP [vipEntry.IP]
        [.tickFires, .takeTick, .tickFires, .cancel, .sendReturns, .takeTick]).log,
        ev ≠ .called true := by
  decide

/-- C17, amended. Once the loop has taken the cancellation branch the function has returned:
whatever happens afterwards, it makes no further `SendGARP` call and its log does not change.
The cancellation branch is taken only after the context was cancelled, and it is the last
thing the loop does. -/
theorem sendGARPLoop_exit {σ : Type} (nh : NetHandle σ) (intf : Interface) (vip : IP)
    (net : σ) (steps more : List LoopStep)
    (h : (sendGARPLoop nh intf vip net steps).phase = .returned) :
    (sendGARPLoop nh intf vip net (steps ++ more)).log =
        (sendGARPLoop nh intf vip net steps).log ∧
      (sendGARPLoop nh intf vip net (steps ++ more)).phase = .returned ∧
      (sendGARPLoop nh intf vip net steps).done = true ∧
      (sendGARPLoop nh intf vip net steps).log.getLast? = some .exited := by
  unfold sendGARPLoop at h ⊢
  rw [loopRun_append]
  obtain ⟨h1, h2⟩ := loopRun_returned nh intf vip _ h more
  obtain ⟨h3, h4⟩ := loopRun_exit_inv nh intf vip (LoopState.init net)
    (by simp [LoopState.init]) steps h
  exact ⟨h2, h1, h3, h4⟩

theorem sendGARPLoop_exit_witness :
    (sendGARPLoop NetModel.handle ⟨2, "eth0"⟩ vipEntry.IP [vipEntry.IP]
        ([.tickFires, .takeTick, .cancel, .sendReturns, .takeDone] ++
          [.tickFires, .takeTick, .sendReturns])).log =
      [.called false, .sent true, .exited] :=
  (sendGARPLoop_exit NetModel.handle ⟨2, "eth0"⟩ vipEntry.IP [vipEntry.IP]
    [.tickFires, .takeTick, .cancel, .sendReturns, .takeDone]
    [.tickFires, .takeTick, .sendReturns] (by decide)).1.trans (by decide)

theorem loopStep_nocancel {σ : Type} (nh : NetHandle σ) (intf : Interface) (vip : IP)
    (s : LoopState σ) (step : LoopStep) (hstep : step ≠ .cancel) (hd : s.done = false)
    (hp : s.phase ≠ .returned)
    (hc : (s.log.filter LoopEvent.isCalled).length =
      (s.log.filter LoopEvent.isSent).length + (if s.phase = .sending then 1 else 0)) :
    (loopStep nh intf vip s step).done = false ∧
      (loopStep nh intf vip s step).phase ≠ .returned ∧
      ((loopStep nh intf vip s step).log.filter LoopEvent.isCalled).length =
        ((loopStep nh intf vip s step).log.filter LoopEvent.isSent).length +
          (if (loopStep nh intf vip s step).phase = .sending then 1 else 0) := by
  cases step with
  | tickFires =>
    have e : loopStep nh intf vip s .tickFires = { s with pending := true } := by
      simp [loopStep, hp]
    rw [e]
    exact ⟨hd, hp, hc⟩
  | cancel => exact absurd rfl hstep
  | takeTick =>
    by_cases h : s.phase = .selecting ∧ s.pending = true
    · have hns : ¬ s.phase = .sending := by rw [h.1]; decide
      simp only [hns, if_false, Nat.add_zero] at hc
      simp [loopStep, h, hd, List.filter_append, LoopEvent.isCalled, LoopEvent.isSent, hc]
    · have e : loopStep nh intf vip s .takeTick = s := by simp [loopStep, h]
      rw [e]
      exact ⟨hd, hp, hc⟩
  | takeDone =>
    have h : ¬ (s.phase = .selecting ∧ s.done = true) := by simp [hd]
    have e : loopStep nh intf vip s .takeDone = s := by simp [loopStep, h]
    rw [e]
    exact ⟨hd, hp, hc⟩
  | sendReturns =>
    by_cases h : s.phase = .sending
    · simp only [h, if_true] at hc
      simp [loopStep, h, hd, List.filter_append, LoopEvent.isCalled, LoopEvent.isSent, hc]
    · have e : loopStep nh intf vip s .sendReturns = s := by simp [loopStep, h]
      rw [e]
      exact ⟨hd, hp, hc⟩

theorem loopRun_nocancel {σ : Type} (nh : NetHandle σ) (intf : Interface) (vip : IP)
    (s : LoopState σ) (steps : List LoopStep) (hsteps : LoopStep.cancel ∉ steps)
    (hd : s.done = false) (hp : s.phase ≠ .returned)
    (hc : (s.log.filter LoopEvent.isCalled).length =
      (s.log.filter LoopEvent.isSent).length + (if s.phase = .sending then 1 else 0)) :
    (loopRun nh intf vip s steps).done = false ∧
      (loopRun nh intf vip s steps).phase ≠ .returned ∧
      ((loopRun nh intf vip s steps).log.filter LoopEvent.isCalled).length =
        ((loopRun nh intf vip s steps).log.filter LoopEvent.isSent).length +
          (if (loopRun nh intf vip s steps).phase = .sending then 1 else 0) := by
  induction steps generalizing s with
  | nil => exact ⟨hd, hp, hc⟩
  | cons a rest ih =>
    rw [loopRun_cons]
    have ha : a ≠ .cancel := fun h => hsteps (by simp [h])
    obtain ⟨h1, h2, h3⟩ := loopStep_nocancel nh intf vip s a ha hd hp hc
    exact ih _ (fun h => hsteps (List.mem_cons_of_mem _ h)) h1 h2 h3

theorem loopRun_tickRounds {σ : Type} (nh : NetHandle σ) (intf : Interface) (vip : IP)
    (s : LoopState σ) (n : Nat) (hp : s.phase = .selecting) :
    (loopRun nh intf vip s (tickRounds n)).phase = .selecting ∧
      ((loopRun nh intf vip s (tickRounds n)).log.filter LoopEvent.isCalled).length =
        (s.log.filter LoopEvent.isCalled).length + n ∧
      ((loopRun nh intf vip s (tickRounds n)).log.filter LoopEvent.isSent).length =
        (s.log.filter LoopEvent.isSent).length + n := by
  induction n generalizing s with
  | zero => exact ⟨hp, rfl, rfl⟩
  | succ n ih =>
    have hround : ∃ s2 : LoopState σ,
        loopRun nh intf vip s [.tickFires, .takeTick, .sendReturns] = s2 ∧
        s2.phase = .selecting ∧
        (s2.log.filter LoopEvent.isCalled).length = (s.log.filter LoopEvent.isCalled).length + 1 ∧
        (s2.log.filter LoopEvent.isSent).length = (s.log.filter LoopEvent.isSent).length + 1 := by
      refine ⟨_, rfl, ?_, ?_, ?_⟩ <;>
        simp [loopRun, loopStep, hp, List.filter_append, LoopEvent.isCalled, LoopEvent.isSent]
    obtain ⟨s2, hs2, h1, h2, h3⟩ := hround
    rw [tickRounds, loopRun_append, hs2]
    obtain ⟨i1, i2, i3⟩ := ih s2 h1
    exact ⟨i1, by rw [i2, h2]; omega, by rw [i3, h3]; omega⟩

theorem loopRun_calls {σ : Type} (nh : NetHandle σ) (intf : Interface) (vip : IP)
    (s : LoopState σ) (steps : List LoopStep) :
    ((loopRun nh intf vip s steps).log.filter LoopEvent.isCalled).length =
      (s.log.filter LoopEvent.isCalled).length + ticksTaken nh intf vip s steps := by
  induction steps generalizing s with
  | nil => rfl
  | cons a rest ih =>
    rw [loopRun_cons, ih, ticksTaken]
    cases a with
    | tickFires =>
      by_cases hp : s.phase = .returned <;> simp [loopStep, hp]
    | cancel => simp [loopStep]
    | takeTick =>
      by_cases h : s.phase = .selecting ∧ s.pending = true
      · simp [loopStep, h, List.filter_append, LoopEvent.isCalled]
        omega
      · have e : loopStep nh intf vip s .takeTick = s := by simp [loopStep, h]
        rw [e]
        simp [h]
    | takeDone =>
      by_cases h : s.phase = .selecting ∧ s.done = true
      · simp [loopStep, h, List.filter_append, LoopEvent.isCalled]
      · have e : loopStep nh intf vip s .takeDone = s := by simp [loopStep, h]
        rw [e]
        simp
    | sendReturns =>
      by_cases h : s.phase = .sending
      · simp [loopStep, h, List.filter_append, LoopEvent.isCalled]
      · have e : loopStep nh intf vip s .sendReturns = s := by simp [loopStep, h]
        rw [e]
        simp

theorem loopStep_alive {σ : Type} (nh : NetHandle σ) (intf : Interface) (vip : IP)
    (s : LoopState σ) (step : LoopStep) (hstep : step ≠ .cancel) (hd : s.done = false)
    (hp : s.phase ≠ .returned) :
    (loopStep nh intf vip s step).done = false ∧
      (loopStep nh intf vip s step).phase ≠ .returned := by
  cases step with
  | tickFires =>
    have e : loopStep nh intf vip s .tickFires = { s with pending := true } := by
      simp [loopStep, hp]
    rw [e]
    exact ⟨hd, hp⟩
  | cancel => exact absurd rfl hstep
  | takeTick =>
    by_cases h : s.phase = .selecting ∧ s.pending = true
    · simp [loopStep, h, hd]
    · have e : loopStep nh intf vip s .takeTick = s := by simp [loopStep, h]
      rw [e]
      exact ⟨hd, hp⟩
  | takeDone =>
    have h : ¬ (s.phase = .selecting ∧ s.done = true) := by simp [hd]
    have e : loopStep nh intf vip s .takeDone = s := by simp [loopStep, h]
    rw [e]
    exact ⟨hd, hp⟩
  | sendReturns =>
    by_cases h : s.phase = .sending
    · simp [loopStep, h, hd]
    · have e : loopStep nh intf vip s .sendReturns = s := by simp [loopStep, h]
      rw [e]
      exact ⟨hd, hp⟩

theorem loopRun_ticks {σ : Type} (nh : NetHandle σ) (intf : Interface) (vip : IP)
    (s : LoopState σ) (steps : List LoopStep) (hsteps : LoopStep.cancel ∉ steps)
    (hd : s.done = false) (hp : s.phase ≠ .returned) :
    ticksFired steps + (if s.pending = true then 1 else 0) =
      ticksTaken nh intf vip s steps + ticksDropped nh intf vip s steps +
        (if (loopRun nh intf vip s steps).pending = true then 1 else 0) := by
  induction steps generalizing s with
  | nil => simp [ticksFired, ticksTaken, ticksDropped, loopRun]
  | cons a rest ih =>
    have ha : a ≠ .cancel := fun h => hsteps (by simp [h])
    obtain ⟨h1, h2⟩ := loopStep_alive nh intf vip s a ha hd hp
    have key := ih (loopStep nh intf vip s a) (fun h => hsteps (List.mem_cons_of_mem _ h)) h1 h2
    rw [loopRun_cons, ticksTaken, ticksDropped]
    unfold ticksFired at key ⊢
    cases a with
    | cancel => exact absurd rfl ha
    | tickFires =>
      have e : loopStep nh intf vip s .tickFires = { s with pending := true } := by
        simp [loopStep, hp]
      rw [e] at key ⊢
      simp only [List.count_cons_self, if_true, reduceCtorEq, false_and, if_false,
        true_and, hp, ne_eq, not_false_eq_true] at key ⊢
      omega
    | takeTick =>
      by_cases h : s.phase = .selecting ∧ s.pending = true
      · have e : loopStep nh intf vip s .takeTick =
            { s with phase := .sending, pending := false,
                     log := s.log ++ [.called s.done] } := by
          simp [loopStep, h]
        rw [e] at key ⊢
        simp [h, List.count_cons] at key ⊢
        omega
      · have e : loopStep nh intf vip s .takeTick = s := by simp [loopStep, h]
        rw [e] at key ⊢
        simp [h, List.count_cons] at key ⊢
        omega
    | takeDone =>
      have h : ¬ (s.phase = .selecting ∧ s.done = true) := by simp [hd]
      have e : loopStep nh intf vip s .takeDone = s := by simp [loopStep, h]
      rw [e] at key ⊢
      simp [List.count_cons] at key ⊢
      omega
    | sendReturns =>
      by_cases h : s.phase = .sending
      · have e : (loopStep nh intf vip s .sendReturns).pending = s.pending := by
          simp [loopStep, h]
        rw [e] at key
        simp [List.count_cons] at key ⊢
        omega
      · have e : loopStep nh intf vip s .sendReturns = s := by simp [loopStep, h]
        rw [e] at key ⊢
        simp [List.count_cons] at key ⊢
        omega

/-- C18 as stated fails. The schedule `slowSendSchedule` has no cancellation; the ticker
fires three times and `SendGARP` is called twice: the third tick fires while the second still
waits in `ticker.C` and is dropped. At the end both calls have returned, the loop is at its
`select` and no tick waits, so no call is still to come. -/
theorem tick_count_counterexample :
    LoopStep.cancel ∉ slowSendSchedule ∧
      ticksFired slowSendSchedule = 3 ∧
      (sendGARPLoop NetModel.handle ⟨2, "eth0"⟩ vipEntry.IP [vipEntry.IP] slowSendSchedule).log =
        [.called false, .sent true, .called false, .sent true] ∧
      (sendGARPLoop NetModel.handle ⟨2, "eth0"⟩ vipEntry.IP [vipEntry.IP]
        slowSendSchedule).phase = .selecting ∧
      (sendGARPLoop NetModel.handle ⟨2, "eth0"⟩ vipEntry.IP [vipEntry.IP]
        slowSendSchedule).pending = false ∧
      ¬ ((sendGARPLoop NetModel.handle ⟨2, "eth0"⟩ vipEntry.IP [vipEntry.IP]
        slowSendSchedule).log.filter LoopEvent.isCalled).length = ticksFired slowSendSchedule := by
  decide

/-- C18, amended (a failed announcement is not fatal). In a schedule without cancellation
the loop never returns, and every `SendGARP` call it made has returned or is the one in
flight. Each tick taken from the ticker makes one `SendGARP` call, and when the call returns,
with or without an error, the loop is back at its `select`. So when `n` ticks fire, each
served before the next, the loop makes `n` calls, whatever they return, and is at its `select`
again. For every schedule without cancellation the number of `SendGARP` calls is the number
of ticks the loop received, and the ticks that fired are those received, those dropped
because an earlier tick still waited, and the one that still waits at the end; so the calls
are as many as the ticks that fired when none was dropped and none waits. -/
theorem sendGARPLoop_continues {σ : Type} (nh : NetHandle σ) (intf : Interface) (vip : IP)
    (net : σ) :
    (∀ steps, LoopStep.cancel ∉ steps →
        (sendGARPLoop nh intf vip net steps).phase ≠ .returned ∧
        ((sendGARPLoop nh intf vip net steps).log.filter LoopEvent.isCalled).length =
          ((sendGARPLoop nh intf vip net steps).log.filter LoopEvent.isSent).length +
            (if (sendGARPLoop nh intf vip net steps).phase = .sending then 1 else 0)) ∧
      (∀ s : LoopState σ, s.phase = .selecting → s.pending = true →
        (loopStep nh intf vip s .takeTick).phase = .sending ∧
        (loopStep nh intf vip s .takeTick).log = s.log ++ [.called s.done]) ∧
      (∀ s : LoopState σ, s.phase = .sending →
        (loopStep nh intf vip s .sendReturns).phase = .selecting ∧
        (loopStep nh intf vip s .sendReturns).log =
          s.log ++ [.sent (nh.SendGARP intf vip s.net).1.isNone]) ∧
      (∀ n,
        (sendGARPLoop nh intf vip net (tickRounds n)).phase = .selecting ∧
        ((sendGARPLoop nh intf vip net (tickRounds n)).log.filter LoopEvent.isCalled).length =
          n ∧
        ((sendGARPLoop nh intf vip net (tickRounds n)).log.filter LoopEvent.isSent).length =
          n) ∧
      (∀ steps, LoopStep.cancel ∉ steps →
        ((sendGARPLoop nh intf vip net steps).log.filter LoopEvent.isCalled).length =
          ticksTaken nh intf vip (LoopState.init net) steps ∧
        ticksFired steps =
          ((sendGARPLoop nh intf vip net steps).log.filter LoopEvent.isCalled).length +
            ticksDropped nh intf vip (LoopState.init net) steps +
            (if (sendGARPLoop nh intf vip net steps).pending = true then 1 else 0)) ∧
      (∀ steps, LoopStep.cancel ∉ steps →
        ticksDropped nh intf vip (LoopState.init net) steps = 0 →
        (sendGARPLoop nh intf vip net steps).pending = false →
        ((sendGARPLoop nh intf vip net steps).log.filter LoopEvent.isCalled).length =
          ticksFired steps) := by
  have hcount : ∀ steps, LoopStep.cancel ∉ steps →
      ((sendGARPLoop nh intf vip net steps).log.filter LoopEvent.isCalled).length =
        ticksTaken nh intf vip (LoopState.init net) steps ∧
      ticksFired steps =
        ((sendGARPLoop nh intf vip net steps).log.filter LoopEvent.isCalled).length +
          ticksDropped nh intf vip (LoopState.init net) steps +
          (if (sendGARPLoop nh intf vip net steps).pending = true then 1 else 0) := by
    intro steps hsteps
    have h1 := loopRun_calls nh intf vip (LoopState.init net) steps
    have h2 := loopRun_ticks nh intf vip (LoopState.init net) steps hsteps rfl
      (by simp [LoopState.init])
    have h3 : ((sendGARPLoop nh intf vip net steps).log.filter LoopEvent.isCalled).length =
        ticksTaken nh intf vip (LoopState.init net) steps := by
      unfold sendGARPLoop
      rw [h1]
      simp [LoopState.init]
    refine ⟨h3, ?_⟩
    rw [h3]
    unfold sendGARPLoop
    simp only [LoopState.init, Bool.false_eq_true, if_false, Nat.add_zero] at h2 ⊢
    exact h2
  refine ⟨?_, ?_, ?_, ?_, hcount, ?_⟩
  · intro steps hsteps
    obtain ⟨_, h2, h3⟩ := loopRun_nocancel nh intf vip (LoopState.init net) steps hsteps rfl
      (by simp [LoopState.init]) (by simp [LoopState.init])
    exact ⟨h2, h3⟩
  · intro s h1 h2
    simp [loopStep, h1, h2]
  · intro s h1
    simp [loopStep, h1]
  · intro n
    obtain ⟨h1, h2, h3⟩ := loopRun_tickRounds nh intf vip (LoopState.init net) n rfl
    refine ⟨h1, ?_, ?_⟩
    · simpa [LoopState.init] using h2
    · simpa [LoopState.init] using h3
  · intro steps hsteps hdrop hpend
    obtain ⟨_, h2⟩ := hcount steps hsteps
    rw [hdrop, hpend] at h2
    simpa using h2.symm

theorem sendGARPLoop_continues_witness :
    (sendGARPLoop garpFails ⟨2, "eth0"⟩ vipEntry.IP [vipEntry.IP] (tickRounds 3)).log =
        [.called false, .sent false, .called false, .sent false, .called false,
          .sent false] ∧
      ((sendGARPLoop garpFails ⟨2, "eth0"⟩ vipEntry.IP [vipEntry.IP]
        (tickRounds 3)).log.filter LoopEvent.isCalled).length = 3 ∧
      ticksFired slowSendSchedule =
        ((sendGARPLoop garpFails ⟨2, "eth0"⟩ vipEntry.IP [vipEntry.IP]
          slowSendSchedule).log.filter LoopEvent.isCalled).length +
          ticksDropped garpFails ⟨2, "eth0"⟩ vipEntry.IP (LoopState.init [vipEntry.IP])
            slowSendSchedule +
          (if (sendGARPLoop garpFails ⟨2, "eth0"⟩ vipEntry.IP [vipEntry.IP]
            slowSendSchedule).pending = true then 1 else 0) ∧
      ticksDropped garpFails ⟨2, "eth0"⟩ vipEntry.IP (LoopState.init [vipEntry.IP])
        slowSendSchedule = 1 :=
  ⟨by decide,
    ((sendGARPLoop_continues garpFails ⟨2, "eth0"⟩ vipEntry.IP [vipEntry.IP]).2.2.2.1 3).2.1,
    ((sendGARPLoop_continues garpFails ⟨2, "eth0"⟩ vipEntry.IP [vipEntry.IP]).2.2.2.2.1
      slowSendSchedule (by decide)).2,
    by decide⟩

/-! ## The calls of a run on the model of the kernel table -/

theorem perform_events_none {σ : Type} (h : IPVSHandle σ) (c : Call) (msg : String)
    (k : Resp → σ → Outcome σ) (st : σ) (hn : (perform h c msg k st).err = none) :
    (perform h c msg k st).events =
      ⟨c, (h.exec c st).1⟩ :: (k (h.exec c st).1 (h.exec c st).2).events := by
  obtain ⟨hok, _, _⟩ := perform_none h c msg k st hn
  rw [perform_ok h c msg k st (Prod.mk.eta).symm hok]
  rfl

theorem andThen_events_none {σ : Type} (r : Outcome σ) (k : σ → Outcome σ)
    (hn : r.err = none) : (r.andThen k).events = r.events ++ (k r.st).events := by
  rw [andThen_ok r k hn]

theorem handleOf_addr (parseIP : String → IP) (ipvsServices : List Service) (c : ConfigLVS) :
    (handleOf parseIP ipvsServices c).Address.Equal (parseIP c.Address) = true := by
  unfold handleOf
  cases hf : findService parseIP ipvsServices c with
  | none => exact IP.Equal_refl _
  | some s => exact (findService_some hf).2

theorem sameService_trans {a b c : Service} (h1 : sameService a b = true)
    (h2 : sameService b c = true) : sameService a c = true := by
  simp only [sameService, Bool.and_eq_true, decide_eq_true_eq] at h1 h2 ⊢
  exact ⟨⟨IP.Equal_trans h1.1.1 h2.1.1, h1.1.2.trans h2.1.2⟩, h1.2.trans h2.2⟩

theorem sameService_congr {s s2 : Service} (h : sameService s s2 = true) (x : Service) :
    sameService x s = sameService x s2 := by
  cases h1 : sameService x s2 with
  | true => exact sameService_trans h1 (sameService_symm h)
  | false =>
    cases h2 : sameService x s with
    | false => rfl
    | true =>
      rw [sameService_trans h2 h] at h1
      cases h1

theorem lookup_congr {s s2 : Service} (h : sameService s s2 = true) (t : Table) :
    t.lookup s = t.lookup s2 := by
  unfold Table.lookup
  congr 1
  funext e
  exact sameService_congr h e.svc

theorem lookup_some {t : Table} {s : Service} {e : Entry} (h : t.lookup s = some e) :
    e ∈ t ∧ sameService e.svc s = true := by
  unfold Table.lookup at h
  exact ⟨List.mem_of_find?_eq_some h, by simpa using List.find?_some h⟩

theorem lookup_modify (t : Table) (s x : Service) (f : Entry → Entry)
    (hf : ∀ e, sameService e.svc s = true → sameService (f e).svc e.svc = true) :
    (t.modify s f).lookup x =
      (t.lookup x).map (fun e => if sameService e.svc s then f e else e) := by
  unfold Table.modify Table.lookup
  rw [List.find?_map]
  congr 2
  funext e
  simp only [Function.comp]
  by_cases hs : sameService e.svc s = true
  · simp only [hs, if_true]
    cases h1 : sameService e.svc x with
    | true => exact sameService_trans (hf e hs) h1
    | false =>
      cases h2 : sameService (f e).svc x with
      | false => rfl
      | true =>
        rw [sameService_trans (sameService_symm (hf e hs)) h2] at h1
        cases h1
  · simp [hs]

theorem lookup_filter {t : Table} {s x : Service} {e : Entry}
    (h : Table.lookup (t.filter (fun a => !sameService a.svc s)) x = some e) :
    t.lookup x = some e ∧ sameService x s = false := by
  unfold Table.lookup at h ⊢
  rw [List.find?_filter] at h
  have he := List.find?_some h
  simp only [Bool.and_eq_true, Bool.not_eq_true', decide_eq_true_eq] at he
  have hxs : sameService x s = false := by
    cases hx : sameService x s with
    | false => rfl
    | true =>
      rw [sameService_trans he.2 hx] at he
      exact absurd he.1 (by simp)
  refine ⟨?_, hxs⟩
  rw [← h]
  congr 1
  funext a
  cases ha : sameService a.svc x with
  | false => simp
  | true =>
    cases has : sameService a.svc s with
    | false => simp
    | true =>
      rw [sameService_trans (sameService_symm ha) has] at hxs
      cases hxs

theorem kernel_listDestinations (s : Service) (t : Table)
    (hok : (Kernel.handle.exec (.ListDestinations s) t).1.ok = true) :
    ∃ e, t.lookup s = some e ∧
      Kernel.handle.exec (.ListDestinations s) t = (.dests e.dests, t) := by
  simp only [IPVSHandle.exec, Kernel.handle, Kernel.ListDestinations] at hok ⊢
  cases hl : t.lookup s with
  | none => simp [hl, respOfList, Resp.ok] at hok
  | some e => exact ⟨e, rfl, by simp [respOfList]⟩

theorem mem_modify {t : Table} {s : Service} {f : Entry → Entry} {x : Entry}
    (hx : x ∈ t.modify s f) :
    x ∈ t ∨ ∃ e ∈ t, sameService e.svc s = true ∧ x = f e := by
  unfold Table.modify at hx
  obtain ⟨e, he, rfl⟩ := List.mem_map.1 hx
  by_cases hs : sameService e.svc s = true
  · exact Or.inr ⟨e, he, hs, by simp [hs]⟩
  · exact Or.inl (by simpa [hs] using he)

/-- The loop of lines 80-96 on the model, for a service that the table holds and whose
destinations are among those listed: when it returns `nil` the service has no destination
left, every service that a record names keeps its record and has no destination it did not
have, and no service was added. -/
theorem kernel_delDestinations_heads (parseIP : String → IP) (sv : Service)
    (l : List Destination) (t : Table) (e0 : Entry) (hl : t.lookup sv = some e0)
    (hcur : ∀ x ∈ e0.dests, x ∈ l)
    (hn : (delDestinations Kernel.handle parseIP sv [] l t).err = none) :
    (∃ e1, (delDestinations Kernel.handle parseIP sv [] l t).st.lookup sv = some e1 ∧
        e1.dests = []) ∧
      (∀ x e, (delDestinations Kernel.handle parseIP sv [] l t).st.lookup x = some e →
        ∃ e1, t.lookup x = some e1 ∧ e.svc = e1.svc ∧ ∀ d ∈ e.dests, d ∈ e1.dests) ∧
      ∀ e ∈ (delDestinations Kernel.handle parseIP sv [] l t).st, ∃ e1 ∈ t, e.svc = e1.svc := by
  induction l generalizing t e0 with
  | nil =>
    have : e0.dests = [] := List.eq_nil_iff_forall_not_mem.2 (fun x hx => by simpa using hcur x hx)
    exact ⟨⟨e0, hl, this⟩, fun x e he => ⟨e, he, rfl, fun d hd => hd⟩, fun e he => ⟨e, he, rfl⟩⟩
  | cons d rest ih =>
    unfold delDestinations at hn ⊢
    simp only [List.any_nil, Bool.false_eq_true, if_false] at hn ⊢
    obtain ⟨hok, hk, hst⟩ := perform_none _ _ _ _ _ hn
    rw [hst]
    have hexec : Kernel.handle.exec (.DelDestination sv d) t =
        (if e0.dests.any (fun x => sameDestination x d) then
          (Resp.done, t.modify sv
            (fun e => ⟨e.svc, e.dests.filter (fun x => !sameDestination x d)⟩))
        else (Resp.err "no such destination", t)) := by
      simp only [IPVSHandle.exec, Kernel.handle, Kernel.DelDestination, hl]
      split <;> rfl
    rw [hexec] at hok hk ⊢
    by_cases hany : e0.dests.any (fun x => sameDestination x d) = true
    · simp only [hany, if_true] at hk ⊢
      have hlm := fun x => lookup_modify t sv x
        (fun e => ⟨e.svc, e.dests.filter (fun x => !sameDestination x d)⟩)
        (fun e _ => sameService_refl e.svc)
      have hl1 : (t.modify sv
          (fun e => ⟨e.svc, e.dests.filter (fun x => !sameDestination x d)⟩)).lookup sv =
          some ⟨e0.svc, e0.dests.filter (fun x => !sameDestination x d)⟩ := by
        rw [hlm sv, hl]
        simp [(lookup_some hl).2]
      obtain ⟨i1, i2, i3⟩ := ih _ _ hl1 (by
        intro x hx
        obtain ⟨hx1, hx2⟩ := List.mem_filter.1 hx
        have := hcur x hx1
        simp only [List.mem_cons] at this
        rcases this with rfl | h3
        · simp [sameDestination_refl] at hx2
        · exact h3) hk
      refine ⟨i1, ?_, ?_⟩
      · intro x e he
        obtain ⟨e1, h1, h2, h3⟩ := i2 x e he
        rw [hlm x] at h1
        cases hx : t.lookup x with
        | none =>
          rw [hx] at h1
          cases h1
        | some e2 =>
          rw [hx] at h1
          simp only [Option.map_some', Option.some.injEq] at h1
          refine ⟨e2, rfl, ?_, ?_⟩
          · rw [h2, ← h1]
            split <;> rfl
          · intro y hy
            have hy1 := h3 y hy
            rw [← h1] at hy1
            split at hy1
            · exact (List.mem_filter.1 hy1).1
            · exact hy1
      · intro e he
        obtain ⟨e1, h1, h2⟩ := i3 e he
        rcases mem_modify h1 with h1 | ⟨e2, h3, _, rfl⟩
        · exact ⟨e1, h1, h2⟩
        · exact ⟨e2, h3, h2⟩
    · simp [hany, Resp.ok] at hok

/-- The first loop on the model: when it returns `nil`, every listed service that the
resulting table still holds has no destination, and no service was added. -/
theorem kernel_pruneServices_heads (parseIP : String → IP) (config : Config)
    (todo : List Service) (t : Table) (D : Service → Prop)
    (hD : ∀ s, D s → ∀ e, t.lookup s = some e → e.dests = [])
    (hn : (pruneServices Kernel.handle parseIP config todo t).err = none) :
    (∀ s, (D s ∨ s ∈ todo) →
        ∀ e, (pruneServices Kernel.handle parseIP config todo t).st.lookup s = some e →
          e.dests = []) ∧
      ∀ e ∈ (pruneServices Kernel.handle parseIP config todo t).st, ∃ e1 ∈ t, e.svc = e1.svc := by
  induction todo generalizing t D with
  | nil =>
    refine ⟨?_, fun e he => ⟨e, he, rfl⟩⟩
    intro s hs e he
    rcases hs with hs | hs
    · exact hD s hs e he
    · simp at hs
  | cons s rest ih =>
    unfold pruneServices at hn ⊢
    by_cases hin : inConfig parseIP config s = true
    · simp only [hin, if_true] at hn ⊢
      obtain ⟨hok, hk, hst⟩ := perform_none _ _ _ _ _ hn
      rw [hst]
      obtain ⟨e0, hl, hexec⟩ := kernel_listDestinations s t hok
      rw [hexec] at hk ⊢
      simp only [Resp.getDests, ConfigLVS.zero] at hk ⊢
      obtain ⟨hd1, hk2, hst2⟩ := andThen_none _ _ hk
      rw [hst2]
      obtain ⟨⟨e1, j1, j2⟩, j3, j4⟩ := kernel_delDestinations_heads parseIP s e0.dests t e0 hl
        (fun x hx => hx) hd1
      obtain ⟨k1, k2⟩ := ih _ (fun x => D x ∨ x = s) (by
        intro x hx e he
        rcases hx with hx | rfl
        · obtain ⟨e2, h1, _, h3⟩ := j3 x e he
          have := hD x hx e2 h1
          rw [this] at h3
          exact List.eq_nil_iff_forall_not_mem.2 (fun y hy => by simpa using h3 y hy)
        · rw [j1] at he
          cases he
          exact j2) hk2
      refine ⟨?_, ?_⟩
      · intro x hx
        refine k1 x ?_
        simp only [List.mem_cons] at hx
        tauto
      · intro e he
        obtain ⟨e2, h1, h2⟩ := k2 e he
        obtain ⟨e3, h3, h4⟩ := j4 e2 h1
        exact ⟨e3, h3, h2.trans h4⟩
    · simp only [hin, if_false, Bool.false_eq_true] at hn ⊢
      obtain ⟨hok, hk, hst⟩ := perform_none _ _ _ _ _ hn
      rw [hst]
      have hexec : (Kernel.handle.exec (.DelService s) t).2 =
          t.filter (fun a => !sameService a.svc s) ∨
          (Kernel.handle.exec (.DelService s) t).1.ok = false := by
        simp only [IPVSHandle.exec, Kernel.handle, Kernel.DelService]
        cases t.lookup s with
        | none => exact Or.inr rfl
        | some e => exact Or.inl rfl
      rcases hexec with hexec | hexec
      · rw [hexec] at hk ⊢
        obtain ⟨k1, k2⟩ := ih _ (fun x => D x ∨ x = s) (by
          intro x hx e he
          obtain ⟨h1, h2⟩ := lookup_filter he
          rcases hx with hx | rfl
          · exact hD x hx e h1
          · rw [sameService_refl] at h2
            cases h2) hk
        refine ⟨?_, ?_⟩
        · intro x hx
          refine k1 x ?_
          simp only [List.mem_cons] at hx
          tauto
        · intro e he
          obtain ⟨e2, h1, h2⟩ := k2 e he
          exact ⟨e2, (List.mem_filter.1 h1).1, h2⟩
      · rw [hexec] at hok
        cases hok

theorem kernel_serviceCall_keeps (parseIP : String → IP) (listing : List Service)
    (c : ConfigLVS) (t : Table) (x : Service) (e2 : Entry)
    (hx : (Kernel.handle.exec (serviceCall parseIP listing c) t).2.lookup x = some e2)
    (hne : e2.dests ≠ []) :
    ∃ e, t.lookup x = some e ∧ e.dests = e2.dests ∧
      e.svc.Address.Equal e2.svc.Address = true := by
  unfold serviceCall at hx
  cases hf : findService parseIP listing c with
  | none =>
    simp only [hf, IPVSHandle.exec, Kernel.handle, Kernel.NewService] at hx
    cases hl : t.lookup (serviceOf parseIP c) with
    | some e0 =>
      simp only [hl] at hx
      exact ⟨e2, hx, rfl, IP.Equal_refl _⟩
    | none =>
      simp only [hl] at hx
      unfold Table.lookup at hx
      rw [List.find?_append] at hx
      cases hlx : t.find? (fun e => sameService e.svc x) with
      | some e =>
        rw [hlx] at hx
        simp only [Option.or_some, Option.some.injEq] at hx
        subst hx
        exact ⟨e, hlx, rfl, IP.Equal_refl _⟩
      | none =>
        rw [hlx, Option.none_or] at hx
        have := List.mem_of_find?_eq_some hx
        simp only [List.mem_singleton] at this
        subst this
        exact absurd rfl hne
  | some s =>
    simp only [hf, IPVSHandle.exec, Kernel.handle, Kernel.UpdateService] at hx
    cases hl : t.lookup (serviceOf parseIP c) with
    | none =>
      simp only [hl] at hx
      exact ⟨e2, hx, rfl, IP.Equal_refl _⟩
    | some e0 =>
      simp only [hl] at hx
      rw [lookup_modify t (serviceOf parseIP c) x (fun e => ⟨serviceOf parseIP c, e.dests⟩)
        (fun e he => sameService_symm he)] at hx
      cases hlx : t.lookup x with
      | none =>
        rw [hlx] at hx
        cases hx
      | some e =>
        rw [hlx] at hx
        simp only [Option.map_some', Option.some.injEq] at hx
        subst hx
        by_cases hs : sameService e.svc (serviceOf parseIP c) = true
        · simp only [hs, if_true]
          exact ⟨e, rfl, rfl, sameService_addr hs⟩
        · simp only [hs, if_false, Bool.false_eq_true]
          exact ⟨e, rfl, rfl, IP.Equal_refl _⟩

theorem kernel_destinationCall_touch (parseIP : String → IP) (s : Service)
    (ds : List Destination) (c : ConfigLVS) (sv : ConfigServer) (t : Table) (x : Service)
    (e2 : Entry)
    (hx : (Kernel.handle.exec (destinationCall parseIP s ds c sv) t).2.lookup x = some e2) :
    t.lookup x = some e2 ∨ e2.svc.Address.Equal s.Address = true := by
  have key : ∀ f : Entry → Entry, (∀ e, (f e).svc = e.svc) →
      (t.modify s f).lookup x = some e2 →
      t.lookup x = some e2 ∨ e2.svc.Address.Equal s.Address = true := by
    intro f hf h
    rw [lookup_modify t s x f (fun e _ => by rw [hf e]; exact sameService_refl _)] at h
    cases hlx : t.lookup x with
    | none =>
      rw [hlx] at h
      cases h
    | some e =>
      rw [hlx] at h
      simp only [Option.map_some', Option.some.injEq] at h
      subst h
      by_cases hs : sameService e.svc s = true
      · right
        simp only [hs, if_true, hf e]
        exact sameService_addr hs
      · left
        simp [hs]
  unfold destinationCall at hx
  split at hx
  · simp only [IPVSHandle.exec, Kernel.handle, Kernel.UpdateDestination] at hx
    cases hl : t.lookup s with
    | none =>
      simp only [hl] at hx
      exact Or.inl hx
    | some e0 =>
      simp only [hl] at hx
      split at hx
      · exact key (fun e => ⟨e.svc, e.dests.map (fun x =>
          if sameDestination x (destinationOf parseIP c sv) then destinationOf parseIP c sv
          else x)⟩) (fun _ => rfl) hx
      · exact Or.inl hx
  · simp only [IPVSHandle.exec, Kernel.handle, Kernel.NewDestination] at hx
    cases hl : t.lookup s with
    | none =>
      simp only [hl] at hx
      exact Or.inl hx
    | some e0 =>
      simp only [hl] at hx
      split at hx
      · exact Or.inl hx
      · exact key (fun e => ⟨e.svc, e.dests ++ [destinationOf parseIP c sv]⟩)
          (fun _ => rfl) hx

theorem kernel_syncDestinations_touch (parseIP : String → IP) (s : Service)
    (ds : List Destination) (c : ConfigLVS) (servers : List ConfigServer) (t : Table)
    (hn : (syncDestinations Kernel.handle parseIP s ds c servers t).err = none)
    (x : Service) (e2 : Entry)
    (hx : (syncDestinations Kernel.handle parseIP s ds c servers t).st.lookup x = some e2) :
    t.lookup x = some e2 ∨ e2.svc.Address.Equal s.Address = true := by
  induction servers generalizing t with
  | nil => exact Or.inl hx
  | cons sv rest ih =>
    unfold syncDestinations at hn hx
    obtain ⟨_, hk, hst⟩ := perform_none _ _ _ _ _ hn
    rw [hst] at hx
    rcases ih _ hk hx with h1 | h1
    · exact kernel_destinationCall_touch parseIP s ds c sv t x e2 h1
    · exact Or.inr h1

theorem syncTrace_empty_calls (parseIP : String → IP) (listing : List Service)
    (l : List ConfigLVS) :
    (syncTrace parseIP listing l (List.replicate l.length [])).map Event.call =
      l.flatMap (createCalls parseIP listing) := by
  induction l with
  | nil => rfl
  | cons c rest ih =>
    simp only [List.length_cons, List.replicate_succ, syncTrace, List.map_append, ih,
      List.flatMap_cons]
    congr 1
    simp [syncBlock, createCalls, destinationCall]

/-- The second loop on the model, from a table in which only services with the address of
a configured service already handled have destinations: when it returns `nil`, the listing of
line 146 is empty for every configured service, so its events are those of the expected
trace with empty listings. -/
theorem kernel_syncServices_fresh (parseIP : String → IP) (listing : List Service)
    (done todo : List ConfigLVS) (t : Table)
    (hcfg : (done ++ todo).Pairwise
      (fun a b => (parseIP a.Address).Equal (parseIP b.Address) = false))
    (hfresh : Table.Fresh parseIP done t)
    (hn : (syncServices Kernel.handle parseIP listing todo t).err = none) :
    (syncServices Kernel.handle parseIP listing todo t).events =
      syncTrace parseIP listing todo (List.replicate todo.length []) := by
  induction todo generalizing done t with
  | nil => rfl
  | cons c todo ih =>
    unfold syncServices at hn ⊢
    obtain ⟨hok1, hk1, _⟩ := perform_none _ _ _ _ _ hn
    rw [perform_events_none _ _ _ _ _ hn]
    obtain ⟨hok2, hk2, _⟩ := perform_none _ _ _ _ _ hk1
    rw [perform_events_none _ _ _ _ _ hk1]
    have hr1 := exec_mutation_ok Kernel.handle _ t (serviceCall_isMutation parseIP listing c) hok1
    have hcfg2 := List.pairwise_append.1 hcfg
    have hfresh1 : Table.Fresh parseIP done
        (Kernel.handle.exec (serviceCall parseIP listing c) t).2 := by
      intro x e2 hx hne
      obtain ⟨e, he, hd, ha⟩ := kernel_serviceCall_keeps parseIP listing c t x e2 hx hne
      obtain ⟨c0, hc0, h0⟩ := hfresh x e he (by rw [hd]; exact hne)
      exact ⟨c0, hc0, IP.Equal_trans (IP.Equal_symm ha) h0⟩
    obtain ⟨e, he, hex2⟩ := kernel_listDestinations _ _ hok2
    have hempty : e.dests = [] := by
      by_contra hne
      obtain ⟨c0, hc0, h0⟩ := hfresh1 _ e he hne
      have h1 := hcfg2.2.2 c0 hc0 c (List.mem_cons_self _ _)
      have h2 : (parseIP c0.Address).Equal (parseIP c.Address) = true :=
        IP.Equal_trans (IP.Equal_symm h0)
          (IP.Equal_trans (sameService_addr (lookup_some he).2)
            (handleOf_addr parseIP listing c))
      rw [h2] at h1
      cases h1
    rw [hempty] at hex2
    rw [hex2] at hk2 ⊢
    simp only [Resp.getDests] at hk2 ⊢
    obtain ⟨hn3, hk3, _⟩ := andThen_none _ _ hk2
    rw [andThen_events_none _ _ hn3]
    have hev3 := (shape_syncDestinations Kernel.handle parseIP
      (handleOf parseIP listing c) [] c c.Servers
      (Kernel.handle.exec (serviceCall parseIP listing c) t).2).2.2 hn3
    have hfresh3 : Table.Fresh parseIP (done ++ [c])
        (syncDestinations Kernel.handle parseIP (handleOf parseIP listing c) [] c c.Servers
          (Kernel.handle.exec (serviceCall parseIP listing c) t).2).st := by
      intro x e2 hx hne
      rcases kernel_syncDestinations_touch parseIP _ _ c _ _ hn3 x e2 hx with h1 | h1
      · obtain ⟨c0, hc0, h0⟩ := hfresh1 x e2 h1 hne
        exact ⟨c0, List.mem_append_left _ hc0, h0⟩
      · exact ⟨c, by simp, IP.Equal_trans h1 (handleOf_addr parseIP listing c)⟩
    have hcfg3 : ((done ++ [c]) ++ todo).Pairwise
        (fun a b => (parseIP a.Address).Equal (parseIP b.Address) = false) := by
      simpa using hcfg
    rw [ih (done ++ [c]) _ hcfg3 hfresh3 hk3, hev3, hr1]
    simp [syncTrace, syncBlock, List.replicate_succ]

/-- The calls of a run on the model that returns `nil`, for configured services of pairwise
distinct addresses: the listing, the calls of the first loop, and for each configured service
its service call, the listing of its destinations, which is empty, and one `NewDestination`
call per configured server. -/
theorem kernel_ReloadConfig_calls (parseIP : String → IP) (config : Config) (t : Table)
    (hservices : config.DistinctServices parseIP)
    (hnil : (ReloadConfig Kernel.handle parseIP config t).err = none) :
    ∃ lsP : List (List Destination),
      (ReloadConfig Kernel.handle parseIP config t).events.map Event.call =
        .ListServices ::
          ((pruneTrace parseIP config ConfigLVS.zero.Servers (t.map Entry.svc) lsP).map
              Event.call ++
            config.LVS.flatMap (createCalls parseIP (t.map Entry.svc))) := by
  unfold ReloadConfig at hnil ⊢
  obtain ⟨_, hk1, _⟩ := perform_none _ _ _ _ _ hnil
  rw [perform_events_none _ _ _ _ _ hnil]
  have hexec : Kernel.handle.exec .ListServices t = (Resp.services (t.map Entry.svc), t) := rfl
  rw [hexec] at hk1 ⊢
  simp only [Resp.getServices] at hk1 ⊢
  obtain ⟨hn2, hk2, _⟩ := andThen_none _ _ hk1
  rw [andThen_events_none _ _ hn2]
  obtain ⟨hp1, hp2⟩ := kernel_pruneServices_heads parseIP config (t.map Entry.svc) t
    (fun _ => False) (fun _ h => h.elim) hn2
  have hfresh : Table.Fresh parseIP []
      (pruneServices Kernel.handle parseIP config (t.map Entry.svc) t).st := by
    intro x e he hne
    obtain ⟨hmem, hsame⟩ := lookup_some he
    obtain ⟨e1, he1, hsvc⟩ := hp2 e hmem
    have hl : (pruneServices Kernel.handle parseIP config (t.map Entry.svc) t).st.lookup e.svc =
        some e := by
      rw [lookup_congr hsame]
      exact he
    exact absurd (hp1 e.svc (Or.inr (by rw [hsvc]; exact List.mem_map_of_mem _ he1)) e hl) hne
  have hsync := kernel_syncServices_fresh parseIP (t.map Entry.svc) [] config.LVS _
    (by simpa using hservices) hfresh hk2
  obtain ⟨lsP, _, hshape⟩ := shape_pruneServices Kernel.handle parseIP config
    (t.map Entry.svc) t
  refine ⟨lsP, ?_⟩
  rw [hsync, hshape.2.2 hn2, List.map_cons, List.map_append, syncTrace_empty_calls]

theorem destinationCalls_flatMap_createCalls (parseIP : String → IP) (listing : List Service)
    (l : List ConfigLVS) :
    (l.flatMap (createCalls parseIP listing)).filter Call.isDestinationCall =
      l.flatMap (fun c => c.Servers.map (fun sv =>
        Call.NewDestination (handleOf parseIP listing c) (destinationOf parseIP c sv))) := by
  induction l with
  | nil => rfl
  | cons c rest ih =>
    simp only [List.flatMap_cons, List.filter_append, ih]
    congr 1
    have h1 : (serviceCall parseIP listing c).isDestinationCall = false := by
      unfold serviceCall
      cases findService parseIP listing c <;> rfl
    simp only [createCalls]
    rw [List.filter_cons_of_neg (by simp [h1]), List.filter_cons_of_neg (by simp [Call.isDestinationCall])]
    rw [List.filter_eq_self]
    intro x hx
    obtain ⟨sv, _, rfl⟩ := List.mem_map.1 hx
    rfl

theorem serviceCalls_flatMap_createCalls (parseIP : String → IP) (listing : List Service)
    (l : List ConfigLVS) :
    (l.flatMap (createCalls parseIP listing)).filter Call.isServiceCall =
      l.map (serviceCall parseIP listing) := by
  induction l with
  | nil => rfl
  | cons c rest ih =>
    simp only [List.flatMap_cons, List.filter_append, ih, List.map_cons]
    rw [← List.singleton_append]
    congr 1
    simp only [createCalls]
    rw [List.filter_cons_of_pos (serviceCall_isServiceCall parseIP listing c),
      List.filter_cons_of_neg (by simp [Call.isServiceCall])]
    congr 1
    rw [List.filter_eq_nil_iff]
    intro x hx
    obtain ⟨sv, _, rfl⟩ := List.mem_map.1 hx
    simp [Call.isServiceCall]

theorem pruneTrace_calls_filter (parseIP : String → IP) (config : Config)
    (servers : List ConfigServer) (l : List Service) (ls : List (List Destination))
    (p : Call → Bool) (hp : ∀ c : Call, c.isSync = false → p c = false) :
    ((pruneTrace parseIP config servers l ls).map Event.call).filter p = [] := by
  rw [List.filter_eq_nil_iff]
  intro c hc
  obtain ⟨e, he, rfl⟩ := List.mem_map.1 hc
  simp [hp _ (pruneTrace_not_sync parseIP config servers l ls e he)]

theorem mem_createCalls {parseIP : String → IP} {listing : List Service} {c : ConfigLVS}
    {x : Call} (hx : x ∈ createCalls parseIP listing c) :
    x = serviceCall parseIP listing c ∨
      x = .ListDestinations (handleOf parseIP listing c) ∨
      ∃ sv ∈ c.Servers,
        x = .NewDestination (handleOf parseIP listing c) (destinationOf parseIP c sv) := by
  simp only [createCalls, List.mem_cons, List.mem_map] at hx
  rcases hx with h | h | ⟨sv, hsv, h⟩
  · exact Or.inl h
  · exact Or.inr (Or.inl h)
  · exact Or.inr (Or.inr ⟨sv, hsv, h.symm⟩)

/-- C19 (destinations are always added anew). On the model of the kernel table, for every
table and every configuration whose service addresses are pairwise distinct, a run in which
every call succeeds returns `nil`, issues no `UpdateDestination` call, and its destination
calls are one `NewDestination` call per configured server of every configured service, in
configuration order, on the handle of that service and with the record built from the
configuration. This holds for every table, also one that held a destination with the address,
port and weight of a configured server: the first loop deletes it and the second loop lists
no destination. -/
theorem ReloadConfig_readds_destinations (parseIP : String → IP) (config : Config) (t : Table)
    (hservices : config.DistinctServices parseIP)
    (hok : ∀ e ∈ (ReloadConfig Kernel.handle parseIP config t).events, e.ok = true) :
    (ReloadConfig Kernel.handle parseIP config t).err = none ∧
      (∀ e ∈ (ReloadConfig Kernel.handle parseIP config t).events,
        ∀ s d, e.call ≠ .UpdateDestination s d) ∧
      destinationCalls (ReloadConfig Kernel.handle parseIP config t).events =
        config.LVS.flatMap (fun c => c.Servers.map (fun sv =>
          Call.NewDestination (handleOf parseIP (t.map Entry.svc) c)
            (destinationOf parseIP c sv))) := by
  have hnil := failFast_err_of_all_ok (traced_ReloadConfig Kernel.handle parseIP config t).1 hok
  obtain ⟨lsP, hcalls⟩ := kernel_ReloadConfig_calls parseIP config t hservices hnil
  refine ⟨hnil, ?_, ?_⟩
  · intro e he s d heq
    have hmem : e.call ∈ (ReloadConfig Kernel.handle parseIP config t).events.map Event.call :=
      List.mem_map_of_mem _ he
    rw [hcalls, heq] at hmem
    simp only [List.mem_cons, List.mem_append, List.mem_map, List.mem_flatMap,
      reduceCtorEq, false_or] at hmem
    rcases hmem with ⟨e2, he2, hc2⟩ | ⟨c, _, hc⟩
    · have := pruneTrace_not_sync parseIP config _ _ lsP e2 he2
      rw [hc2] at this
      cases this
    · rcases mem_createCalls hc with h | h | ⟨sv, _, h⟩
      · unfold serviceCall at h
        cases hf : findService parseIP (t.map Entry.svc) c <;> rw [hf] at h <;> cases h
      · cases h
      · cases h
  · unfold destinationCalls
    rw [hcalls, List.filter_cons_of_neg (by simp [Call.isDestinationCall]), List.filter_append,
      pruneTrace_calls_filter parseIP config _ _ lsP Call.isDestinationCall
        (by intro c hc; cases c <;> simp_all [Call.isSync, Call.isDestinationCall]),
      List.nil_append, destinationCalls_flatMap_createCalls]

theorem ReloadConfig_readds_destinations_witness :
    liveDestination 10 0 0 2 80 1 ∈ (webTable.flatMap Entry.dests) ∧
      destinationCalls (ReloadConfig Kernel.handle parseIPv4 webConfig webTable).events =
        [.NewDestination (liveService 10 0 0 1 80)
            ⟨parseIPv4 "10.0.0.2", AF_INET, 80, IP_VS_CONN_F_MASQ, 1⟩,
          .NewDestination (liveService 10 0 0 1 80)
            ⟨parseIPv4 "10.0.0.3", AF_INET, 80, IP_VS_CONN_F_MASQ, 2⟩] :=
  ⟨by decide,
    (ReloadConfig_readds_destinations parseIPv4 webConfig webTable
      (by unfold Config.DistinctServices; decide) (by decide)).2.2.trans (by decide)⟩

/-- C16 (reconcile against an empty table). On the model of the kernel table, for every
configuration whose service addresses are pairwise distinct, when `ListServices` returns the
empty list and every call succeeds, the calls of the run are the listing and then, for each
configured service in configuration order, one `NewService` call, the listing of its
destinations, and one `NewDestination` call per configured server in configuration order. So
its service calls are one `NewService` per configured service, its destination calls one
`NewDestination` per configured server, and it issues no `UpdateService`,
`UpdateDestination`, `DelService` or `DelDestination` call. -/
theorem ReloadConfig_empty_table (parseIP : String → IP) (config : Config) (t : Table)
    (hservices : config.DistinctServices parseIP)
    (hempty : (Kernel.handle.ListServices t).1 = .ok [])
    (hok : ∀ e ∈ (ReloadConfig Kernel.handle parseIP config t).events, e.ok = true) :
    (ReloadConfig Kernel.handle parseIP config t).events.map Event.call =
        .ListServices :: config.LVS.flatMap (fun c =>
          .NewService (serviceOf parseIP c) :: .ListDestinations (serviceOf parseIP c) ::
            c.Servers.map (fun sv =>
              .NewDestination (serviceOf parseIP c) (destinationOf parseIP c sv))) ∧
      serviceCalls (ReloadConfig Kernel.handle parseIP config t).events =
        config.LVS.map (fun c => Call.NewService (serviceOf parseIP c)) ∧
      destinationCalls (ReloadConfig Kernel.handle parseIP config t).events =
        config.LVS.flatMap (fun c => c.Servers.map (fun sv =>
          Call.NewDestination (serviceOf parseIP c) (destinationOf parseIP c sv))) ∧
      ∀ e ∈ (ReloadConfig Kernel.handle parseIP config t).events, ∀ s d,
        e.call ≠ .UpdateService s ∧ e.call ≠ .UpdateDestination s d ∧
          e.call ≠ .DelService s ∧ e.call ≠ .DelDestination s d := by
  have ht : t = [] := by
    have h1 : t.map Entry.svc = [] := by
      simpa [Kernel.handle, Kernel.ListServices] using hempty
    simpa using h1
  subst ht
  have hnil := failFast_err_of_all_ok
    (traced_ReloadConfig Kernel.handle parseIP config []).1 hok
  obtain ⟨lsP, hcalls⟩ := kernel_ReloadConfig_calls parseIP config [] hservices hnil
  have hcreate : ∀ c : ConfigLVS, createCalls parseIP [] c =
      .NewService (serviceOf parseIP c) :: .ListDestinations (serviceOf parseIP c) ::
        c.Servers.map (fun sv =>
          .NewDestination (serviceOf parseIP c) (destinationOf parseIP c sv)) := by
    intro c
    simp [createCalls, serviceCall, handleOf, findService]
  have hcalls2 : (ReloadConfig Kernel.handle parseIP config []).events.map Event.call =
      .ListServices :: config.LVS.flatMap (createCalls parseIP []) := by
    rw [hcalls]
    simp [pruneTrace]
  refine ⟨?_, ?_, ?_, ?_⟩
  · rw [hcalls2]
    rfl
  · unfold serviceCalls
    rw [hcalls2, List.filter_cons_of_neg (by simp [Call.isServiceCall]),
      serviceCalls_flatMap_createCalls]
    exact List.map_congr_left (fun c _ => by simp [serviceCall, findService])
  · unfold destinationCalls
    rw [hcalls2, List.filter_cons_of_neg (by simp [Call.isDestinationCall]),
      destinationCalls_flatMap_createCalls]
    rfl
  · intro e he s d
    have hmem : e.call ∈ (ReloadConfig Kernel.handle parseIP config []).events.map Event.call :=
      List.mem_map_of_mem _ he
    rw [hcalls2] at hmem
    simp only [List.mem_cons, List.mem_flatMap] at hmem
    rcases hmem with h | ⟨c, _, hc⟩
    · rw [h]
      simp
    · rw [hcreate c] at hc
      simp only [List.mem_cons, List.mem_map] at hc
      rcases hc with h | h | ⟨sv, _, h⟩
      · rw [h]
        simp
      · rw [h]
        simp
      · rw [← h]
        simp

theorem ReloadConfig_empty_table_witness :
    (ReloadConfig Kernel.handle parseIPv4 webConfig []).events.map Event.call =
      [.ListServices,
        .NewService ⟨parseIPv4 "10.0.0.1", AF_INET, IPPROTO_TCP, 80, "rr"⟩,
        .ListDestinations ⟨parseIPv4 "10.0.0.1", AF_INET, IPPROTO_TCP, 80, "rr"⟩,
        .NewDestination ⟨parseIPv4 "10.0.0.1", AF_INET, IPPROTO_TCP, 80, "rr"⟩
          ⟨parseIPv4 "10.0.0.2", AF_INET, 80, IP_VS_CONN_F_MASQ, 1⟩,
        .NewDestination ⟨parseIPv4 "10.0.0.1", AF_INET, IPPROTO_TCP, 80, "rr"⟩
          ⟨parseIPv4 "10.0.0.3", AF_INET, 80, IP_VS_CONN_F_MASQ, 2⟩] :=
  (ReloadConfig_empty_table parseIPv4 webConfig []
    (by unfold Config.DistinctServices; decide) rfl (by decide)).1.trans (by decide)

/-- C20 (one listing decides the second loop). Every run starts with the `ListServices` call
and makes no other; so the listing comes before every mutation. The service calls of the run
are, in configuration order, an initial segment of the calls that the listing alone decides,
and all of them when the run returns `nil`: the state of the collaborator at the time of the
call plays no part. For a configured service whose address no listed service has, the call is
`NewService`, whatever the run created before; so in a run that returns `nil` every such
configured service gets its `NewService` call, also when an earlier configured service has the
same address. -/
theorem ReloadConfig_lists_services_once {σ : Type} (h : IPVSHandle σ) (parseIP : String → IP)
    (config : Config) (st : σ) :
    (∃ rest, (ReloadConfig h parseIP config st).events =
        ⟨.ListServices, (h.exec .ListServices st).1⟩ :: rest ∧
        ∀ e ∈ rest, e.call ≠ .ListServices) ∧
      serviceCalls (ReloadConfig h parseIP config st).events <+:
        config.LVS.map (serviceCall parseIP (h.exec .ListServices st).1.getServices) ∧
      ((ReloadConfig h parseIP config st).err = none →
        serviceCalls (ReloadConfig h parseIP config st).events =
          config.LVS.map (serviceCall parseIP (h.exec .ListServices st).1.getServices)) ∧
      (∀ c : ConfigLVS,
        (∀ s ∈ (h.exec .ListServices st).1.getServices,
          s.Address.Equal (parseIP c.Address) = false) →
        serviceCall parseIP (h.exec .ListServices st).1.getServices c =
          .NewService (serviceOf parseIP c)) ∧
      ((ReloadConfig h parseIP config st).err = none →
        ∀ c ∈ config.LVS,
          (∀ s ∈ (h.exec .ListServices st).1.getServices,
            s.Address.Equal (parseIP c.Address) = false) →
          Call.NewService (serviceOf parseIP c) ∈
            serviceCalls (ReloadConfig h parseIP config st).events) := by
  obtain ⟨lsP, lsS, hP, hS, hshape⟩ := shape_ReloadConfig h parseIP config st
  have hexp : serviceCalls (⟨.ListServices, .services (h.exec .ListServices st).1.getServices⟩ ::
      (pruneTrace parseIP config ConfigLVS.zero.Servers
          (h.exec .ListServices st).1.getServices lsP ++
        syncTrace parseIP (h.exec .ListServices st).1.getServices config.LVS lsS)) =
      config.LVS.map (serviceCall parseIP (h.exec .ListServices st).1.getServices) := by
    have h1 : serviceCalls [(⟨.ListServices,
        .services (h.exec .ListServices st).1.getServices⟩ : Event)] = [] := rfl
    rw [← List.singleton_append, serviceCalls_append, serviceCalls_append, h1,
      serviceCalls_pruneTrace, serviceCalls_syncTrace parseIP _ config.LVS lsS hS]
    rfl
  have hnew : ∀ c : ConfigLVS,
      (∀ s ∈ (h.exec .ListServices st).1.getServices,
        s.Address.Equal (parseIP c.Address) = false) →
      serviceCall parseIP (h.exec .ListServices st).1.getServices c =
        .NewService (serviceOf parseIP c) := by
    intro c hc
    rw [serviceCall_eq]
    have : (h.exec .ListServices st).1.getServices.any
        (fun s => s.Address.Equal (parseIP c.Address)) = false := by
      rw [List.any_eq_false]
      intro s hs
      simp [hc s hs]
    simp [this]
  have hall : (ReloadConfig h parseIP config st).err = none →
      serviceCalls (ReloadConfig h parseIP config st).events =
        config.LVS.map (serviceCall parseIP (h.exec .ListServices st).1.getServices) := by
    intro he
    rw [hshape.2.2 he, hexp]
  refine ⟨?_, ?_, hall, hnew, ?_⟩
  · obtain ⟨tl, htl⟩ : ∃ tl, (ReloadConfig h parseIP config st).events =
        ⟨.ListServices, (h.exec .ListServices st).1⟩ :: tl := by
      unfold ReloadConfig
      exact perform_events h _ _ _ st
    refine ⟨tl, htl, ?_⟩
    intro e he
    have hpre := hshape.1
    rw [htl, List.map_cons, List.map_cons, List.cons_prefix_cons] at hpre
    have hmem := hpre.2.subset (List.mem_map_of_mem Event.call he)
    obtain ⟨e2, he2, hc2⟩ := List.mem_map.1 hmem
    rw [← hc2]
    rcases List.mem_append.1 he2 with he2 | he2
    · obtain ⟨s, _, h2⟩ := mem_pruneTrace parseIP config _ _ lsP e2 he2
      rcases h2 with ⟨_, ⟨ds, rfl⟩ | ⟨d, rfl⟩⟩ | ⟨_, rfl⟩ <;> simp
    · obtain ⟨c, _, ds, h2⟩ := mem_syncTrace parseIP _ config.LVS lsS e2 he2
      rcases h2 with rfl | rfl | ⟨sv, _, rfl⟩
      · intro heq
        have := serviceCall_isMutation parseIP (h.exec .ListServices st).1.getServices c
        simp only at heq
        rw [heq] at this
        cases this
      · simp
      · intro heq
        have := destinationCall_isMutation parseIP
          (handleOf parseIP (h.exec .ListServices st).1.getServices c) ds c sv
        simp only at heq
        rw [heq] at this
        cases this
  · rw [← hexp]
    exact hshape.1.filter _
  · intro he c hc hno
    rw [hall he, ← hnew c hno]
    exact List.mem_map_of_mem _ hc

theorem ReloadConfig_lists_services_once_witness :
    (ReloadConfig Kernel.handle parseIPv4 twoPortConfig []).events.map Event.call =
        [.ListServices,
          .NewService ⟨parseIPv4 "10.0.0.1", AF_INET, IPPROTO_TCP, 80, "rr"⟩,
          .ListDestinations ⟨parseIPv4 "10.0.0.1", AF_INET, IPPROTO_TCP, 80, "rr"⟩,
          .NewService ⟨parseIPv4 "10.0.0.1", AF_INET, IPPROTO_TCP, 443, "rr"⟩,
          .ListDestinations ⟨parseIPv4 "10.0.0.1", AF_INET, IPPROTO_TCP, 443, "rr"⟩] ∧
      serviceCalls (ReloadConfig Kernel.handle parseIPv4 twoPortConfig []).events =
        [.NewService ⟨parseIPv4 "10.0.0.1", AF_INET, IPPROTO_TCP, 80, "rr"⟩,
          .NewService ⟨parseIPv4 "10.0.0.1", AF_INET, IPPROTO_TCP, 443, "rr"⟩] :=
  ⟨by decide,
    ((ReloadConfig_lists_services_once Kernel.handle parseIPv4 twoPortConfig []).2.2.1
      (by decide)).trans (by decide)⟩

end Keepalivego
